import Mathlib

/-!
# Gastown: PR status, settings reconciliation, git sync and cache cleaning

A shallow embedding of

* `internal/epic/ghclient.go`: `aggregateCIStatus`, `parseReviewStatus`, the `GHClient`
  interface with `StubGHClient`, `GetPRCIStatusWithClient`, `GetPRReviewStatusWithClient`;
* `internal/doctor/claude_settings_check.go`: `findSettingsFiles`, `checkSettings`,
  `hookHasPattern`, `Run`, `Fix`;
* `internal/epic/sync.go`: `CheckConflicts`, `RebaseBranch`, `ForcePushBranch` and their
  helpers;
* `internal/cmd/doctor_cache.go`: `runDoctorCache`, `collectCacheStats`,
  `cleanStaleEntries`, `cleanFullCache`, `getAgeBucket`, `formatSize` and their helpers;
* `internal/tmux/signal_unix.go`, `internal/tmux/signal_windows.go`: `killProcessGroup`;
* the epic state machine `ValidEpicStateTransition`, whose table is exercised by
  `internal/cmd/epic_test.go`.

Go strings are embedded as `String`, Go slices as `List`, Go `int` and `int64` as `Int`.
Counters are bounded by a slice length, so they cannot wrap around; the one negation of an
arbitrary `int` (`-pgid`) is written with its 64-bit wrap-around (`goNeg`). The one
floating-point computation, `float64(bytes)/unit` printed with `%.1f` in `formatSize`, is
embedded with its roundings: the conversion rounds to 53 binary digits (`float64`), the
division by a power of two is exact, and the printing rounds the exact quotient to one
decimal (`sprintfF1`), each to nearest, ties to even.
A Go `for _, x := range xs` loop is embedded as a left fold of the loop body over `xs`.
-/

namespace Gastown

/-! ## `internal/epic`: data model -/

/-- PRCheck represents a single CI check result (`ghclient.go`). -/
structure PRCheck where
  State : String
  Name : String
  DetailsURL : String
  deriving DecidableEq, Repr

/-- PRReview represents a single review (`ghclient.go`). -/
structure PRReview where
  State : String
  deriving DecidableEq, Repr

/-- PRReviewInfo contains the review decision and the individual reviews (`ghclient.go`). -/
structure PRReviewInfo where
  ReviewDecision : String
  Reviews : List PRReview
  deriving DecidableEq, Repr

/-- CIStatus describes CI status for a PR (`sync.go`). -/
structure CIStatus where
  PRNumber : Int
  State : String
  Details : String
  URL : String
  deriving DecidableEq, Repr

/-- Go `strings.Join(elems, sep)`. -/
def stringsJoin (elems : List String) (sep : String) : String :=
  sep.intercalate elems

/-- Modelled from the spec: the constant `PRStatusApproved` of package `epic` is declared
outside the files at hand; the review mapping of the spec sends `APPROVED` to `approved`,
and `TestPRStatusConstants` pins the same value. -/
def PRStatusApproved : String := "approved"

/-- Modelled from the spec: the constant `PRStatusChangesRequested` of package `epic` is
declared outside the files at hand; the review mapping of the spec sends `CHANGES_REQUESTED`
to `changes_requested`, and `TestPRStatusConstants` pins the same value. -/
def PRStatusChangesRequested : String := "changes_requested"

/-! ## `aggregateCIStatus` -/

/-- The local variables of `aggregateCIStatus` that the loop updates. -/
structure AggVars where
  status : CIStatus
  failedChecks : List String
  pendingChecks : List String
  deriving DecidableEq, Repr

/-- Body of the `for _, check := range checks` loop of `aggregateCIStatus`
(the `switch check.State`). -/
def aggregateCIStatusBody (v : AggVars) (check : PRCheck) : AggVars :=
  if check.State = "FAILURE" ∨ check.State = "ERROR" then
    let status := { v.status with State := "failure" }
    let failedChecks := v.failedChecks ++ [check.Name]
    let status := if status.URL = "" then { status with URL := check.DetailsURL } else status
    { v with status := status, failedChecks := failedChecks }
  else if check.State = "PENDING" ∨ check.State = "QUEUED" ∨ check.State = "IN_PROGRESS" then
    let status := if v.status.State ≠ "failure" then { v.status with State := "pending" }
      else v.status
    let pendingChecks := v.pendingChecks ++ [check.Name]
    { v with status := status, pendingChecks := pendingChecks }
  else v

/-- The variables of `aggregateCIStatus` on entry to the loop. -/
def aggregateCIStatusInit (prNumber : Int) : AggVars :=
  { status := { PRNumber := prNumber, State := "success", Details := "", URL := "" },
    failedChecks := [], pendingChecks := [] }

/-- aggregateCIStatus converts raw check data into a CIStatus (`ghclient.go`). -/
def aggregateCIStatus (prNumber : Int) (checks : List PRCheck) : CIStatus :=
  let v := checks.foldl aggregateCIStatusBody (aggregateCIStatusInit prNumber)
  if v.failedChecks.length > 0 then
    { v.status with Details := "Failed: " ++ stringsJoin v.failedChecks ", " }
  else if v.pendingChecks.length > 0 then
    { v.status with Details := "Pending: " ++ stringsJoin v.pendingChecks ", " }
  else
    { v.status with Details := "All checks passed" }

/-! ## `parseReviewStatus` -/

/-- parseReviewStatus converts review info into status and approval count (`ghclient.go`).
The third component is the returned `error` (`none` is Go's `nil`). -/
def parseReviewStatus (info : PRReviewInfo) : String × Int × Option String :=
  let approvals : Int :=
    info.Reviews.foldl (fun approvals review =>
      if review.State = "APPROVED" then approvals + 1 else approvals) 0
  let status :=
    if info.ReviewDecision = "APPROVED" then PRStatusApproved
    else if info.ReviewDecision = "CHANGES_REQUESTED" then PRStatusChangesRequested
    else if info.ReviewDecision = "REVIEW_REQUIRED" then "review_required"
    else "pending"
  (status, approvals, none)

/-! ## Specification-side vocabulary for the CI claims -/

/-- A check counts as failed when its state is `FAILURE` or `ERROR`. -/
def isFailed (c : PRCheck) : Bool :=
  c.State = "FAILURE" ∨ c.State = "ERROR"

/-- A check counts as pending when its state is `PENDING`, `QUEUED` or `IN_PROGRESS`. -/
def isPending (c : PRCheck) : Bool :=
  c.State = "PENDING" ∨ c.State = "QUEUED" ∨ c.State = "IN_PROGRESS"

/-- Names of the failed checks, in input order. -/
def failedNames (checks : List PRCheck) : List String :=
  (checks.filter isFailed).map (·.Name)

/-- Names of the pending checks, in input order. -/
def pendingNames (checks : List PRCheck) : List String :=
  (checks.filter isPending).map (·.Name)

/-- The URL the claims attribute to a failing run: the `DetailsURL` of the first
(lowest-index) failed check, the empty string when no check failed. -/
def firstFailedURL (checks : List PRCheck) : String :=
  match checks.find? isFailed with
  | some c => c.DetailsURL
  | none => ""

/-- Number of reviews whose state is exactly `APPROVED`. -/
def approvedCount (reviews : List PRReview) : Nat :=
  reviews.countP (fun r => r.State = "APPROVED")

/-! ## `internal/doctor`: decoded JSON values

`json.Unmarshal` into a `map[string]any` yields values of these dynamic types: `nil`,
`bool`, `float64`, `string`, `[]any` and `map[string]any`. A Go map is embedded as an
association list read with `List.lookup`; the number payload is never inspected by the
code under study. -/

/-- A Go value of static type `any` as produced by `encoding/json`. -/
inductive GoAny where
  | null
  | bool (b : Bool)
  | number (n : Int)
  | string (s : String)
  | slice (xs : List GoAny)
  | map (kvs : List (String × GoAny))

/-- Go `strings.Contains(s, substr)`: `substr` occurs in `s` as a contiguous block. -/
def stringsContains (s substr : String) : Bool :=
  s.toList.tails.any (fun t => substr.toList.isPrefixOf t)

/-- The inner loop of `hookHasPattern` (`for _, inner := range innerHooks`): `true` is the
early `return true`, `false` is falling out of the loop. -/
def innerHooksHavePattern (pattern : String) : List GoAny → Bool
  | [] => false
  | inner :: rest =>
    match inner with
    | .map innerMap =>
      match innerMap.lookup "command" with
      | some (.string cmd) =>
        if stringsContains cmd pattern then true else innerHooksHavePattern pattern rest
      | _ => innerHooksHavePattern pattern rest
    | _ => innerHooksHavePattern pattern rest

/-- The outer loop of `hookHasPattern` (`for _, hook := range hookList`). -/
def hookListHasPattern (pattern : String) : List GoAny → Bool
  | [] => false
  | hook :: rest =>
    match hook with
    | .map hookMap =>
      match hookMap.lookup "hooks" with
      | some (.slice innerHooks) =>
        if innerHooksHavePattern pattern innerHooks then true
        else hookListHasPattern pattern rest
      | _ => hookListHasPattern pattern rest
    | _ => hookListHasPattern pattern rest

/-- hookHasPattern checks if a hook contains a specific pattern
(`claude_settings_check.go`). -/
def hookHasPattern (hooks : List (String × GoAny)) (hookName pattern : String) : Bool :=
  match hooks.lookup hookName with
  | some (.slice hookList) => hookListHasPattern pattern hookList
  | _ => false

/-- The two library calls `checkSettings` makes: `os.ReadFile` and `json.Unmarshal` into a
`map[string]any` (a JSON `null` leaves the map nil, which reads as the empty map). An
`Except.error` carries the Go error. -/
structure SettingsReader where
  readFile : String → Except String String
  unmarshal : String → Except String (List (String × GoAny))

/-- checkSettings compares a settings file against the expected template and returns a
list of what is missing (`claude_settings_check.go`). -/
def checkSettings (rd : SettingsReader) (path : String) ( _agentType : String) : List String :=
  let missing : List String := []
  match rd.readFile path with
  | .error _ => ["unreadable"]
  | .ok data =>
    match rd.unmarshal data with
    | .error _ => ["invalid JSON"]
    | .ok actual =>
      let missing :=
        if (actual.lookup "enabledPlugins").isNone then missing ++ ["enabledPlugins"]
        else missing
      match actual.lookup "hooks" with
      | some (.map hooks) =>
        let missing :=
          if !hookHasPattern hooks "SessionStart" "PATH=" then missing ++ ["PATH export"]
          else missing
        let missing :=
          if !hookHasPattern hooks "SessionStart" "gt nudge deacon session-started" then
            missing ++ ["deacon nudge"]
          else missing
        let missing :=
          if !hookHasPattern hooks "Stop" "gt costs record" then missing ++ ["Stop hook"]
          else missing
        missing
      | _ => missing ++ ["hooks"]

/-- Specification side: the decoded settings have, under `hooks.<hookName>`, a list with
an object whose `hooks` list has an object whose `command` is a string containing
`pattern`. -/
def HasHookCommand (actual : List (String × GoAny)) (hookName pattern : String) : Prop :=
  ∃ hooks hookList hookMap innerHooks innerMap cmd,
    actual.lookup "hooks" = some (.map hooks) ∧
    hooks.lookup hookName = some (.slice hookList) ∧
    GoAny.map hookMap ∈ hookList ∧
    hookMap.lookup "hooks" = some (.slice innerHooks) ∧
    GoAny.map innerMap ∈ innerHooks ∧
    innerMap.lookup "command" = some (.string cmd) ∧
    pattern.toList <:+: cmd.toList

/-! ## `findSettingsFiles` -/

/-- One discovered settings file (`claude_settings_check.go`). -/
structure staleSettingsInfo where
  path : String := ""
  agentType : String := ""
  rigName : String := ""
  sessionName : String := ""
  missing : List String := []
  wrongLocation : Bool := false
  deriving DecidableEq, Repr

/-- What `os.Stat` reports about a path, as far as `fileExists` looks. -/
structure FileInfo where
  IsDir : Bool
  deriving DecidableEq, Repr

/-- One entry of `os.ReadDir`. -/
structure DirEntry where
  Name : String
  IsDir : Bool
  deriving DecidableEq, Repr

/-- The file-system reads of `findSettingsFiles`: `os.Stat`, `os.ReadDir` (the entries read
and the error, `none` being nil), the package helper `dirExists` (declared outside the
files at hand) and `filepath.Join`. -/
structure FsView where
  stat : String → Except String FileInfo
  readDir : String → List DirEntry × Option String
  dirExists : String → Bool
  join : List String → String

/-- fileExists checks if a file exists (`claude_settings_check.go`). -/
def fileExists (fs : FsView) (path : String) : Bool :=
  match fs.stat path with
  | .error _ => false
  | .ok info => !info.IsDir

/-- Body of the loop over `crewEntries` in `findSettingsFiles`. -/
def crewBody (fs : FsView) (crewDir rigName : String) (files : List staleSettingsInfo)
    (crewEntry : DirEntry) : List staleSettingsInfo :=
  if !crewEntry.IsDir then files
  else
    let crewSettings := fs.join [crewDir, crewEntry.Name, ".claude", "settings.json"]
    if fileExists fs crewSettings then
      files ++ [{ path := crewSettings, agentType := "crew", rigName := rigName,
                  sessionName := "gt-" ++ rigName ++ "-crew-" ++ crewEntry.Name }]
    else files

/-- Body of the loop over `polecatEntries` in `findSettingsFiles`. -/
def polecatBody (fs : FsView) (polecatsDir rigName : String) (files : List staleSettingsInfo)
    (pcEntry : DirEntry) : List staleSettingsInfo :=
  if !pcEntry.IsDir then files
  else
    let pcSettings := fs.join [polecatsDir, pcEntry.Name, ".claude", "settings.json"]
    if fileExists fs pcSettings then
      files ++ [{ path := pcSettings, agentType := "polecat", rigName := rigName,
                  sessionName := "gt-" ++ rigName ++ "-polecat-" ++ pcEntry.Name }]
    else files

/-- Body of the loop over the entries of the town root in `findSettingsFiles`. The test
`rigName[0] == '.'` reads the first byte of a directory-entry name, which is never empty;
it is embedded as a test on the first character. -/
def rigBody (fs : FsView) (townRoot : String) (files : List staleSettingsInfo)
    (entry : DirEntry) : List staleSettingsInfo :=
  if !entry.IsDir then files
  else
    let rigName := entry.Name
    let rigPath := fs.join [townRoot, rigName]
    if rigName = "mayor" ∨ rigName = "deacon" ∨ rigName = "daemon" ∨
        rigName = ".git" ∨ rigName = "docs" ∨ rigName.toList.head? = some '.' then files
    else
      let witnessRigSettings := fs.join [rigPath, "witness", "rig", ".claude", "settings.json"]
      let files :=
        if fileExists fs witnessRigSettings then
          files ++ [{ path := witnessRigSettings, agentType := "witness", rigName := rigName,
                      sessionName := "gt-" ++ rigName ++ "-witness" }]
        else files
      let witnessWrongSettings := fs.join [rigPath, "witness", ".claude", "settings.json"]
      let files :=
        if fileExists fs witnessWrongSettings then
          files ++ [{ path := witnessWrongSettings, agentType := "witness", rigName := rigName,
                      sessionName := "gt-" ++ rigName ++ "-witness", wrongLocation := true }]
        else files
      let refineryRigSettings :=
        fs.join [rigPath, "refinery", "rig", ".claude", "settings.json"]
      let files :=
        if fileExists fs refineryRigSettings then
          files ++ [{ path := refineryRigSettings, agentType := "refinery", rigName := rigName,
                      sessionName := "gt-" ++ rigName ++ "-refinery" }]
        else files
      let refineryWrongSettings := fs.join [rigPath, "refinery", ".claude", "settings.json"]
      let files :=
        if fileExists fs refineryWrongSettings then
          files ++ [{ path := refineryWrongSettings, agentType := "refinery",
                      rigName := rigName, sessionName := "gt-" ++ rigName ++ "-refinery",
                      wrongLocation := true }]
        else files
      let crewDir := fs.join [rigPath, "crew"]
      let files :=
        if fs.dirExists crewDir then
          (fs.readDir crewDir).1.foldl (crewBody fs crewDir rigName) files
        else files
      let polecatsDir := fs.join [rigPath, "polecats"]
      let files :=
        if fs.dirExists polecatsDir then
          (fs.readDir polecatsDir).1.foldl (polecatBody fs polecatsDir rigName) files
        else files
      files

/-- findSettingsFiles locates all `.claude/settings.json` files and identifies their agent
type (`claude_settings_check.go`). -/
def findSettingsFiles (fs : FsView) (townRoot : String) : List staleSettingsInfo :=
  let files : List staleSettingsInfo := []
  let mayorSettings := fs.join [townRoot, ".claude", "settings.json"]
  let files :=
    if fileExists fs mayorSettings then
      files ++ [{ path := mayorSettings, agentType := "mayor", sessionName := "gt-mayor" }]
    else files
  let deaconSettings := fs.join [townRoot, "deacon", ".claude", "settings.json"]
  let files :=
    if fileExists fs deaconSettings then
      files ++ [{ path := deaconSettings, agentType := "deacon", sessionName := "gt-deacon" }]
    else files
  match fs.readDir townRoot with
  | (_, some _) => files
  | (entries, none) => entries.foldl (rigBody fs townRoot) files

/-! ## `Fix`

`Fix` acts on the outside world through `os.Remove`, `claude.EnsureSettingsForRole`,
`tmux.HasSession` and `tmux.KillSession`. The world is an abstract state `W` threaded
through these operations; each call is also appended to a log, so that "is called" and
"in this order" are statements about the log. -/

/-- One call `Fix` makes on the outside world. -/
inductive FixCall where
  | osRemove (path : String)
  | ensureSettingsForRole (workDir agentType : String)
  | hasSession (name : String)
  | killSession (name : String)
  deriving DecidableEq, Repr

/-- The operations `Fix` uses, over a world `W`. An error result `none` is Go nil, `some m`
an error with message `m`. `HasSession` returns `(bool, error)`. `filepathDir` is
`filepath.Dir`. -/
structure FixEnv (W : Type) where
  osRemove : String → W → Option String × W
  filepathDir : String → String
  ensureSettingsForRole : String → String → W → Option String × W
  hasSession : String → W → (Bool × Option String) × W
  killSession : String → W → Option String × W

/-- The variable `errors` of `Fix`, the world and the log of calls. -/
structure FixVars (W : Type) where
  errors : List String
  world : W
  calls : List FixCall

/-- Body of the loop `for _, sf := range c.staleSettings` of `Fix`. -/
def fixBody {W : Type} (env : FixEnv W) (v : FixVars W) (sf : staleSettingsInfo) : FixVars W :=
  match env.osRemove sf.path v.world with
  | (some err, w1) =>
    { errors := v.errors ++ ["failed to delete " ++ sf.path ++ ": " ++ err],
      world := w1,
      calls := v.calls ++ [.osRemove sf.path] }
  | (none, w1) =>
    let claudeDir := env.filepathDir sf.path
    let w2 := (env.osRemove claudeDir w1).2
    let calls := v.calls ++ [.osRemove sf.path, .osRemove claudeDir]
    if sf.wrongLocation then { errors := v.errors, world := w2, calls := calls }
    else
      let workDir := env.filepathDir claudeDir
      match env.ensureSettingsForRole workDir sf.agentType w2 with
      | (some err, w3) =>
        { errors := v.errors ++ ["failed to recreate settings for " ++ sf.path ++ ": " ++ err],
          world := w3,
          calls := calls ++ [.ensureSettingsForRole workDir sf.agentType] }
      | (none, w3) =>
        let calls := calls ++ [.ensureSettingsForRole workDir sf.agentType]
        match env.hasSession sf.sessionName w3 with
        | ((running, _), w4) =>
          let calls := calls ++ [.hasSession sf.sessionName]
          if running then
            { errors := v.errors,
              world := (env.killSession sf.sessionName w4).2,
              calls := calls ++ [.killSession sf.sessionName] }
          else { errors := v.errors, world := w4, calls := calls }

/-- What a run of `Fix` yields: the returned error, the world it leaves and the calls it
made, in order. -/
structure FixResult (W : Type) where
  err : Option String
  world : W
  calls : List FixCall

/-- Fix deletes stale settings files and restarts affected agents
(`claude_settings_check.go`); `staleSettings` is the field `c.staleSettings`. -/
def Fix {W : Type} (env : FixEnv W) (staleSettings : List staleSettingsInfo) (w : W) :
    FixResult W :=
  let v := staleSettings.foldl (fixBody env) { errors := [], world := w, calls := [] }
  if v.errors.length > 0 then
    { err := some (stringsJoin v.errors "; "), world := v.world, calls := v.calls }
  else
    { err := none, world := v.world, calls := v.calls }

/-- Specification side: the entry sits at `<rig>/witness/.claude/settings.json` or at
`<rig>/refinery/.claude/settings.json`, for a directory `<rig>` directly under the town
root. -/
def AtLegacyLocation (fs : FsView) (townRoot : String) (e : staleSettingsInfo) : Prop :=
  ∃ rigName,
    e.path = fs.join [fs.join [townRoot, rigName], "witness", ".claude", "settings.json"] ∨
    e.path = fs.join [fs.join [townRoot, rigName], "refinery", ".claude", "settings.json"]

/-! ## A small concrete world, used to run `Fix` on examples -/

/-- A world made of the paths that exist and the tmux sessions that run. -/
structure DemoWorld where
  files : List String
  sessions : List String
  deriving DecidableEq, Repr

/-- The path without its last `/`-separated element, which is what `filepath.Dir` returns
on a clean slash-separated path with at least two elements. -/
def demoDir (p : String) : String :=
  String.mk ((p.toList.reverse.dropWhile (fun c => c != '/')).drop 1).reverse

/-- Operations on `DemoWorld`: removing a path fails when it does not exist, regenerating
settings fails for the empty role and otherwise creates `<workDir>/.claude/settings.json`,
a session exists when it is listed, and killing a session unlists it. -/
def demoEnv : FixEnv DemoWorld where
  osRemove := fun p w =>
    if p ∈ w.files then (none, { w with files := w.files.erase p })
    else (some "no such file or directory", w)
  filepathDir := demoDir
  ensureSettingsForRole := fun workDir role w =>
    if role = "" then (some "unknown role", w)
    else (none, { w with files := (workDir ++ "/.claude/settings.json") :: w.files })
  hasSession := fun name w => ((decide (name ∈ w.sessions), none), w)
  killSession := fun name w => (none, { w with sessions := w.sessions.erase name })

/-- A witness settings file at the legacy location of rig `r`. -/
def demoWrong : staleSettingsInfo :=
  { path := "/t/r/witness/.claude/settings.json", agentType := "witness", rigName := "r",
    sessionName := "gt-r-witness", wrongLocation := true }

/-- A stale refinery settings file at the correct location of rig `r`. -/
def demoStale : staleSettingsInfo :=
  { path := "/t/r/refinery/rig/.claude/settings.json", agentType := "refinery",
    rigName := "r", sessionName := "gt-r-refinery", missing := ["Stop hook"] }

/-- Both files exist and both sessions run. -/
def demoWorld : DemoWorld :=
  { files := ["/t/r/witness/.claude/settings.json", "/t/r/refinery/rig/.claude/settings.json"],
    sessions := ["gt-r-witness", "gt-r-refinery"] }

/-- Decoded settings with all four required elements. -/
def demoSettings : List (String × GoAny) :=
  [("enabledPlugins", .map []),
   ("hooks", .map
     [("SessionStart", .slice [.map [("matcher", .string ""), ("hooks", .slice
        [.map [("type", .string "command"),
               ("command",
                 .string "export PATH=$HOME/go/bin:$PATH && gt nudge deacon session-started")]])]]),
      ("Stop", .slice [.map [("matcher", .string ""), ("hooks", .slice
        [.map [("type", .string "command"), ("command", .string "gt costs record")]])]])])]

/-- The same settings without the `Stop` hook. -/
def demoSettingsNoStop : List (String × GoAny) :=
  [("enabledPlugins", .map []),
   ("hooks", .map
     [("SessionStart", .slice [.map [("matcher", .string ""), ("hooks", .slice
        [.map [("type", .string "command"),
               ("command",
                 .string "export PATH=$HOME/go/bin:$PATH && gt nudge deacon session-started")]])]])])]

/-- A reader with three files: `full` decodes to `demoSettings`, `nostop` to
`demoSettingsNoStop`, and `null` is the JSON `null`; every other content is rejected. -/
def demoReader : SettingsReader where
  readFile := fun path =>
    if path = "full" ∨ path = "nostop" ∨ path = "null" then .ok path
    else .error "no such file or directory"
  unmarshal := fun data =>
    if data = "full" then .ok demoSettings
    else if data = "nostop" then .ok demoSettingsNoStop
    else if data = "null" then .ok []
    else .error "invalid character"

/-- Specification side: the failure messages of a run of `Fix`, entry by entry in
processing order. Each entry contributes the error of processing it alone from the world
its predecessors left (nothing when it did not fail). -/
def fixFailures {W : Type} (env : FixEnv W) : List staleSettingsInfo → W → List String
  | [], _ => []
  | sf :: rest, w =>
    (Fix env [sf] w).err.toList ++ fixFailures env rest (Fix env [sf] w).world

/-! ## `internal/epic/sync.go`: git operations

Every `exec.Command("git", args...)` with `cmd.Dir = workDir` goes through `GitEnv.run`,
over an abstract world `W`; each run is appended to a log of `(workDir, args)`. -/

/-- ConflictInfo describes a merge conflict (`sync.go`). -/
structure ConflictInfo where
  Branch : String
  BaseBranch : String
  Files : List String
  PRNumber : Int
  deriving DecidableEq, Repr

/-- RebaseResult describes the result of a rebase operation (`sync.go`). -/
structure RebaseResult where
  Branch : String
  BaseBranch : String
  Success : Bool
  Conflicts : Option ConflictInfo
  CommitCount : Int
  Message : String
  deriving DecidableEq, Repr

/-- What a finished command leaves: the error of `Run`/`Output` (`none` when it exited
zero), its standard output and its standard error. -/
structure CmdResult where
  err : Option String
  stdout : String
  stderr : String
  deriving DecidableEq, Repr

/-- The outside world of the git operations: running `git` with arguments in a directory,
and `fmt.Sscanf(s, "%d", &count)` (the value left in `count` and the error). -/
structure GitEnv (W : Type) where
  run : String → List String → W → CmdResult × W
  sscanInt : String → Int × Option String

/-- The world and the log of git invocations so far. -/
structure GitState (W : Type) where
  world : W
  log : List (String × List String)

/-- Run `git args...` in `workDir` and log it. -/
def git {W : Type} (env : GitEnv W) (workDir : String) (args : List String)
    (st : GitState W) : CmdResult × GitState W :=
  ((env.run workDir args st.world).1,
   { world := (env.run workDir args st.world).2, log := st.log ++ [(workDir, args)] })

/-- Go `unicode.IsSpace`. -/
def unicodeIsSpace (c : Char) : Bool :=
  c = '\t' || c = '\n' || c.toNat = 0x0B || c.toNat = 0x0C || c = '\r' || c = ' ' ||
  c.toNat = 0x85 || c.toNat = 0xA0 || c.toNat = 0x1680 ||
  (0x2000 ≤ c.toNat && c.toNat ≤ 0x200A) || c.toNat = 0x2028 || c.toNat = 0x2029 ||
  c.toNat = 0x202F || c.toNat = 0x205F || c.toNat = 0x3000

/-- Go `strings.TrimSpace`. -/
def stringsTrimSpace (s : String) : String :=
  String.mk ((s.toList.dropWhile unicodeIsSpace).reverse.dropWhile unicodeIsSpace).reverse

/-- Splitting a list of characters at every occurrence of `sep`; the result is never
empty. -/
def splitChars (sep : Char) : List Char → List (List Char)
  | [] => [[]]
  | c :: cs =>
    match splitChars sep cs with
    | [] => [[]]
    | first :: rest => if c = sep then [] :: first :: rest else (c :: first) :: rest

/-- Go `strings.Split(s, sep)` for a separator of one character. -/
def stringsSplit (s : String) (sep : Char) : List String :=
  (splitChars sep s.toList).map String.mk

/-- getCurrentBranch (`sync.go`): the trimmed output of `git branch --show-current`. -/
def getCurrentBranch {W : Type} (env : GitEnv W) (workDir : String) (st : GitState W) :
    (String × Option String) × GitState W :=
  match git env workDir ["branch", "--show-current"] st with
  | (out, st) =>
    match out.err with
    | some e => (("", some ("getting current branch: " ++ e)), st)
    | none => ((stringsTrimSpace out.stdout, none), st)

/-- getConflictingFiles (`sync.go`). -/
def getConflictingFiles {W : Type} (env : GitEnv W) (workDir : String) (st : GitState W) :
    (List String × Option String) × GitState W :=
  match git env workDir ["diff", "--name-only", "--diff-filter=U"] st with
  | (out, st) =>
    match out.err with
    | some e => (([], some e), st)
    | none =>
      (((stringsSplit out.stdout '\n').foldl (fun files line =>
          let line := stringsTrimSpace line
          if line ≠ "" then files ++ [line] else files) [], none), st)

/-- countCommits (`sync.go`). -/
def countCommits {W : Type} (env : GitEnv W) (workDir baseBranch headBranch : String)
    (st : GitState W) : (Int × Option String) × GitState W :=
  match git env workDir ["rev-list", "--count", baseBranch ++ ".." ++ headBranch] st with
  | (out, st) =>
    match out.err with
    | some e => ((0, some e), st)
    | none => (env.sscanInt (stringsTrimSpace out.stdout), st)

/-- CheckConflicts checks if a branch has conflicts with another branch (`sync.go`). The
deferred restore runs last on every path that registered it. -/
def CheckConflicts {W : Type} (env : GitEnv W) (workDir branch baseBranch : String)
    (st : GitState W) : (Option ConflictInfo × Option String) × GitState W :=
  match getCurrentBranch env workDir st with
  | ((_, some err), st) => ((none, some err), st)
  | ((origBranch, none), st) =>
    match git env workDir ["checkout", branch] st with
    | (checkout, st) =>
      match checkout.err with
      | some e => ((none, some ("checking out " ++ branch ++ ": " ++ e)), st)
      | none =>
        match git env workDir ["merge", "--no-commit", "--no-ff", baseBranch] st with
        | (merge, st) =>
          let st := (git env workDir ["merge", "--abort"] st).2
          match merge.err with
          | none => ((none, none), (git env workDir ["checkout", origBranch] st).2)
          | some _ =>
            match getConflictingFiles env workDir st with
            | ((conflictFiles, _), st) =>
              ((some { Branch := branch, BaseBranch := baseBranch, Files := conflictFiles,
                       PRNumber := 0 }, none),
               (git env workDir ["checkout", origBranch] st).2)

/-- RebaseBranch rebases a branch onto another (`sync.go`). -/
def RebaseBranch {W : Type} (env : GitEnv W) (workDir branch ontoBranch : String)
    (st : GitState W) : (Option RebaseResult × Option String) × GitState W :=
  match getCurrentBranch env workDir st with
  | ((_, some err), st) => ((none, some err), st)
  | ((origBranch, none), st) =>
    match git env workDir ["checkout", branch] st with
    | (checkout, st) =>
      match checkout.err with
      | some e => ((none, some ("checking out " ++ branch ++ ": " ++ e)), st)
      | none =>
        match countCommits env workDir ontoBranch branch st with
        | ((commitCount, _), st) =>
          match git env workDir ["rebase", ontoBranch] st with
          | (rebase, st) =>
            match rebase.err with
            | some _ =>
              match getConflictingFiles env workDir st with
              | ((conflictFiles, _), st) =>
                let st := (git env workDir ["rebase", "--abort"] st).2
                ((some { Branch := branch, BaseBranch := ontoBranch, Success := false,
                         Conflicts := some { Branch := branch, BaseBranch := ontoBranch,
                                             Files := conflictFiles, PRNumber := 0 },
                         CommitCount := 0,
                         Message := "Rebase failed with conflicts in " ++
                           toString conflictFiles.length ++ " file(s)" }, none),
                 (git env workDir ["checkout", origBranch] st).2)
            | none =>
              ((some { Branch := branch, BaseBranch := ontoBranch, Success := true,
                       Conflicts := none, CommitCount := commitCount,
                       Message := "Rebased " ++ toString commitCount ++ " commit(s) onto " ++
                         ontoBranch }, none),
               (git env workDir ["checkout", origBranch] st).2)

/-- ForcePushBranch force-pushes a branch to remote (`sync.go`). -/
def ForcePushBranch {W : Type} (env : GitEnv W) (workDir remote branch : String)
    (st : GitState W) : Option String × GitState W :=
  match git env workDir ["push", "--force-with-lease", remote, branch] st with
  | (push, st) =>
    match push.err with
    | some e =>
      (some ("force-pushing " ++ branch ++ ": " ++ e ++ " (" ++
        stringsTrimSpace push.stderr ++ ")"), st)
    | none => (none, st)

/-- Specification side: the non-empty trimmed lines of a command output. -/
def nonEmptyTrimmedLines (out : String) : List String :=
  ((stringsSplit out '\n').map stringsTrimSpace).filter (fun line => line ≠ "")

/-! ## A small git, used to run the git operations on examples -/

/-- A repository reduced to what the operations observe: the branch `HEAD` is on (empty
when `HEAD` is detached), the branches that exist, the pairs `(branch, onto)` whose merge or
rebase stops on a conflict in `README.md`, and the files currently unmerged. -/
structure DemoRepo where
  current : String
  branches : List String
  conflicting : List (String × String)
  unmerged : List String
  deriving DecidableEq, Repr

/-- A command that exited zero with the given standard output. -/
def cmdOk (stdout : String) : CmdResult :=
  { err := none, stdout := stdout, stderr := "" }

/-- A command that exited non-zero with the given standard error. -/
def cmdFail (stderr : String) : CmdResult :=
  { err := some "exit status 1", stdout := "", stderr := stderr }

/-- The commands of the small git. `branch --show-current` prints the current branch, or
nothing when `HEAD` is detached; `checkout` succeeds for an existing branch; a merge or a
rebase of a conflicting pair fails and leaves `README.md` unmerged until it is aborted;
`diff --name-only --diff-filter=U` lists the unmerged files; `rev-list --count` prints 2. -/
def demoGitRun ( _workDir : String) (args : List String) (repo : DemoRepo) :
    CmdResult × DemoRepo :=
  match args with
  | ["branch", "--show-current"] =>
    (cmdOk (if repo.current = "" then "" else repo.current ++ "\n"), repo)
  | ["checkout", b] =>
    if b ∈ repo.branches then (cmdOk "", { repo with current := b })
    else (cmdFail ("error: pathspec did not match: " ++ b), repo)
  | ["merge", "--abort"] => (cmdOk "", { repo with unmerged := [] })
  | ["rebase", "--abort"] => (cmdOk "", { repo with unmerged := [] })
  | ["merge", "--no-commit", "--no-ff", base] =>
    if (repo.current, base) ∈ repo.conflicting then
      (cmdFail "CONFLICT (content): Merge conflict in README.md",
       { repo with unmerged := ["README.md"] })
    else (cmdOk "", repo)
  | ["rebase", onto] =>
    if (repo.current, onto) ∈ repo.conflicting then
      (cmdFail "CONFLICT (content): Merge conflict in README.md",
       { repo with unmerged := ["README.md"] })
    else (cmdOk "", repo)
  | ["diff", "--name-only", "--diff-filter=U"] =>
    (cmdOk (String.join (repo.unmerged.map (fun f => f ++ "\n"))), repo)
  | ["rev-list", "--count", _] => (cmdOk "2\n", repo)
  | ["push", "--force-with-lease", _, _] => (cmdOk "", repo)
  | _ => (cmdFail "unknown command", repo)

/-- Reading a leading run of decimal digits, as `fmt.Sscanf(s, "%d", &count)` does on an
unsigned number. -/
def demoScanInt (s : String) : Int × Option String :=
  match s.toList.takeWhile Char.isDigit with
  | [] => (0, some "expected integer")
  | ds => (Int.ofNat (ds.foldl (fun n c => 10 * n + (c.toNat - 48)) 0), none)

/-- The small git as a `GitEnv`. -/
def demoGit : GitEnv DemoRepo where
  run := demoGitRun
  sscanInt := demoScanInt

/-- On `main`, with a `feature` branch that conflicts with `main`. -/
def demoRepo : DemoRepo :=
  { current := "main", branches := ["main", "feature", "topic"],
    conflicting := [("feature", "main")], unmerged := [] }

/-- The same repository with `HEAD` detached. -/
def demoDetached : DemoRepo :=
  { current := "", branches := ["main", "feature", "topic"],
    conflicting := [("feature", "main")], unmerged := [] }

/-! ## `internal/cmd/doctor_cache.go`: the file system

The cache cleaner acts on the file system through `os.ReadDir`, `os.Stat`, `filepath.Walk`,
`os.Remove`, `os.RemoveAll` and `os.WriteFile`. The file system is embedded as the list of
its entries, each with its full slash-separated path, in the order `filepath.Walk` visits
them; sizes and counts are `Int` (they are bounded by what a disk holds, so `int64` does
not wrap), and instants and durations are `Int` nanoseconds. Writes to standard output are
not embedded: they neither read nor change the file system. -/

/-- One file or directory: what `os.Lstat` reports about it, and its path. -/
structure FsEntry where
  path : String
  isDir : Bool
  size : Int
  modTime : Int
  deriving DecidableEq, Repr

/-- Go `strings.HasPrefix(s, pre)`. -/
def stringsHasPrefix (s pre : String) : Bool :=
  pre.toList.isPrefixOf s.toList

/-- `filepath.Join(dir, name)` for a clean path `dir` and a single element `name`. -/
def filepathJoin (dir name : String) : String :=
  dir ++ "/" ++ name

/-- The path `p` is `root` itself or lies below it. -/
def pathUnder (root p : String) : Bool :=
  p = root || stringsHasPrefix p (root ++ "/")

/-- `filepath.Walk(root, fn)`: the entries `fn` is called on without error, in order. Every
callback of this file returns nil at once when it is handed an error, so the visits with
an error (a missing root) are left out. -/
def fsWalk (fs : List FsEntry) (root : String) : List FsEntry :=
  fs.filter (fun e => pathUnder root e.path)

/-- An `os.FileInfo`, as far as the cleaner reads it. -/
structure FileStat where
  Size : Int
  ModTime : Int
  IsDir : Bool
  deriving DecidableEq, Repr

/-- An `os.DirEntry` of the cache directory: `Info` is the result of `entry.Info()`. -/
structure CacheDirEntry where
  Name : String
  IsDir : Bool
  Info : Except String FileStat

/-- The name of `e` as a child of `dir`, when `e` is an immediate child of `dir`. -/
def childName (dir : String) (e : FsEntry) : Option String :=
  if stringsHasPrefix e.path (dir ++ "/") then
    let name := e.path.toList.drop (dir ++ "/").toList.length
    if name ≠ [] ∧ '/' ∉ name then some (String.mk name) else none
  else none

/-- `os.ReadDir(dir)`: the immediate children of `dir`, and the error (`none` is nil) when
`dir` is not a directory of the file system. -/
def fsReadDir (fs : List FsEntry) (dir : String) : List CacheDirEntry × Option String :=
  if fs.any (fun e => e.path = dir && e.isDir) then
    (fs.filterMap (fun e =>
      (childName dir e).map (fun name =>
        { Name := name, IsDir := e.isDir,
          Info := .ok { Size := e.size, ModTime := e.modTime, IsDir := e.isDir } })), none)
  else ([], some "no such file or directory")

/-- `os.RemoveAll(path)`: removes `path` and everything below it; nil when nothing is
there. -/
def fsRemoveAll (path : String) (fs : List FsEntry) : Option String × List FsEntry :=
  (none, fs.filter (fun e => !pathUnder path e.path))

/-- `os.Remove(path)`: removes a file or an empty directory. -/
def fsRemove (path : String) (fs : List FsEntry) : Option String × List FsEntry :=
  if fs.any (fun e => e.path = path) then
    if fs.any (fun e => stringsHasPrefix e.path (path ++ "/")) then
      (some "directory not empty", fs)
    else (none, fs.filter (fun e => e.path ≠ path))
  else (some "no such file or directory", fs)

/-- `os.WriteFile(path, data, 0644)` at instant `now`. -/
def fsWriteFile (path data : String) (now : Int) (fs : List FsEntry) : List FsEntry :=
  fs.filter (fun e => e.path ≠ path) ++
    [{ path := path, isDir := false, size := data.utf8ByteSize, modTime := now }]

/-- The error of `os.Stat`, as far as `runDoctorCache` tells errors apart. -/
inductive StatError where
  | notExist
  | other (msg : String)
  deriving DecidableEq, Repr

/-- `os.Stat(path)`. -/
def fsStat (fs : List FsEntry) (path : String) : Except StatError FileStat :=
  match fs.find? (fun e => e.path = path) with
  | some e => .ok { Size := e.size, ModTime := e.modTime, IsDir := e.isDir }
  | none => .error .notExist

/-! ## `internal/cmd/doctor_cache.go`: the cleaner -/

/-- CacheEntry represents a file or directory in the cache (`doctor_cache.go`). -/
structure CacheEntry where
  Path : String
  Size : Int
  ModTime : Int
  IsDir : Bool := false
  deriving DecidableEq, Repr

/-- CacheStats holds aggregate cache statistics (`doctor_cache.go`); the two maps are
association lists. -/
structure CacheStats where
  TotalSize : Int := 0
  TotalFiles : Int := 0
  TotalDirs : Int := 0
  ByDir : List (String × Int) := []
  ByAge : List (String × Int) := []
  Largest : List CacheEntry := []
  Stale : List CacheEntry := []
  deriving DecidableEq, Repr

/-- The manifest `createManifest` builds (`doctor_cache.go`). -/
structure Manifest where
  timestamp : String
  cache_dir : String
  entries : List String
  entry_count : Int
  deriving DecidableEq, Repr

/-- The command-line flags of `gt doctor cache` (the package variables `cacheClean`,
`cacheDryRun`, `cacheMaxAge`, `cacheMaxSize`, `cacheFull`, `cacheForce`). -/
structure CacheFlags where
  cacheClean : Bool := false
  cacheDryRun : Bool := false
  cacheMaxAge : Int := 7
  cacheMaxSize : Int := 0
  cacheFull : Bool := false
  cacheForce : Bool := false
  deriving DecidableEq, Repr

/-- What the cleaner takes from outside the file system: the clock (`time.Now()` as
`now`, `t.AddDate(0, 0, days)` as `addDays t days`, `time.Since`, and the Unix second and
RFC 3339 text used for the manifest), `os.UserHomeDir`, `os.TempDir`, the result of
`pgrep -f claude`, `filepath.Rel`, `json.MarshalIndent` of the manifest, `sort.Slice` by
decreasing size, and the order in which `range` runs over the keys of the map `staleDirs`,
which Go leaves unspecified: any rearrangement of the keys. -/
structure CacheEnv where
  now : Int
  addDays : Int → Int → Int
  since : Int → Int
  unixNow : Int
  timestamp : String
  userHomeDir : Except String String
  tempDir : String
  pgrep : CmdResult
  filepathRel : String → String → String
  marshalIndent : Manifest → Except String String
  sortLargest : List CacheEntry → List CacheEntry
  rangeOrder : List String → List String
  rangeOrder_perm : ∀ keys, (rangeOrder keys).Perm keys

/-- getAgeBucket (`doctor_cache.go`); `time.Hour` is 3600 * 10^9 nanoseconds. -/
def getAgeBucket (age : Int) : String :=
  if age < 24 * (3600 * 1000000000) then "<1 day"
  else if age < 7 * 24 * (3600 * 1000000000) then "1-7 days"
  else if age < 30 * 24 * (3600 * 1000000000) then "7-30 days"
  else ">30 days"

/-- isCleanableDir (`doctor_cache.go`): the lookup in the literal map `cleanable`, which
gives `false` for a missing key. -/
def isCleanableDir (name : String) : Bool :=
  name = "debug" || name = "shell-snapshots" || name = "session-env" ||
  name = "telemetry" || name = "file-history"

/-- getDirSize (`doctor_cache.go`). -/
def getDirSize (fs : List FsEntry) (path : String) : Int :=
  (fsWalk fs path).foldl (fun size info => if !info.isDir then size + info.size else size) 0

/-- collectStaleEntries (`doctor_cache.go`). -/
def collectStaleEntries (fs : List FsEntry) (dir : String) (cutoff : Int)
    (stats : CacheStats) : CacheStats :=
  (fsWalk fs dir).foldl (fun stats info =>
    if info.modTime < cutoff then
      { stats with Stale := stats.Stale ++
          [{ Path := info.path, Size := info.size, ModTime := info.modTime,
             IsDir := info.isDir }] }
    else stats) stats

/-- `m[key] = value` on a map embedded as an association list. -/
def mapSet (m : List (String × Int)) (key : String) (value : Int) : List (String × Int) :=
  if m.any (fun kv => kv.1 = key) then
    m.map (fun kv => if kv.1 = key then (key, value) else kv)
  else m ++ [(key, value)]

/-- `m[key]` on a map embedded as an association list (0 for a missing key). -/
def mapGet (m : List (String × Int)) (key : String) : Int :=
  (m.lookup key).getD 0

/-- Body of the first loop of `collectCacheStats`, over the entries of the cache
directory. -/
def collectTopLevel (fs : List FsEntry) (cacheDir : String) (cutoff : Int)
    (stats : CacheStats) (entry : CacheDirEntry) : CacheStats :=
  let path := filepathJoin cacheDir entry.Name
  if entry.IsDir then
    let stats := { stats with TotalDirs := stats.TotalDirs + 1 }
    let size := getDirSize fs path
    let stats := { stats with ByDir := mapSet stats.ByDir entry.Name size }
    let stats := { stats with TotalSize := stats.TotalSize + size }
    if isCleanableDir entry.Name then collectStaleEntries fs path cutoff stats else stats
  else
    match entry.Info with
    | .error _ => stats
    | .ok info =>
      let stats := { stats with TotalFiles := stats.TotalFiles + 1 }
      let stats := { stats with TotalSize := stats.TotalSize + info.Size }
      if info.ModTime < cutoff then
        { stats with Stale := stats.Stale ++
            [{ Path := path, Size := info.Size, ModTime := info.ModTime, IsDir := false }] }
      else stats

/-- Callback of the `filepath.Walk` over the whole cache in `collectCacheStats`. -/
def collectWalk (env : CacheEnv) (stats : CacheStats) (info : FsEntry) : CacheStats :=
  if info.isDir then stats
  else
    let stats := { stats with TotalFiles := stats.TotalFiles + 1 }
    let age := env.since info.modTime
    let bucket := getAgeBucket age
    let stats := { stats with ByAge := mapSet stats.ByAge bucket
                                (mapGet stats.ByAge bucket + info.size) }
    { stats with Largest := stats.Largest ++
        [{ Path := info.path, Size := info.size, ModTime := info.modTime }] }

/-- collectCacheStats (`doctor_cache.go`). -/
def collectCacheStats (env : CacheEnv) (fs : List FsEntry) (cacheDir : String)
    (maxAgeDays : Int) : CacheStats :=
  let stats : CacheStats := {}
  let cutoff := env.addDays env.now (-maxAgeDays)
  match fsReadDir fs cacheDir with
  | (_, some _) => stats
  | (entries, none) =>
    let stats := entries.foldl (collectTopLevel fs cacheDir cutoff) stats
    let stats := (fsWalk fs cacheDir).foldl (collectWalk env) stats
    let stats := { stats with Largest := env.sortLargest stats.Largest }
    if stats.Largest.length > 10 then { stats with Largest := stats.Largest.take 10 }
    else stats

/-- The local variables of `cleanStaleEntries` that its loops update, and the file
system. -/
structure CleanVars where
  fs : List FsEntry
  totalCleaned : Int
  filesCleaned : Int
  deriving DecidableEq, Repr

/-- Body of the loop `for dir := range staleDirs` of `cleanStaleEntries`;
`os.PathSeparator` is `/`. -/
def cleanStaleDir (env : CacheEnv) (cacheDir : String) (dryRun : Bool) (v : CleanVars)
    (dir : String) : CleanVars :=
  let rel := env.filepathRel cacheDir dir
  let parts := stringsSplit rel '/'
  if (match parts with
      | [] => false
      | first :: _ => isCleanableDir first) then
    let size := getDirSize v.fs dir
    if dryRun then v
    else
      match fsRemoveAll dir v.fs with
      | (none, fs) =>
        { fs := fs, totalCleaned := v.totalCleaned + size, filesCleaned := v.filesCleaned + 1 }
      | (some _, fs) => { v with fs := fs }
  else v

/-- Body of the second loop over `stats.Stale` of `cleanStaleEntries`; `staleDirs` holds
the keys of the map. The inner loop over the map stops at the first key that is a prefix
of the path, so `parentRemoved` does not depend on the order of the keys. -/
def cleanStaleFile (staleDirs : List String) (dryRun : Bool) (v : CleanVars)
    (entry : CacheEntry) : CleanVars :=
  if entry.IsDir then v
  else
    let parentRemoved := staleDirs.any (fun dir => stringsHasPrefix entry.Path dir)
    if parentRemoved then v
    else if dryRun then v
    else
      match fsRemove entry.Path v.fs with
      | (none, fs) =>
        { fs := fs, totalCleaned := v.totalCleaned + entry.Size,
          filesCleaned := v.filesCleaned + 1 }
      | (some _, fs) => { v with fs := fs }

/-- The keys of the map `staleDirs` built by `cleanStaleEntries`: the paths of the stale
directories, each once. -/
def staleDirKeys (stats : CacheStats) : List String :=
  ((stats.Stale.filter (fun entry => entry.IsDir)).map (fun entry => entry.Path)).dedup

/-- cleanStaleEntries (`doctor_cache.go`): the returned error and the file system it
leaves. -/
def cleanStaleEntries (env : CacheEnv) (cacheDir : String) (stats : CacheStats)
    (dryRun : Bool) (fs : List FsEntry) : Option String × List FsEntry :=
  if stats.Stale.length = 0 then (none, fs)
  else
    let v : CleanVars := { fs := fs, totalCleaned := 0, filesCleaned := 0 }
    let staleDirs := staleDirKeys stats
    let v := (env.rangeOrder staleDirs).foldl (cleanStaleDir env cacheDir dryRun) v
    let v := stats.Stale.foldl (cleanStaleFile staleDirs dryRun) v
    (none, v.fs)

/-- createManifest (`doctor_cache.go`). -/
def createManifest (env : CacheEnv) (fs : List FsEntry) (cacheDir : String) : Manifest :=
  let entries := (fsWalk fs cacheDir).foldl (fun entries info =>
    entries ++ [env.filepathRel cacheDir info.path]) []
  { timestamp := env.timestamp, cache_dir := cacheDir, entries := entries,
    entry_count := entries.length }

/-- cleanFullCache (`doctor_cache.go`). -/
def cleanFullCache (env : CacheEnv) (cacheDir : String) (dryRun : Bool)
    (fs : List FsEntry) : Option String × List FsEntry :=
  if dryRun then (none, fs)
  else
    let manifest := createManifest env fs cacheDir
    let manifestPath :=
      filepathJoin env.tempDir ("claude-cache-manifest-" ++ toString env.unixNow ++ ".json")
    let fs :=
      match env.marshalIndent manifest with
      | .ok data => fsWriteFile manifestPath data env.now fs
      | .error _ => fs
    match fsRemoveAll cacheDir fs with
    | (some e, fs) => (some ("removing cache: " ++ e), fs)
    | (none, fs) => (none, fs)

/-- cleanCache (`doctor_cache.go`). -/
def cleanCache (env : CacheEnv) (cacheDir : String) (stats : CacheStats)
    (dryRun full : Bool) (fs : List FsEntry) : Option String × List FsEntry :=
  if full then cleanFullCache env cacheDir dryRun fs
  else cleanStaleEntries env cacheDir stats dryRun fs

/-- getActiveClaudeSessions (`doctor_cache.go`). -/
def getActiveClaudeSessions (env : CacheEnv) : List String :=
  match env.pgrep.err with
  | some _ => []
  | none =>
    (stringsSplit (stringsTrimSpace env.pgrep.stdout) '\n').foldl (fun sessions line =>
      if line ≠ "" then sessions ++ ["PID " ++ line] else sessions) []

/-- runDoctorCache (`doctor_cache.go`): the returned error and the file system it
leaves. -/
def runDoctorCache (env : CacheEnv) (flags : CacheFlags) (fs : List FsEntry) :
    Option String × List FsEntry :=
  match env.userHomeDir with
  | .error e => (some ("getting home directory: " ++ e), fs)
  | .ok home =>
    let cacheDir := filepathJoin home ".claude-cache"
    match fsStat fs cacheDir with
    | .error .notExist => (none, fs)
    | .error (.other e) => (some ("checking cache directory: " ++ e), fs)
    | .ok info =>
      if !info.IsDir then (some "~/.claude-cache is not a directory", fs)
      else
        let activeSessions := getActiveClaudeSessions env
        if activeSessions.length > 0 && flags.cacheClean && !flags.cacheForce then (none, fs)
        else
          let stats := collectCacheStats env fs cacheDir flags.cacheMaxAge
          if flags.cacheClean || flags.cacheFull then
            cleanCache env cacheDir stats flags.cacheDryRun flags.cacheFull fs
          else (none, fs)

/-! ## A small cache, used to run the cleaner on examples -/

/-- One day in nanoseconds. -/
def demoDay : Int := 24 * (3600 * 1000000000)

/-- `filepath.Rel(base, target)` for a target at or below `base`. -/
def demoRel (base target : String) : String :=
  if target = base then "."
  else if stringsHasPrefix target (base ++ "/") then
    String.mk (target.toList.drop (base ++ "/").toList.length)
  else target

/-- Day 100, a day being 24 hours, home `/h`, and one running Claude process. -/
def demoCacheEnv : CacheEnv where
  now := 100 * demoDay
  addDays := fun t days => t + days * demoDay
  since := fun t => 100 * demoDay - t
  unixNow := 8640000
  timestamp := "1970-04-11T00:00:00Z"
  userHomeDir := .ok "/h"
  tempDir := "/tmp"
  pgrep := cmdOk "4242\n"
  filepathRel := demoRel
  marshalIndent := fun m => .ok (String.join m.entries)
  sortLargest := fun l => l
  rangeOrder := fun keys => keys
  rangeOrder_perm := fun keys => List.Perm.refl keys

/-- A cache whose `debug/old` directory was last changed on day 1 and holds a file
written on day 99; `projects` is not cleanable; `top.txt` sits at top level. -/
def demoCache : List FsEntry :=
  [{ path := "/h/.claude-cache", isDir := true, size := 4096, modTime := 99 * demoDay },
   { path := "/h/.claude-cache/debug", isDir := true, size := 4096, modTime := 99 * demoDay },
   { path := "/h/.claude-cache/debug/old", isDir := true, size := 4096, modTime := 1 * demoDay },
   { path := "/h/.claude-cache/debug/old/fresh.log", isDir := false, size := 10,
     modTime := 99 * demoDay },
   { path := "/h/.claude-cache/debug/stale.log", isDir := false, size := 20,
     modTime := 2 * demoDay },
   { path := "/h/.claude-cache/projects", isDir := true, size := 4096, modTime := 1 * demoDay },
   { path := "/h/.claude-cache/projects/data.json", isDir := false, size := 500,
     modTime := 1 * demoDay },
   { path := "/h/.claude-cache/top.txt", isDir := false, size := 5, modTime := 99 * demoDay }]

/-- A cache directory that holds one regular file. -/
def demoOneFile : List FsEntry :=
  [{ path := "/h/.claude-cache", isDir := true, size := 4096, modTime := 99 * demoDay },
   { path := "/h/.claude-cache/top.txt", isDir := false, size := 5, modTime := 99 * demoDay }]

/-- Specification side: where a stale entry comes from. It is either found by the walk of a
cleanable top-level directory, or it is a non-directory entry directly in the cache
directory; in both cases it is an entry of the file system older than the cutoff. -/
def StaleOrigin (fs : List FsEntry) (cacheDir : String) (cutoff : Int) (s : CacheEntry) :
    Prop :=
  (∃ e ∈ fs, e.path = s.Path ∧ e.isDir = s.IsDir ∧ e.modTime < cutoff) ∧
  ((∃ c, isCleanableDir c = true ∧ pathUnder (filepathJoin cacheDir c) s.Path = true) ∨
   (s.IsDir = false ∧ ∃ n : String, '/' ∉ n.toList ∧ s.Path = filepathJoin cacheDir n))

/-! ## Remaining definitions of `doctor_cache.go`, `ghclient.go`, `tmux` and `doctor` -/

/-- The local `ageBuckets` of `displayCacheStats` (`doctor_cache.go`): the labels it
prints, in this order. -/
def ageBuckets : List String :=
  ["<1 day", "1-7 days", "7-30 days", ">30 days"]

/-- Specification side: the position of a label in `ageBuckets`. -/
def bucketRank (label : String) : Nat :=
  ageBuckets.indexOf label

/-- The exponent shift of the conversion `float64(n)`: the least `s` with
`n < 2 ^ (53 + s)`, so that `n / 2 ^ s` has at most 53 binary digits (`fuel` bounds the
search; 11 is enough for every 64-bit integer). -/
def float64Shift : Nat → Nat → Nat
  | 0, _ => 0
  | fuel + 1, n => if n < 2 ^ 53 then 0 else float64Shift fuel (n / 2) + 1

/-- Rounding of the quotient `num / den` (`den > 0`) to the nearest integer, ties to the
even one: the rounding of IEEE 754 arithmetic and of `strconv` when it shortens an exact
decimal. -/
def roundHalfEven (num den : Int) : Int :=
  let q := num / den
  let r := num % den
  if 2 * r < den then q
  else if 2 * r > den then q + 1
  else if q % 2 = 0 then q
  else q + 1

/-- The Go conversion `float64(n)` of an `int64`: `n` rounded to 53 significant binary
digits, to nearest, ties to even. The result is an integer, so it is given as one. -/
def float64 (n : Int) : Int :=
  let s := float64Shift 11 n.natAbs
  let m := roundHalfEven (Int.ofNat n.natAbs) (2 ^ s) * 2 ^ s
  if n < 0 then -m else m

/-- The decimal numeral with one digit after the point for a non-negative number of
tenths. -/
def oneDecimal (tenths : Int) : String :=
  toString (tenths / 10) ++ "." ++ toString (tenths % 10)

/-- The text `fmt.Sprintf("%.1f", x)` prints for the `float64` `x = num / den ≥ 0`, where
`num` is a `float64` with an integer value and `den` a power of two (the floating-point
division `float64(bytes)/KB` is then exact): `strconv` converts `x` to its exact decimal
expansion and rounds it after the first decimal, ties to even. -/
def sprintfF1 (num den : Int) : String :=
  oneDecimal (roundHalfEven (10 * num) den)

/-- formatSize (`doctor_cache.go`); `%d` prints the decimal integer. -/
def formatSize (bytes : Int) : String :=
  if bytes ≥ 1024 * 1024 * 1024 then sprintfF1 (float64 bytes) (1024 * 1024 * 1024) ++ "GB"
  else if bytes ≥ 1024 * 1024 then sprintfF1 (float64 bytes) (1024 * 1024) ++ "MB"
  else if bytes ≥ 1024 then sprintfF1 (float64 bytes) 1024 ++ "KB"
  else toString bytes ++ "B"

/-- Specification side: `t` tenths is the quotient `num / den` (`den > 0`) rounded to the
nearest tenth, and to the even tenth when two are equally near. -/
def IsNearestTenth (num den t : Int) : Prop :=
  -den ≤ 2 * (10 * num - t * den) ∧ 2 * (10 * num - t * den) ≤ den ∧
  (2 * (10 * num - t * den) = den ∨ 2 * (10 * num - t * den) = -den → t % 2 = 0)

instance (num den t : Int) : Decidable (IsNearestTenth num den t) :=
  inferInstanceAs (Decidable (_ ∧ _ ∧ (_ → _)))

/-- GHClientCall records a single call to the GH client (`ghclient.go`). -/
structure GHClientCall where
  Method : String
  WorkDir : String
  PRNumber : Int
  deriving DecidableEq, Repr

/-- GHClient, the interface for GitHub CLI operations (`ghclient.go`), over the state `C`
of the implementation. A Go `error` is its message, `none` being nil; `GetPRReviews`
returns a pointer, `none` being nil. -/
structure GHClient (C : Type) where
  GetPRChecks : String → Int → C → (List PRCheck × Option String) × C
  GetPRReviews : String → Int → C → (Option PRReviewInfo × Option String) × C

/-- The client and the calls made on it so far. -/
structure GHState (C : Type) where
  client : C
  calls : List GHClientCall

/-- StubGHClient is a test stub that returns pre-configured responses (`ghclient.go`). -/
structure StubGHClient where
  ChecksResponse : List PRCheck := []
  ChecksError : Option String := none
  ReviewsResponse : Option PRReviewInfo := none
  ReviewsError : Option String := none
  CallLog : List GHClientCall := []
  deriving DecidableEq, Repr

/-- The methods `GetPRChecks` and `GetPRReviews` of `*StubGHClient` (`ghclient.go`). -/
def stubGHClient : GHClient StubGHClient where
  GetPRChecks := fun workDir prNumber (c : StubGHClient) =>
    let c : StubGHClient := { c with CallLog := c.CallLog ++
      [{ Method := "GetPRChecks", WorkDir := workDir, PRNumber := prNumber }] }
    match c.ChecksError with
    | some err => (([], some err), c)
    | none => ((c.ChecksResponse, none), c)
  GetPRReviews := fun workDir prNumber (c : StubGHClient) =>
    let c : StubGHClient := { c with CallLog := c.CallLog ++
      [{ Method := "GetPRReviews", WorkDir := workDir, PRNumber := prNumber }] }
    match c.ReviewsError with
    | some err => ((none, some err), c)
    | none => ((c.ReviewsResponse, none), c)

/-- GetPRCIStatusWithClient gets CI status using the provided GH client (`ghclient.go`). -/
def GetPRCIStatusWithClient {C : Type} (client : GHClient C) (workDir : String)
    (prNumber : Int) (st : GHState C) : (Option CIStatus × Option String) × GHState C :=
  match client.GetPRChecks workDir prNumber st.client with
  | ((checks, err), c) =>
    let st : GHState C :=
      { client := c,
        calls := st.calls ++
          [{ Method := "GetPRChecks", WorkDir := workDir, PRNumber := prNumber }] }
    match err with
    | some err => ((none, some err), st)
    | none => ((some (aggregateCIStatus prNumber checks), none), st)

/-- `parseReviewStatus` applied to the pointer it is handed: the function reads
`info.Reviews` first, which panics on a nil pointer (`none`). -/
def parseReviewStatusPtr (info : Option PRReviewInfo) :
    Option (String × Int × Option String) :=
  match info with
  | none => none
  | some info => some (parseReviewStatus info)

/-- GetPRReviewStatusWithClient gets review status using the provided GH client
(`ghclient.go`); the result `none` is a panic. -/
def GetPRReviewStatusWithClient {C : Type} (client : GHClient C) (workDir : String)
    (prNumber : Int) (st : GHState C) :
    Option (String × Int × Option String) × GHState C :=
  match client.GetPRReviews workDir prNumber st.client with
  | ((info, err), c) =>
    let st : GHState C :=
      { client := c,
        calls := st.calls ++
          [{ Method := "GetPRReviews", WorkDir := workDir, PRNumber := prNumber }] }
    match err with
    | some err => (some ("", 0, some err), st)
    | none => (parseReviewStatusPtr info, st)

/-- The values of `syscall.Signal` that `killProcessGroup` sends. -/
inductive Signal where
  | SIGTERM
  | SIGKILL
  deriving DecidableEq, Repr

/-- Signal constant of package `tmux` (`signal_unix.go`, `signal_windows.go`). -/
def sigTERM : Int := 15

/-- Signal constant of package `tmux` (`signal_unix.go`, `signal_windows.go`). -/
def sigKILL : Int := 9

/-- Go unary minus on a 64-bit `int`: the negation modulo 2^64, read as a signed number. -/
def goNeg (x : Int) : Int :=
  (-x + 2 ^ 63) % 2 ^ 64 - 2 ^ 63

/-- The world of `killProcessGroup` and the signals sent so far, as `(pid, signal)`. -/
structure KillState (W : Type) where
  world : W
  sent : List (Int × Signal)

/-- killProcessGroup sends a signal to a process group (`signal_unix.go`, built when the
target is not Windows); `kill` is `syscall.Kill`. -/
def Unix.killProcessGroup {W : Type} (kill : Int → Signal → W → Option String × W)
    (pgid sig : Int) (st : KillState W) : Option String × KillState W :=
  let signal :=
    if sig = sigTERM then Signal.SIGTERM
    else if sig = sigKILL then Signal.SIGKILL
    else Signal.SIGTERM
  ((kill (goNeg pgid) signal st.world).1,
   { world := (kill (goNeg pgid) signal st.world).2,
     sent := st.sent ++ [(goNeg pgid, signal)] })

/-- killProcessGroup is a no-op on Windows (`signal_windows.go`). -/
def Windows.killProcessGroup {W : Type} ( _pgid _sig : Int) (st : KillState W) :
    Option String × KillState W :=
  (none, st)

/-- Modelled from the spec: the epic states of package `beads`, whose declaration is
outside the files at hand; the life cycle of the spec is
Drafting, Ready, InProgress, Review, Submitted, Landed, Closed. -/
inductive EpicState where
  | Drafting
  | Ready
  | InProgress
  | Review
  | Submitted
  | Landed
  | Closed
  deriving DecidableEq, Repr

/-- Modelled from the spec: `beads.ValidEpicStateTransition`, which is outside the files at
hand (only `TestEpicStateTransitions` calls it). The spec permits, from each state, only:
Drafting to Ready or Closed; Ready to InProgress or Drafting; InProgress to Review; Review
to Submitted; Submitted to Landed; Landed to Closed. Any other transition is rejected. -/
def ValidEpicStateTransition (src dst : EpicState) : Bool :=
  match src with
  | .Drafting => dst = .Ready || dst = .Closed
  | .Ready => dst = .InProgress || dst = .Drafting
  | .InProgress => dst = .Review
  | .Review => dst = .Submitted
  | .Submitted => dst = .Landed
  | .Landed => dst = .Closed
  | .Closed => false

/-- Modelled from the spec: the status of a check result of package `doctor`, declared
outside the files at hand; `limits_check_test.go` tells `StatusOK`, `StatusWarning` and
`StatusError` apart. -/
inductive CheckStatus where
  | StatusOK
  | StatusWarning
  | StatusError
  deriving DecidableEq, Repr

/-- Modelled from the spec: the `CheckResult` of package `doctor`, declared outside the
files at hand, with the fields `Run` fills. -/
structure CheckResult where
  Name : String
  Status : CheckStatus
  Message : String
  Details : List String := []
  FixHint : String := ""
  deriving DecidableEq, Repr

/-- The field `c.staleSettings` and the local `details` of `Run`, and the paths
`checkSettings` was called on (it starts by reading the file at that path). -/
structure RunVars where
  staleSettings : List staleSettingsInfo
  details : List String
  reads : List String
  deriving DecidableEq, Repr

/-- Body of the loop `for _, sf := range settingsFiles` of `Run`. -/
def runBody (rd : SettingsReader) (v : RunVars) (sf : staleSettingsInfo) : RunVars :=
  if sf.wrongLocation then
    { v with staleSettings := v.staleSettings ++ [sf],
             details := v.details ++
               [sf.path ++ ": wrong location (should be in rig/ subdirectory)"] }
  else
    let missing := checkSettings rd sf.path sf.agentType
    let v := { v with reads := v.reads ++ [sf.path] }
    if missing.length > 0 then
      let sf := { sf with missing := missing }
      { v with staleSettings := v.staleSettings ++ [sf],
               details := v.details ++
                 [sf.path ++ ": missing " ++ stringsJoin missing ", "] }
    else v

/-- Run checks all Claude settings.json files for staleness
(`claude_settings_check.go`). `name` is `c.Name()`; the result comes with the variables
`Run` leaves, among them the field `c.staleSettings`. -/
def Run (name : String) (fs : FsView) (rd : SettingsReader) (townRoot : String) :
    CheckResult × RunVars :=
  let v : RunVars := { staleSettings := [], details := [], reads := [] }
  let settingsFiles := findSettingsFiles fs townRoot
  let v := settingsFiles.foldl (runBody rd) v
  if v.staleSettings.length = 0 then
    ({ Name := name, Status := .StatusOK,
       Message := "All Claude settings.json files are up to date" }, v)
  else
    ({ Name := name, Status := .StatusError,
       Message := "Found " ++ toString v.staleSettings.length ++
         " stale Claude settings.json file(s)",
       Details := v.details,
       FixHint := "Run 'gt doctor --fix' to update settings and restart affected agents" }, v)

/-- Specification side: whether a discovered settings file is stale. -/
def isStaleSettings (rd : SettingsReader) (sf : staleSettingsInfo) : Bool :=
  sf.wrongLocation || decide (checkSettings rd sf.path sf.agentType ≠ [])

/-- A cache whose `debug/a` directory and `debug/ab.txt` file are both from day 1. -/
def demoSiblingCache : List FsEntry :=
  [{ path := "/h/.claude-cache", isDir := true, size := 4096, modTime := 99 * demoDay },
   { path := "/h/.claude-cache/debug", isDir := true, size := 4096, modTime := 99 * demoDay },
   { path := "/h/.claude-cache/debug/a", isDir := true, size := 4096, modTime := 1 * demoDay },
   { path := "/h/.claude-cache/debug/a/x.log", isDir := false, size := 10,
     modTime := 1 * demoDay },
   { path := "/h/.claude-cache/debug/ab.txt", isDir := false, size := 20,
     modTime := 1 * demoDay }]

/-- The file system reads of a town `/t` with rig `r`: the mayor settings and the witness
settings at both locations exist. -/
def demoTownFs : FsView where
  stat := fun p =>
    if p ∈ ["/t/.claude/settings.json", "/t/r/witness/.claude/settings.json",
        "/t/r/witness/rig/.claude/settings.json"] then .ok ⟨false⟩
    else if p ∈ ["/t", "/t/r"] then .ok ⟨true⟩
    else .error "no such file or directory"
  readDir := fun p =>
    if p = "/t" then ([⟨"r", true⟩, ⟨".git", true⟩], none)
    else ([], some "no such file or directory")
  dirExists := fun p => p ∈ ["/t", "/t/r"]
  join := fun l => "/".intercalate l

/-- A reader for the town `/t`: the mayor settings are complete, the witness settings in
`rig/` lack the `Stop` hook, and nothing else can be read. -/
def demoTownReader : SettingsReader where
  readFile := fun path =>
    if path = "/t/.claude/settings.json" then .ok "full"
    else if path = "/t/r/witness/rig/.claude/settings.json" then .ok "nostop"
    else .error "no such file or directory"
  unmarshal := demoReader.unmarshal

/-- Specification side: what `Run` records for a discovered settings file: the file itself
when it is at the wrong location, the file with `missing` filled in when `checkSettings`
finds something missing, and nothing otherwise. -/
def staleSettingsEntry (rd : SettingsReader) (sf : staleSettingsInfo) :
    Option staleSettingsInfo :=
  if sf.wrongLocation then some sf
  else if checkSettings rd sf.path sf.agentType ≠ [] then
    some { sf with missing := checkSettings rd sf.path sf.agentType }
  else none

/-! ## Loop lemmas for `aggregateCIStatus` -/

theorem isFailed_iff (c : PRCheck) :
    isFailed c = true ↔ (c.State = "FAILURE" ∨ c.State = "ERROR") := by
  simp [isFailed]

theorem isPending_iff (c : PRCheck) :
    isPending c = true ↔ (c.State = "PENDING" ∨ c.State = "QUEUED" ∨ c.State = "IN_PROGRESS") := by
  simp [isPending]

theorem isPending_of_isFailed (c : PRCheck) (h : isFailed c = true) : isPending c = false := by
  rcases (isFailed_iff c).1 h with h | h <;> simp [isPending, h]

theorem body_failed (v : AggVars) (c : PRCheck) (h : isFailed c = true) :
    aggregateCIStatusBody v c =
      { status := if v.status.URL = "" then
            { v.status with State := "failure", URL := c.DetailsURL }
          else { v.status with State := "failure" },
        failedChecks := v.failedChecks ++ [c.Name],
        pendingChecks := v.pendingChecks } := by
  have h1 := (isFailed_iff c).1 h
  simp only [aggregateCIStatusBody, h1, if_true]

theorem body_pending (v : AggVars) (c : PRCheck) (hf : isFailed c = false)
    (hp : isPending c = true) :
    aggregateCIStatusBody v c =
      { status := if v.status.State ≠ "failure" then { v.status with State := "pending" }
          else v.status,
        failedChecks := v.failedChecks,
        pendingChecks := v.pendingChecks ++ [c.Name] } := by
  have h1 : ¬ (c.State = "FAILURE" ∨ c.State = "ERROR") := by
    rw [← isFailed_iff]; simp [hf]
  have h2 := (isPending_iff c).1 hp
  simp only [aggregateCIStatusBody, h1, h2, if_true, if_false]

theorem body_other (v : AggVars) (c : PRCheck) (hf : isFailed c = false)
    (hp : isPending c = false) : aggregateCIStatusBody v c = v := by
  have h1 : ¬ (c.State = "FAILURE" ∨ c.State = "ERROR") := by
    rw [← isFailed_iff]; simp [hf]
  have h2 : ¬ (c.State = "PENDING" ∨ c.State = "QUEUED" ∨ c.State = "IN_PROGRESS") := by
    rw [← isPending_iff]; simp [hp]
  simp only [aggregateCIStatusBody, h1, h2, if_false]

/-- The three cases of the loop body, keyed by the classification of the check. -/
theorem body_cases (v : AggVars) (c : PRCheck) :
    (isFailed c = true ∧ isPending c = false ∧
      aggregateCIStatusBody v c =
        { status := if v.status.URL = "" then
              { v.status with State := "failure", URL := c.DetailsURL }
            else { v.status with State := "failure" },
          failedChecks := v.failedChecks ++ [c.Name],
          pendingChecks := v.pendingChecks }) ∨
    (isFailed c = false ∧ isPending c = true ∧
      aggregateCIStatusBody v c =
        { status := if v.status.State ≠ "failure" then { v.status with State := "pending" }
            else v.status,
          failedChecks := v.failedChecks,
          pendingChecks := v.pendingChecks ++ [c.Name] }) ∨
    (isFailed c = false ∧ isPending c = false ∧ aggregateCIStatusBody v c = v) := by
  by_cases hf : isFailed c = true
  · exact Or.inl ⟨hf, isPending_of_isFailed c hf, body_failed v c hf⟩
  · have hf : isFailed c = false := by simpa using hf
    by_cases hp : isPending c = true
    · exact Or.inr (Or.inl ⟨hf, hp, body_pending v c hf hp⟩)
    · have hp : isPending c = false := by simpa using hp
      exact Or.inr (Or.inr ⟨hf, hp, body_other v c hf hp⟩)

theorem foldl_failedChecks (checks : List PRCheck) (v : AggVars) :
    (checks.foldl aggregateCIStatusBody v).failedChecks = v.failedChecks ++ failedNames checks := by
  induction checks generalizing v with
  | nil => simp [failedNames]
  | cons c cs ih =>
    rw [List.foldl_cons, ih]
    rcases body_cases v c with ⟨hf, _, hb⟩ | ⟨hf, _, hb⟩ | ⟨hf, _, hb⟩ <;>
      simp [hb, failedNames, List.filter_cons, hf]

theorem foldl_pendingChecks (checks : List PRCheck) (v : AggVars) :
    (checks.foldl aggregateCIStatusBody v).pendingChecks =
      v.pendingChecks ++ pendingNames checks := by
  induction checks generalizing v with
  | nil => simp [pendingNames]
  | cons c cs ih =>
    rw [List.foldl_cons, ih]
    rcases body_cases v c with ⟨_, hp, hb⟩ | ⟨_, hp, hb⟩ | ⟨_, hp, hb⟩ <;>
      simp [hb, pendingNames, List.filter_cons, hp]

theorem foldl_prNumber (checks : List PRCheck) (v : AggVars) :
    (checks.foldl aggregateCIStatusBody v).status.PRNumber = v.status.PRNumber := by
  induction checks generalizing v with
  | nil => rfl
  | cons c cs ih =>
    rw [List.foldl_cons, ih]
    rcases body_cases v c with ⟨_, _, hb⟩ | ⟨_, _, hb⟩ | ⟨_, _, hb⟩ <;> rw [hb]
    · dsimp only; split <;> rfl
    · dsimp only; split <;> rfl

/-- The state after the loop, as a function of the state before it. -/
theorem foldl_state (checks : List PRCheck) (v : AggVars) :
    (checks.foldl aggregateCIStatusBody v).status.State =
      if checks.any isFailed = true then "failure"
      else if v.status.State = "failure" then "failure"
      else if checks.any isPending = true then "pending"
      else v.status.State := by
  induction checks generalizing v with
  | nil => by_cases h : v.status.State = "failure" <;> simp [h]
  | cons c cs ih =>
    rw [List.foldl_cons, ih]
    rcases body_cases v c with ⟨hf, hp, hb⟩ | ⟨hf, hp, hb⟩ | ⟨hf, hp, hb⟩ <;> rw [hb]
    · have : (if v.status.URL = "" then
            ({ v.status with State := "failure", URL := c.DetailsURL } : CIStatus)
          else { v.status with State := "failure" }).State = "failure" := by
        split <;> rfl
      simp [hf, this]
    · by_cases hs : v.status.State = "failure"
      · simp [hf, hp, hs]
      · simp [hf, hp, hs]
    · simp [hf, hp]

theorem names_length_pos_iff (f : PRCheck → Bool) (checks : List PRCheck) :
    0 < ((checks.filter f).map (·.Name)).length ↔ checks.any f = true := by
  rw [List.length_map, List.length_pos, List.any_eq_true]
  constructor
  · intro h
    obtain ⟨c, hc⟩ := List.exists_mem_of_ne_nil _ h
    exact ⟨c, (List.mem_filter.1 hc).1, (List.mem_filter.1 hc).2⟩
  · rintro ⟨c, hc, hfc⟩
    exact List.ne_nil_of_mem (List.mem_filter.2 ⟨hc, hfc⟩)

/-- Closed form of the whole function. -/
theorem aggregateCIStatus_state (prNumber : Int) (checks : List PRCheck) :
    (aggregateCIStatus prNumber checks).State =
      if checks.any isFailed = true then "failure"
      else if checks.any isPending = true then "pending" else "success" := by
  have hs := foldl_state checks (aggregateCIStatusInit prNumber)
  have h0 : (aggregateCIStatusInit prNumber).status.State = "success" := rfl
  have h1 : ¬ ("success" = "failure") := by decide
  rw [h0] at hs
  simp only [h1, if_false] at hs
  unfold aggregateCIStatus
  dsimp only
  split
  · exact hs
  · split
    · exact hs
    · exact hs

theorem aggregateCIStatus_details (prNumber : Int) (checks : List PRCheck) :
    (aggregateCIStatus prNumber checks).Details =
      if checks.any isFailed = true then "Failed: " ++ stringsJoin (failedNames checks) ", "
      else if checks.any isPending = true then
        "Pending: " ++ stringsJoin (pendingNames checks) ", "
      else "All checks passed" := by
  have hF := foldl_failedChecks checks (aggregateCIStatusInit prNumber)
  have hP := foldl_pendingChecks checks (aggregateCIStatusInit prNumber)
  have h0 : (aggregateCIStatusInit prNumber).failedChecks = [] := rfl
  have h1 : (aggregateCIStatusInit prNumber).pendingChecks = [] := rfl
  rw [h0, List.nil_append] at hF
  rw [h1, List.nil_append] at hP
  have eF := names_length_pos_iff isFailed checks
  have eP := names_length_pos_iff isPending checks
  unfold aggregateCIStatus
  dsimp only
  rw [hF, hP]
  by_cases a : checks.any isFailed = true
  · have : 0 < (failedNames checks).length := eF.2 a
    simp [a, this]
  · have nf : ¬ 0 < (failedNames checks).length := fun h => a (eF.1 h)
    by_cases b : checks.any isPending = true
    · have : 0 < (pendingNames checks).length := eP.2 b
      simp [nf, this, a, b]
    · have np : ¬ 0 < (pendingNames checks).length := fun h => b (eP.1 h)
      simp [nf, np, a, b]

theorem aggregateCIStatus_prNumber (prNumber : Int) (checks : List PRCheck) :
    (aggregateCIStatus prNumber checks).PRNumber = prNumber := by
  have h := foldl_prNumber checks (aggregateCIStatusInit prNumber)
  unfold aggregateCIStatus
  dsimp only
  split
  · exact h
  · split
    · exact h
    · exact h

theorem any_isFailed_iff (checks : List PRCheck) :
    checks.any isFailed = true ↔ ∃ c ∈ checks, c.State = "FAILURE" ∨ c.State = "ERROR" := by
  simp only [List.any_eq_true, isFailed_iff]

theorem any_isPending_iff (checks : List PRCheck) :
    checks.any isPending = true ↔
      ∃ c ∈ checks, c.State = "PENDING" ∨ c.State = "QUEUED" ∨ c.State = "IN_PROGRESS" := by
  simp only [List.any_eq_true, isPending_iff]

theorem foldl_approvals (reviews : List PRReview) (n : Int) :
    reviews.foldl (fun approvals review =>
        if review.State = "APPROVED" then approvals + 1 else approvals) n
      = n + (approvedCount reviews : Int) := by
  induction reviews generalizing n with
  | nil => simp [approvedCount]
  | cons r rs ih =>
    rw [List.foldl_cons, ih]
    by_cases h : r.State = "APPROVED"
    · simp [approvedCount, List.countP_cons, h]; ring
    · simp [approvedCount, List.countP_cons, h]

/-! ## Lemmas for `checkSettings` -/

theorem stringsContains_iff (s substr : String) :
    stringsContains s substr = true ↔ substr.toList <:+: s.toList := by
  simp only [stringsContains, List.any_eq_true, List.mem_tails, List.isPrefixOf_iff_prefix,
    List.infix_iff_prefix_suffix]
  constructor
  · rintro ⟨t, h1, h2⟩
    exact ⟨t, h2, h1⟩
  · rintro ⟨t, h1, h2⟩
    exact ⟨t, h2, h1⟩

theorem innerHooksHavePattern_iff (pattern : String) (innerHooks : List GoAny) :
    innerHooksHavePattern pattern innerHooks = true ↔
      ∃ innerMap cmd, GoAny.map innerMap ∈ innerHooks ∧
        innerMap.lookup "command" = some (.string cmd) ∧
        pattern.toList <:+: cmd.toList := by
  induction innerHooks with
  | nil => simp [innerHooksHavePattern]
  | cons inner rest ih =>
    cases inner with
    | map innerMap =>
      simp only [innerHooksHavePattern, List.mem_cons, GoAny.map.injEq]
      cases hl : innerMap.lookup "command" with
      | none =>
        simp only [ih]
        constructor
        · rintro ⟨m, c, hm, h⟩
          exact ⟨m, c, Or.inr hm, h⟩
        · rintro ⟨m, c, hm | hm, h1, h2⟩
          · subst hm
            rw [hl] at h1
            cases h1
          · exact ⟨m, c, hm, h1, h2⟩
      | some val =>
        cases val with
        | string cmd =>
          by_cases hc : stringsContains cmd pattern = true
          · simp only [hc, if_true, true_iff]
            exact ⟨innerMap, cmd, Or.inl rfl, hl, (stringsContains_iff _ _).1 hc⟩
          · simp only [hc, Bool.false_eq_true, if_false, ih]
            constructor
            · rintro ⟨m, c, hm, h⟩
              exact ⟨m, c, Or.inr hm, h⟩
            · rintro ⟨m, c, hm | hm, h1, h2⟩
              · subst hm
                rw [hl] at h1
                cases h1
                exact absurd ((stringsContains_iff _ _).2 h2) hc
              · exact ⟨m, c, hm, h1, h2⟩
        | _ =>
          simp only [ih]
          constructor
          · rintro ⟨m, c, hm, h⟩
            exact ⟨m, c, Or.inr hm, h⟩
          · rintro ⟨m, c, hm | hm, h1, h2⟩
            · subst hm
              rw [hl] at h1
              cases h1
            · exact ⟨m, c, hm, h1, h2⟩
    | _ => simp [innerHooksHavePattern, ih]

theorem hookListHasPattern_iff (pattern : String) (hookList : List GoAny) :
    hookListHasPattern pattern hookList = true ↔
      ∃ hookMap innerHooks, GoAny.map hookMap ∈ hookList ∧
        hookMap.lookup "hooks" = some (.slice innerHooks) ∧
        innerHooksHavePattern pattern innerHooks = true := by
  induction hookList with
  | nil => simp [hookListHasPattern]
  | cons hook rest ih =>
    cases hook with
    | map hookMap =>
      simp only [hookListHasPattern, List.mem_cons, GoAny.map.injEq]
      cases hl : hookMap.lookup "hooks" with
      | none =>
        simp only [ih]
        constructor
        · rintro ⟨m, c, hm, h⟩
          exact ⟨m, c, Or.inr hm, h⟩
        · rintro ⟨m, c, hm | hm, h1, h2⟩
          · subst hm
            rw [hl] at h1
            cases h1
          · exact ⟨m, c, hm, h1, h2⟩
      | some val =>
        cases val with
        | slice innerHooks =>
          by_cases hc : innerHooksHavePattern pattern innerHooks = true
          · simp only [hc, if_true, true_iff]
            exact ⟨hookMap, innerHooks, Or.inl rfl, hl, hc⟩
          · simp only [hc, Bool.false_eq_true, if_false, ih]
            constructor
            · rintro ⟨m, c, hm, h⟩
              exact ⟨m, c, Or.inr hm, h⟩
            · rintro ⟨m, c, hm | hm, h1, h2⟩
              · subst hm
                rw [hl] at h1
                cases h1
                exact absurd h2 hc
              · exact ⟨m, c, hm, h1, h2⟩
        | _ =>
          simp only [ih]
          constructor
          · rintro ⟨m, c, hm, h⟩
            exact ⟨m, c, Or.inr hm, h⟩
          · rintro ⟨m, c, hm | hm, h1, h2⟩
            · subst hm
              rw [hl] at h1
              cases h1
            · exact ⟨m, c, hm, h1, h2⟩
    | _ => simp [hookListHasPattern, ih]

/-- The nested loops of `hookHasPattern` find a command exactly when one exists. -/
theorem hookHasPattern_iff (hooks : List (String × GoAny)) (hookName pattern : String) :
    hookHasPattern hooks hookName pattern = true ↔
      ∃ hookList hookMap innerHooks innerMap cmd,
        hooks.lookup hookName = some (.slice hookList) ∧
        GoAny.map hookMap ∈ hookList ∧
        hookMap.lookup "hooks" = some (.slice innerHooks) ∧
        GoAny.map innerMap ∈ innerHooks ∧
        innerMap.lookup "command" = some (.string cmd) ∧
        pattern.toList <:+: cmd.toList := by
  unfold hookHasPattern
  cases hl : hooks.lookup hookName with
  | none => simp
  | some val =>
    cases val with
    | slice hookList =>
      simp only [hookListHasPattern_iff, innerHooksHavePattern_iff, Option.some.injEq,
        GoAny.slice.injEq]
      constructor
      · rintro ⟨hm, ih, h1, h2, im, c, h3, h4, h5⟩
        exact ⟨hookList, hm, ih, im, c, rfl, h1, h2, h3, h4, h5⟩
      · rintro ⟨hl2, hm, ih, im, c, h0, h1, h2, h3, h4, h5⟩
        subst h0
        exact ⟨hm, ih, h1, h2, im, c, h3, h4, h5⟩
    | _ => simp

theorem checkSettings_hooks_iff (actual : List (String × GoAny)) (hookName pattern : String)
    (hooks : List (String × GoAny)) (h : actual.lookup "hooks" = some (.map hooks)) :
    hookHasPattern hooks hookName pattern = true ↔ HasHookCommand actual hookName pattern := by
  rw [hookHasPattern_iff, HasHookCommand]
  constructor
  · rintro ⟨hl, hm, ih, im, c, h1, h2, h3, h4, h5, h6⟩
    exact ⟨hooks, hl, hm, ih, im, c, h, h1, h2, h3, h4, h5, h6⟩
  · rintro ⟨hk, hl, hm, ih, im, c, h0, h1, h2, h3, h4, h5, h6⟩
    rw [h] at h0
    cases h0
    exact ⟨hl, hm, ih, im, c, h1, h2, h3, h4, h5, h6⟩

theorem HasHookCommand.hooks_map {actual : List (String × GoAny)} {hookName pattern : String}
    (h : HasHookCommand actual hookName pattern) :
    ∃ hooks, actual.lookup "hooks" = some (.map hooks) := by
  obtain ⟨hooks, _, _, _, _, _, h0, _⟩ := h
  exact ⟨hooks, h0⟩

/-! ## Lemmas for `Fix` -/

/-- The loop body only appends to the log and to `errors`, and its effect on the world does
not depend on what they hold. -/
theorem fixBody_frame {W : Type} (env : FixEnv W) (v : FixVars W) (sf : staleSettingsInfo) :
    (fixBody env v sf).calls =
        v.calls ++ (fixBody env { errors := [], world := v.world, calls := [] } sf).calls ∧
    (fixBody env v sf).errors =
        v.errors ++ (fixBody env { errors := [], world := v.world, calls := [] } sf).errors ∧
    (fixBody env v sf).world =
        (fixBody env { errors := [], world := v.world, calls := [] } sf).world := by
  unfold fixBody
  dsimp only
  repeat' split
  all_goals simp

theorem fixLoop_frame {W : Type} (env : FixEnv W) (l : List staleSettingsInfo)
    (v : FixVars W) :
    (l.foldl (fixBody env) v).calls =
        v.calls ++ (l.foldl (fixBody env) { errors := [], world := v.world, calls := [] }).calls ∧
    (l.foldl (fixBody env) v).errors =
        v.errors ++
          (l.foldl (fixBody env) { errors := [], world := v.world, calls := [] }).errors ∧
    (l.foldl (fixBody env) v).world =
        (l.foldl (fixBody env) { errors := [], world := v.world, calls := [] }).world := by
  induction l generalizing v with
  | nil => simp
  | cons sf l ih =>
    simp only [List.foldl_cons]
    have h1 := ih (fixBody env v sf)
    have h2 := ih (fixBody env { errors := [], world := v.world, calls := [] } sf)
    have h3 := fixBody_frame env v sf
    rw [h1.1, h1.2.1, h1.2.2, h2.1, h2.2.1, h2.2.2, h3.1, h3.2.1, h3.2.2]
    simp

theorem Fix_calls {W : Type} (env : FixEnv W) (l : List staleSettingsInfo) (w : W) :
    (Fix env l w).calls =
      (l.foldl (fixBody env) { errors := [], world := w, calls := [] }).calls := by
  unfold Fix
  dsimp only
  split <;> rfl

theorem Fix_world {W : Type} (env : FixEnv W) (l : List staleSettingsInfo) (w : W) :
    (Fix env l w).world =
      (l.foldl (fixBody env) { errors := [], world := w, calls := [] }).world := by
  unfold Fix
  dsimp only
  split <;> rfl

/-- A run of `Fix` over `l₁ ++ l₂` is a run over `l₁` followed by a run over `l₂` from the
world the first run leaves. -/
theorem Fix_append {W : Type} (env : FixEnv W) (l₁ l₂ : List staleSettingsInfo) (w : W) :
    (Fix env (l₁ ++ l₂) w).calls = (Fix env l₁ w).calls ++ (Fix env l₂ (Fix env l₁ w).world).calls ∧
    (Fix env (l₁ ++ l₂) w).world = (Fix env l₂ (Fix env l₁ w).world).world := by
  simp only [Fix_calls, Fix_world, List.foldl_append]
  have h := fixLoop_frame env l₂ (l₁.foldl (fixBody env) { errors := [], world := w, calls := [] })
  exact ⟨h.1, h.2.2⟩

/-- The run over `before ++ sf :: after` splits into the run over `before`, the single
entry `sf`, and the run over `after`. -/
theorem Fix_split {W : Type} (env : FixEnv W) (before after : List staleSettingsInfo)
    (sf : staleSettingsInfo) (w : W) :
    (Fix env (before ++ sf :: after) w).calls =
      (Fix env before w).calls ++ (Fix env [sf] (Fix env before w).world).calls ++
        (Fix env after (Fix env [sf] (Fix env before w).world).world).calls := by
  have h1 := Fix_append env before (sf :: after) w
  have h2 := Fix_append env [sf] after (Fix env before w).world
  rw [h1.1]
  have : sf :: after = [sf] ++ after := rfl
  rw [this, h2.1, List.append_assoc]

theorem Fix_single {W : Type} (env : FixEnv W) (sf : staleSettingsInfo) (w : W) :
    (Fix env [sf] w).calls = (fixBody env { errors := [], world := w, calls := [] } sf).calls ∧
    (Fix env [sf] w).world = (fixBody env { errors := [], world := w, calls := [] } sf).world := by
  simp [Fix_calls, Fix_world]

/-! ## Lemmas for `findSettingsFiles` -/

theorem foldl_preserves {α β : Type} (f : β → α → β) (I : β → Prop)
    (hf : ∀ b a, I b → I (f b a)) (l : List α) (b : β) (hb : I b) : I (l.foldl f b) := by
  induction l generalizing b with
  | nil => exact hb
  | cons a l ih => exact ih (f b a) (hf b a hb)

theorem legacy_push (fs : FsView) (townRoot : String) (files : List staleSettingsInfo)
    (x : staleSettingsInfo) (c : Prop) [Decidable c]
    (hI : ∀ e ∈ files, e.wrongLocation = true → AtLegacyLocation fs townRoot e)
    (hx : x.wrongLocation = true → AtLegacyLocation fs townRoot x) :
    ∀ e ∈ (if c then files ++ [x] else files),
      e.wrongLocation = true → AtLegacyLocation fs townRoot e := by
  intro e he
  split at he
  · rcases List.mem_append.1 he with h | h
    · exact hI e h
    · rw [List.mem_singleton.1 h]
      exact hx
  · exact hI e he

theorem crewBody_legacy (fs : FsView) (townRoot crewDir rigName : String)
    (files : List staleSettingsInfo) (crewEntry : DirEntry)
    (hI : ∀ e ∈ files, e.wrongLocation = true → AtLegacyLocation fs townRoot e) :
    ∀ e ∈ crewBody fs crewDir rigName files crewEntry,
      e.wrongLocation = true → AtLegacyLocation fs townRoot e := by
  unfold crewBody
  split
  · exact hI
  · exact legacy_push fs townRoot files _ _ hI (fun h => by cases h)

theorem polecatBody_legacy (fs : FsView) (townRoot polecatsDir rigName : String)
    (files : List staleSettingsInfo) (pcEntry : DirEntry)
    (hI : ∀ e ∈ files, e.wrongLocation = true → AtLegacyLocation fs townRoot e) :
    ∀ e ∈ polecatBody fs polecatsDir rigName files pcEntry,
      e.wrongLocation = true → AtLegacyLocation fs townRoot e := by
  unfold polecatBody
  split
  · exact hI
  · exact legacy_push fs townRoot files _ _ hI (fun h => by cases h)

theorem legacy_ite {fs : FsView} {townRoot : String} {a b : List staleSettingsInfo}
    (c : Prop) [Decidable c]
    (ha : ∀ e ∈ a, e.wrongLocation = true → AtLegacyLocation fs townRoot e)
    (hb : ∀ e ∈ b, e.wrongLocation = true → AtLegacyLocation fs townRoot e) :
    ∀ e ∈ (if c then a else b), e.wrongLocation = true → AtLegacyLocation fs townRoot e := by
  split
  · exact ha
  · exact hb

theorem rigBody_legacy (fs : FsView) (townRoot : String) (files : List staleSettingsInfo)
    (entry : DirEntry)
    (hI : ∀ e ∈ files, e.wrongLocation = true → AtLegacyLocation fs townRoot e) :
    ∀ e ∈ rigBody fs townRoot files entry,
      e.wrongLocation = true → AtLegacyLocation fs townRoot e := by
  unfold rigBody
  dsimp only
  refine legacy_ite _ hI (legacy_ite _ hI ?_)
  have s1 := legacy_push fs townRoot files
    { path := fs.join [fs.join [townRoot, entry.Name], "witness", "rig", ".claude",
        "settings.json"],
      agentType := "witness", rigName := entry.Name,
      sessionName := "gt-" ++ entry.Name ++ "-witness" }
    (fileExists fs (fs.join [fs.join [townRoot, entry.Name], "witness", "rig", ".claude",
        "settings.json"]) = true) hI (fun h => by cases h)
  have s2 := legacy_push fs townRoot _
    { path := fs.join [fs.join [townRoot, entry.Name], "witness", ".claude", "settings.json"],
      agentType := "witness", rigName := entry.Name,
      sessionName := "gt-" ++ entry.Name ++ "-witness", wrongLocation := true }
    (fileExists fs (fs.join [fs.join [townRoot, entry.Name], "witness", ".claude",
        "settings.json"]) = true) s1 (fun _ => ⟨entry.Name, Or.inl rfl⟩)
  have s3 := legacy_push fs townRoot _
    { path := fs.join [fs.join [townRoot, entry.Name], "refinery", "rig", ".claude",
        "settings.json"],
      agentType := "refinery", rigName := entry.Name,
      sessionName := "gt-" ++ entry.Name ++ "-refinery" }
    (fileExists fs (fs.join [fs.join [townRoot, entry.Name], "refinery", "rig", ".claude",
        "settings.json"]) = true) s2 (fun h => by cases h)
  have s4 := legacy_push fs townRoot _
    { path := fs.join [fs.join [townRoot, entry.Name], "refinery", ".claude",
        "settings.json"],
      agentType := "refinery", rigName := entry.Name,
      sessionName := "gt-" ++ entry.Name ++ "-refinery", wrongLocation := true }
    (fileExists fs (fs.join [fs.join [townRoot, entry.Name], "refinery", ".claude",
        "settings.json"]) = true) s3 (fun _ => ⟨entry.Name, Or.inr rfl⟩)
  have s5 := legacy_ite (fs.dirExists (fs.join [fs.join [townRoot, entry.Name], "crew"]) = true)
    (foldl_preserves _
      (fun fl => ∀ e ∈ fl, e.wrongLocation = true → AtLegacyLocation fs townRoot e)
      (fun b a hb => crewBody_legacy fs townRoot
        (fs.join [fs.join [townRoot, entry.Name], "crew"]) entry.Name b a hb)
      (fs.readDir (fs.join [fs.join [townRoot, entry.Name], "crew"])).1 _ s4) s4
  exact legacy_ite (fs.dirExists (fs.join [fs.join [townRoot, entry.Name], "polecats"]) = true)
    (foldl_preserves _
      (fun fl => ∀ e ∈ fl, e.wrongLocation = true → AtLegacyLocation fs townRoot e)
      (fun b a hb => polecatBody_legacy fs townRoot
        (fs.join [fs.join [townRoot, entry.Name], "polecats"]) entry.Name b a hb)
      (fs.readDir (fs.join [fs.join [townRoot, entry.Name], "polecats"])).1 _ s5) s5

/-- Every entry that `findSettingsFiles` flags `wrongLocation` sits at
`<rig>/witness/.claude/settings.json` or `<rig>/refinery/.claude/settings.json`. -/
theorem findSettingsFiles_wrongLocation (fs : FsView) (townRoot : String) :
    ∀ e ∈ findSettingsFiles fs townRoot,
      e.wrongLocation = true → AtLegacyLocation fs townRoot e := by
  unfold findSettingsFiles
  dsimp only
  have s0 : ∀ e ∈ ([] : List staleSettingsInfo),
      e.wrongLocation = true → AtLegacyLocation fs townRoot e := by
    intro e he
    cases he
  have s1 := legacy_push fs townRoot _
    { path := fs.join [townRoot, ".claude", "settings.json"], agentType := "mayor",
      sessionName := "gt-mayor" }
    (fileExists fs (fs.join [townRoot, ".claude", "settings.json"]) = true) s0
    (fun h => by cases h)
  have s2 := legacy_push fs townRoot _
    { path := fs.join [townRoot, "deacon", ".claude", "settings.json"], agentType := "deacon",
      sessionName := "gt-deacon" }
    (fileExists fs (fs.join [townRoot, "deacon", ".claude", "settings.json"]) = true) s1
    (fun h => by cases h)
  split
  · exact s2
  · exact foldl_preserves _
      (fun fl => ∀ e ∈ fl, e.wrongLocation = true → AtLegacyLocation fs townRoot e)
      (fun b a hb => rigBody_legacy fs townRoot b a hb) _ _ s2

/-! ## Lemmas for the error of `Fix` -/

theorem Fix_err {W : Type} (env : FixEnv W) (l : List staleSettingsInfo) (w : W) :
    (Fix env l w).err =
      if (l.foldl (fixBody env) { errors := [], world := w, calls := [] }).errors = [] then none
      else some ("; ".intercalate
        (l.foldl (fixBody env) { errors := [], world := w, calls := [] }).errors) := by
  unfold Fix
  dsimp only
  cases h : (l.foldl (fixBody env) { errors := [], world := w, calls := [] }).errors with
  | nil => simp
  | cons m ms => simp [stringsJoin]

/-- The body adds at most one message. -/
theorem fixBody_errors_length {W : Type} (env : FixEnv W) (sf : staleSettingsInfo) (w : W) :
    (fixBody env { errors := [], world := w, calls := [] } sf).errors.length ≤ 1 := by
  unfold fixBody
  dsimp only
  repeat' split
  all_goals simp

theorem intercalate_singleton (sep m : String) : sep.intercalate [m] = m := by
  simp [String.intercalate, String.intercalate.go]

/-- For one entry, the error of `Fix` is the message the body recorded, if any. -/
theorem Fix_single_err {W : Type} (env : FixEnv W) (sf : staleSettingsInfo) (w : W) :
    (Fix env [sf] w).err.toList =
      (fixBody env { errors := [], world := w, calls := [] } sf).errors := by
  rw [Fix_err]
  simp only [List.foldl_cons, List.foldl_nil]
  have hlen := fixBody_errors_length env sf w
  cases h : (fixBody env { errors := [], world := w, calls := [] } sf).errors with
  | nil => simp
  | cons m ms =>
    rw [h] at hlen
    cases ms with
    | nil => simp [intercalate_singleton]
    | cons m2 ms2 => simp at hlen

theorem fixLoop_errors {W : Type} (env : FixEnv W) (l : List staleSettingsInfo) (w : W) :
    (l.foldl (fixBody env) { errors := [], world := w, calls := [] }).errors =
      fixFailures env l w := by
  induction l generalizing w with
  | nil => rfl
  | cons sf l ih =>
    rw [List.foldl_cons, (fixLoop_frame env l _).2.1, fixFailures, Fix_single_err,
      (Fix_single env sf w).2, ih]

/-! ## Lemmas for the git operations -/

theorem conflictLines_foldl (lines : List String) (acc : List String) :
    lines.foldl (fun files line =>
        let line := stringsTrimSpace line
        if line ≠ "" then files ++ [line] else files) acc
      = acc ++ (lines.map stringsTrimSpace).filter (fun line => line ≠ "") := by
  induction lines generalizing acc with
  | nil => simp
  | cons l ls ih =>
    rw [List.foldl_cons, ih]
    by_cases h : stringsTrimSpace l = ""
    · simp [h]
    · simp [h]

/-- The list `getConflictingFiles` returns, in terms of the result of the `git diff`. -/
theorem getConflictingFiles_eq {W : Type} (env : GitEnv W) (workDir : String)
    (st : GitState W) (r : CmdResult) (w : W)
    (h : env.run workDir ["diff", "--name-only", "--diff-filter=U"] st.world = (r, w)) :
    getConflictingFiles env workDir st =
      ((if r.err = none then nonEmptyTrimmedLines r.stdout else [],
        r.err),
       { world := w, log := st.log ++ [(workDir, ["diff", "--name-only", "--diff-filter=U"])] }) := by
  unfold getConflictingFiles git
  simp only [h]
  cases hr : r.err with
  | none =>
    simp only [if_true]
    rw [conflictLines_foldl]
    simp [nonEmptyTrimmedLines]
  | some e => simp

theorem getCurrentBranch_eq {W : Type} (env : GitEnv W) (workDir : String)
    (st : GitState W) (r : CmdResult) (w : W)
    (h : env.run workDir ["branch", "--show-current"] st.world = (r, w)) :
    getCurrentBranch env workDir st =
      ((match r.err with
        | some e => ("", some ("getting current branch: " ++ e))
        | none => (stringsTrimSpace r.stdout, none)),
       { world := w, log := st.log ++ [(workDir, ["branch", "--show-current"])] }) := by
  unfold getCurrentBranch git
  simp only [h]
  cases r.err <;> rfl

theorem countCommits_eq {W : Type} (env : GitEnv W) (workDir baseBranch headBranch : String)
    (st : GitState W) (r : CmdResult) (w : W)
    (h : env.run workDir ["rev-list", "--count", baseBranch ++ ".." ++ headBranch] st.world
      = (r, w)) :
    countCommits env workDir baseBranch headBranch st =
      ((match r.err with
        | some e => (0, some e)
        | none => env.sscanInt (stringsTrimSpace r.stdout)),
       { world := w,
         log := st.log ++ [(workDir, ["rev-list", "--count", baseBranch ++ ".." ++ headBranch])] }) := by
  unfold countCommits git
  simp only [h]
  cases r.err <;> rfl

/-! ## Lemmas on paths -/

theorem stringsHasPrefix_iff (s pre : String) :
    stringsHasPrefix s pre = true ↔ pre.toList <+: s.toList := by
  simp [stringsHasPrefix, List.isPrefixOf_iff_prefix]

theorem toList_slash (root : String) : (root ++ "/").toList = root.toList ++ ['/'] := by
  simp

theorem pathUnder_iff (root p : String) :
    pathUnder root p = true ↔ p = root ∨ (root.toList ++ ['/']) <+: p.toList := by
  simp [pathUnder, stringsHasPrefix_iff]

theorem pathUnder_false_iff (root p : String) :
    pathUnder root p = false ↔ ¬ (p = root ∨ (root.toList ++ ['/']) <+: p.toList) := by
  rw [← pathUnder_iff]
  simp

theorem pathUnder_trans (a b c : String) (hab : pathUnder a b = true)
    (hbc : pathUnder b c = true) : pathUnder a c = true := by
  rw [pathUnder_iff] at hab hbc ⊢
  rcases hbc with rfl | hbc
  · exact hab
  · rcases hab with rfl | hab
    · exact Or.inr hbc
    · exact Or.inr (hab.trans ((List.prefix_append _ _).trans hbc))

/-- Two slash-free names followed by a slash agree when what follows them is glued to the
same text. -/
theorem slashFree_head_eq (a b x y : List Char) (ha : '/' ∉ a) (hb : '/' ∉ b)
    (h : a ++ '/' :: x = b ++ '/' :: y) : a = b := by
  induction a generalizing b with
  | nil =>
    cases b with
    | nil => rfl
    | cons c cs =>
      simp only [List.nil_append, List.cons_append, List.cons.injEq] at h
      exact absurd (h.1 ▸ List.mem_cons_self _ _) hb
  | cons c cs ih =>
    cases b with
    | nil =>
      simp only [List.nil_append, List.cons_append, List.cons.injEq] at h
      exact absurd (h.1 ▸ List.mem_cons_self _ _) ha
    | cons d ds =>
      simp only [List.cons_append, List.cons.injEq] at h
      rw [h.1, ih ds (fun hm => ha (List.mem_cons_of_mem _ hm))
        (fun hm => hb (List.mem_cons_of_mem _ hm)) h.2]

theorem filepathJoin_toList (dir name : String) :
    (filepathJoin dir name).toList = dir.toList ++ '/' :: name.toList := by
  simp [filepathJoin]

/-- A path below the top-level directory `d` is not at or below another top-level name
`c`. -/
theorem top_level_disjoint (cacheDir c d p : String) (hc : '/' ∉ c.toList)
    (hd : '/' ∉ d.toList)
    (hpc : pathUnder (filepathJoin cacheDir c) p = true)
    (hpd : stringsHasPrefix p (filepathJoin cacheDir d ++ "/") = true) : c = d := by
  rw [stringsHasPrefix_iff, toList_slash, filepathJoin_toList] at hpd
  obtain ⟨rest, hrest⟩ := hpd
  rw [pathUnder_iff, filepathJoin_toList] at hpc
  rcases hpc with hpc | ⟨x, hx⟩
  · have h1 : p.toList = cacheDir.toList ++ '/' :: c.toList := by
      rw [hpc, filepathJoin_toList]
    rw [h1] at hrest
    simp only [List.append_assoc, List.cons_append, List.nil_append] at hrest
    have h2 := List.append_cancel_left hrest
    simp only [List.cons.injEq, true_and] at h2
    exact absurd (h2 ▸ (by simp : '/' ∈ d.toList ++ '/' :: rest)) hc
  · rw [← hrest] at hx
    simp only [List.append_assoc, List.cons_append, List.nil_append] at hx
    have h2 := List.append_cancel_left hx
    simp only [List.cons.injEq, true_and] at h2
    exact String.ext (slashFree_head_eq _ _ _ _ hc hd h2)

/-- A path below the top-level directory `d` is not a slash-free name directly in the
cache directory. -/
theorem top_level_file_not_below (cacheDir n d p : String) (hn : '/' ∉ n.toList)
    (hp : p = filepathJoin cacheDir n)
    (hpd : stringsHasPrefix p (filepathJoin cacheDir d ++ "/") = true) : False := by
  rw [stringsHasPrefix_iff, toList_slash, filepathJoin_toList] at hpd
  obtain ⟨rest, hrest⟩ := hpd
  rw [hp, filepathJoin_toList] at hrest
  simp only [List.append_assoc, List.cons_append, List.nil_append] at hrest
  have h2 := List.append_cancel_left hrest
  simp only [List.cons.injEq, true_and] at h2
  exact hn (h2 ▸ (by simp : '/' ∈ d.toList ++ '/' :: rest))

theorem isCleanableDir_iff (name : String) :
    isCleanableDir name = true ↔
      (name = "debug" ∨ name = "shell-snapshots" ∨ name = "session-env" ∨
        name = "telemetry" ∨ name = "file-history") := by
  simp [isCleanableDir, or_assoc]

theorem isCleanableDir_slashFree (name : String) (h : isCleanableDir name = true) :
    '/' ∉ name.toList := by
  rcases (isCleanableDir_iff name).1 h with h | h | h | h | h <;> subst h <;> decide

/-! ## Lemmas for the cache cleaner -/

theorem foldl_preserves_mem {α β : Type} (f : β → α → β) (I : β → Prop) (l : List α)
    (hf : ∀ b a, a ∈ l → I b → I (f b a)) (b : β) (hb : I b) : I (l.foldl f b) := by
  induction l generalizing b with
  | nil => exact hb
  | cons a l ih =>
    exact ih (fun b x hx => hf b x (List.mem_cons_of_mem _ hx)) (f b a)
      (hf b a (List.mem_cons_self _ _) hb)

/-- What `childName` gives is slash-free and is the last element of the path. -/
theorem childName_spec (dir : String) (e : FsEntry) (name : String)
    (h : childName dir e = some name) :
    '/' ∉ name.toList ∧ e.path = filepathJoin dir name := by
  unfold childName at h
  split at h
  · rename_i hpre
    dsimp only at h
    split at h
    · rename_i hname
      cases h
      refine ⟨hname.2, ?_⟩
      rw [stringsHasPrefix_iff] at hpre
      have := List.prefix_iff_eq_append.1 hpre
      apply String.ext
      have hj := filepathJoin_toList dir
        { data := List.drop (dir ++ "/").toList.length e.path.toList }
      have h2 : (dir ++ "/").data = dir.data ++ ['/'] := by simp
      simp only [String.toList] at this hj ⊢
      rw [h2] at this hj ⊢
      rw [hj]
      rw [List.append_assoc] at this
      exact this.symm
    · cases h
  · cases h

/-- Walking a directory adds only entries of the file system that lie at or below it and
are older than the cutoff. -/
theorem collectStaleEntries_stale (fs : List FsEntry) (dir : String) (cutoff : Int)
    (stats : CacheStats) (P : CacheEntry → Prop)
    (hP : ∀ e ∈ fs, pathUnder dir e.path = true → e.modTime < cutoff →
      P { Path := e.path, Size := e.size, ModTime := e.modTime, IsDir := e.isDir })
    (h : ∀ s ∈ stats.Stale, P s) :
    ∀ s ∈ (collectStaleEntries fs dir cutoff stats).Stale, P s := by
  unfold collectStaleEntries
  apply foldl_preserves_mem _ (fun st : CacheStats => ∀ s ∈ st.Stale, P s) _ _ _ h
  intro st e he hst
  have he2 := List.mem_filter.1 he
  split
  · rename_i hold
    intro s hs
    rcases List.mem_append.1 hs with hs | hs
    · exact hst s hs
    · rw [List.mem_singleton.1 hs]
      exact hP e he2.1 he2.2 hold
  · exact hst

theorem collectTopLevel_stale (fs : List FsEntry) (cacheDir : String) (cutoff : Int)
    (stats : CacheStats) (entry : CacheDirEntry)
    (hentry : entry ∈ (fsReadDir fs cacheDir).1)
    (h : ∀ s ∈ stats.Stale, StaleOrigin fs cacheDir cutoff s) :
    ∀ s ∈ (collectTopLevel fs cacheDir cutoff stats entry).Stale,
      StaleOrigin fs cacheDir cutoff s := by
  unfold collectTopLevel
  dsimp only
  split
  · split
    · rename_i hdir hclean
      apply collectStaleEntries_stale
      · intro e he hunder hold
        exact ⟨⟨e, he, rfl, rfl, hold⟩, Or.inl ⟨entry.Name, hclean, hunder⟩⟩
      · exact h
    · exact h
  · rename_i hdir
    unfold fsReadDir at hentry
    split at hentry
    · obtain ⟨e, he, hmap⟩ := List.mem_filterMap.1 hentry
      cases hc : childName cacheDir e with
      | none => rw [hc] at hmap; cases hmap
      | some name =>
        rw [hc] at hmap
        simp only [Option.map_some', Option.some.injEq] at hmap
        subst hmap
        have hspec := childName_spec cacheDir e name hc
        dsimp only at hdir ⊢
        split
        · rename_i hold
          intro s hs
          rcases List.mem_append.1 hs with hs | hs
          · exact h s hs
          · rw [List.mem_singleton.1 hs]
            refine ⟨⟨e, he, hspec.2, by simpa using hdir, hold⟩,
              Or.inr ⟨rfl, name, hspec.1, rfl⟩⟩
        · exact h
    · cases hentry

theorem collectWalk_stale (env : CacheEnv) (stats : CacheStats) (info : FsEntry) :
    (collectWalk env stats info).Stale = stats.Stale := by
  unfold collectWalk
  split <;> rfl

theorem collectWalk_foldl_stale (env : CacheEnv) (l : List FsEntry) (stats : CacheStats) :
    (l.foldl (collectWalk env) stats).Stale = stats.Stale := by
  induction l generalizing stats with
  | nil => rfl
  | cons e l ih => rw [List.foldl_cons, ih, collectWalk_stale]

/-- Every stale entry `collectCacheStats` reports has a `StaleOrigin`. -/
theorem collectCacheStats_stale (env : CacheEnv) (fs : List FsEntry) (cacheDir : String)
    (maxAgeDays : Int) :
    ∀ s ∈ (collectCacheStats env fs cacheDir maxAgeDays).Stale,
      StaleOrigin fs cacheDir (env.addDays env.now (-maxAgeDays)) s := by
  unfold collectCacheStats
  dsimp only
  split
  · intro s hs
    cases hs
  · rename_i entries heq
    have hent : entries = (fsReadDir fs cacheDir).1 := by rw [heq]
    have h1 : ∀ s ∈ (entries.foldl
        (collectTopLevel fs cacheDir (env.addDays env.now (-maxAgeDays))) {}).Stale,
        StaleOrigin fs cacheDir (env.addDays env.now (-maxAgeDays)) s := by
      apply foldl_preserves_mem _
        (fun st : CacheStats => ∀ s ∈ st.Stale,
          StaleOrigin fs cacheDir (env.addDays env.now (-maxAgeDays)) s)
      · intro st entry hentry hst
        exact collectTopLevel_stale fs cacheDir _ st entry (hent ▸ hentry) hst
      · intro s hs
        cases hs
    split
    · dsimp only
      rw [collectWalk_foldl_stale]
      exact h1
    · dsimp only
      rw [collectWalk_foldl_stale]
      exact h1

theorem foldl_fixed {α β : Type} (f : β → α → β) (l : List α) (b : β)
    (hf : ∀ a ∈ l, f b a = b) : l.foldl f b = b := by
  induction l with
  | nil => rfl
  | cons a l ih =>
    rw [List.foldl_cons, hf a (List.mem_cons_self _ _)]
    exact ih (fun x hx => hf x (List.mem_cons_of_mem _ hx))

theorem cleanStaleDir_dryRun (env : CacheEnv) (cacheDir : String) (v : CleanVars)
    (dir : String) : cleanStaleDir env cacheDir true v dir = v := by
  unfold cleanStaleDir
  dsimp only
  split <;> simp

theorem cleanStaleFile_dryRun (staleDirs : List String) (v : CleanVars)
    (entry : CacheEntry) : cleanStaleFile staleDirs true v entry = v := by
  unfold cleanStaleFile
  dsimp only
  split
  · rfl
  · split <;> simp

/-- In a dry run `cleanStaleEntries` hands back the file system it was given. -/
theorem cleanStaleEntries_dryRun_eq (env : CacheEnv) (cacheDir : String)
    (stats : CacheStats) (fs : List FsEntry) :
    cleanStaleEntries env cacheDir stats true fs = (none, fs) := by
  unfold cleanStaleEntries
  split
  · rfl
  · dsimp only
    rw [foldl_fixed _ _ _ (fun a _ => cleanStaleDir_dryRun env cacheDir _ a),
      foldl_fixed _ _ _ (fun a _ => cleanStaleFile_dryRun _ _ a)]

theorem mem_staleDirKeys (stats : CacheStats) (dir : String) (h : dir ∈ staleDirKeys stats) :
    ∃ s ∈ stats.Stale, s.IsDir = true ∧ s.Path = dir := by
  unfold staleDirKeys at h
  rw [List.mem_dedup, List.mem_map] at h
  obtain ⟨s, hs, hp⟩ := h
  exact ⟨s, (List.mem_filter.1 hs).1, (List.mem_filter.1 hs).2, hp⟩

theorem cleanStaleDir_keeps (env : CacheEnv) (cacheDir : String) (dryRun : Bool)
    (v : CleanVars) (dir : String) (e : FsEntry) (he : e ∈ v.fs)
    (hout : pathUnder dir e.path = false) :
    e ∈ (cleanStaleDir env cacheDir dryRun v dir).fs := by
  unfold cleanStaleDir fsRemoveAll
  dsimp only
  split
  · split
    · exact he
    · exact List.mem_filter.2 ⟨he, by simp [hout]⟩
  · exact he

theorem fsRemove_keeps (path : String) (fs : List FsEntry) (e : FsEntry) (he : e ∈ fs)
    (hne : e.path ≠ path) : e ∈ (fsRemove path fs).2 := by
  unfold fsRemove
  split
  · split
    · exact he
    · exact List.mem_filter.2 ⟨he, by simpa using hne⟩
  · exact he

theorem cleanStaleFile_keeps (staleDirs : List String) (dryRun : Bool) (v : CleanVars)
    (entry : CacheEntry) (e : FsEntry) (he : e ∈ v.fs)
    (hne : entry.IsDir = false → entry.Path ≠ e.path) :
    e ∈ (cleanStaleFile staleDirs dryRun v entry).fs := by
  unfold cleanStaleFile
  dsimp only
  split
  · exact he
  · rename_i hdir
    have hk := fsRemove_keeps entry.Path v.fs e he
      (fun h => hne (by simpa using hdir) h.symm)
    split
    · exact he
    · split
      · exact he
      · split
        · rename_i heq
          rw [heq] at hk
          exact hk
        · rename_i heq
          rw [heq] at hk
          exact hk

/-- An entry survives `cleanStaleEntries` when it lies at or below no stale directory and
is not itself a stale non-directory. -/
theorem cleanStaleEntries_survives (env : CacheEnv) (cacheDir : String) (stats : CacheStats)
    (dryRun : Bool) (fs : List FsEntry) (e : FsEntry) (he : e ∈ fs)
    (hdirs : ∀ s ∈ stats.Stale, s.IsDir = true → pathUnder s.Path e.path = false)
    (hfiles : ∀ s ∈ stats.Stale, s.IsDir = false → s.Path ≠ e.path) :
    e ∈ (cleanStaleEntries env cacheDir stats dryRun fs).2 := by
  unfold cleanStaleEntries
  split
  · exact he
  · dsimp only
    apply foldl_preserves_mem _ (fun v : CleanVars => e ∈ v.fs)
    · intro v s hs hv
      exact cleanStaleFile_keeps _ dryRun v s e hv (hfiles s hs)
    · apply foldl_preserves_mem _ (fun v : CleanVars => e ∈ v.fs)
      · intro v dir hdir hv
        have hkey := (env.rangeOrder_perm (staleDirKeys stats)).mem_iff.1 hdir
        obtain ⟨s, hs, hsd, hsp⟩ := mem_staleDirKeys stats dir hkey
        exact cleanStaleDir_keeps env cacheDir dryRun v dir e hv (hsp ▸ hdirs s hs hsd)
      · exact he

theorem eq_of_path_eq (fs : List FsEntry) (hnodup : (fs.map (fun e => e.path)).Nodup)
    (a b : FsEntry) (ha : a ∈ fs) (hb : b ∈ fs) (h : a.path = b.path) : a = b :=
  List.inj_on_of_nodup_map hnodup ha hb h

/-! ## Further lemmas for `aggregateCIStatus` -/

/-- Checks that are neither failed nor pending leave the loop variables as they are. -/
theorem foldl_filter_relevant (checks : List PRCheck) (v : AggVars) :
    checks.foldl aggregateCIStatusBody v =
      (checks.filter (fun c => isFailed c || isPending c)).foldl aggregateCIStatusBody v := by
  induction checks generalizing v with
  | nil => rfl
  | cons c cs ih =>
    rcases body_cases v c with ⟨hf, hp, _⟩ | ⟨hf, hp, _⟩ | ⟨hf, hp, hb⟩
    · rw [List.filter_cons_of_pos (by simp [hf]), List.foldl_cons, List.foldl_cons, ih]
    · rw [List.filter_cons_of_pos (by simp [hp]), List.foldl_cons, List.foldl_cons, ih]
    · rw [List.filter_cons_of_neg (by simp [hf, hp]), List.foldl_cons, hb, ih]

/-- Without a failed check the loop does not touch the URL. -/
theorem foldl_url_of_no_failed (checks : List PRCheck) (v : AggVars)
    (h : checks.any isFailed = false) :
    (checks.foldl aggregateCIStatusBody v).status.URL = v.status.URL := by
  induction checks generalizing v with
  | nil => rfl
  | cons c cs ih =>
    rw [List.any_cons, Bool.or_eq_false_iff] at h
    rw [List.foldl_cons, ih _ h.2]
    rcases body_cases v c with ⟨hf, _, _⟩ | ⟨_, _, hb⟩ | ⟨_, _, hb⟩
    · rw [h.1] at hf
      cases hf
    · rw [hb]
      dsimp only
      split <;> rfl
    · rw [hb]

theorem aggregateCIStatus_url (prNumber : Int) (checks : List PRCheck) :
    (aggregateCIStatus prNumber checks).URL =
      (checks.foldl aggregateCIStatusBody (aggregateCIStatusInit prNumber)).status.URL := by
  unfold aggregateCIStatus
  dsimp only
  split
  · rfl
  · split <;> rfl

/-- Whether a list has a failed check is a matter of the states that occur in it. -/
theorem any_isFailed_states (checks : List PRCheck) :
    checks.any isFailed = true ↔
      ("FAILURE" ∈ checks.map (fun c => c.State) ∨ "ERROR" ∈ checks.map (fun c => c.State)) := by
  rw [any_isFailed_iff]
  simp only [List.mem_map]
  constructor
  · rintro ⟨c, hc, h | h⟩
    · exact Or.inl ⟨c, hc, h⟩
    · exact Or.inr ⟨c, hc, h⟩
  · rintro (⟨c, hc, h⟩ | ⟨c, hc, h⟩)
    · exact ⟨c, hc, Or.inl h⟩
    · exact ⟨c, hc, Or.inr h⟩

theorem any_isPending_states (checks : List PRCheck) :
    checks.any isPending = true ↔
      ("PENDING" ∈ checks.map (fun c => c.State) ∨ "QUEUED" ∈ checks.map (fun c => c.State) ∨
        "IN_PROGRESS" ∈ checks.map (fun c => c.State)) := by
  rw [any_isPending_iff]
  simp only [List.mem_map]
  constructor
  · rintro ⟨c, hc, h | h | h⟩
    · exact Or.inl ⟨c, hc, h⟩
    · exact Or.inr (Or.inl ⟨c, hc, h⟩)
    · exact Or.inr (Or.inr ⟨c, hc, h⟩)
  · rintro (⟨c, hc, h⟩ | ⟨c, hc, h⟩ | ⟨c, hc, h⟩)
    · exact ⟨c, hc, Or.inl h⟩
    · exact ⟨c, hc, Or.inr (Or.inl h)⟩
    · exact ⟨c, hc, Or.inr (Or.inr h)⟩

/-- The state is the same for two lists in which the same states occur. -/
theorem aggregateCIStatus_state_of_states (p q : Int) (l₁ l₂ : List PRCheck)
    (h : ∀ s, s ∈ l₁.map (fun c => c.State) ↔ s ∈ l₂.map (fun c => c.State)) :
    (aggregateCIStatus p l₁).State = (aggregateCIStatus q l₂).State := by
  have hf : l₁.any isFailed = l₂.any isFailed := by
    rw [Bool.eq_iff_iff, any_isFailed_states, any_isFailed_states, h, h]
  have hp : l₁.any isPending = l₂.any isPending := by
    rw [Bool.eq_iff_iff, any_isPending_states, any_isPending_states, h, h, h]
  rw [aggregateCIStatus_state, aggregateCIStatus_state, hf, hp]

/-! ## Lemmas for `Run` -/

theorem runBody_cases (rd : SettingsReader) (v : RunVars) (sf : staleSettingsInfo) :
    (runBody rd v sf).staleSettings =
        v.staleSettings ++ (staleSettingsEntry rd sf).toList ∧
    (runBody rd v sf).details.length =
        v.details.length + (staleSettingsEntry rd sf).toList.length ∧
    (runBody rd v sf).reads =
        v.reads ++ (if sf.wrongLocation then [] else [sf.path]) := by
  unfold runBody staleSettingsEntry
  by_cases hw : sf.wrongLocation = true
  · simp [hw]
  · by_cases hm : checkSettings rd sf.path sf.agentType = []
    · simp [hw, hm]
    · have hpos : (checkSettings rd sf.path sf.agentType).length > 0 :=
        List.length_pos.2 hm
      simp [hw, hm, hpos]

theorem runLoop_spec (rd : SettingsReader) (files : List staleSettingsInfo) (v : RunVars) :
    (files.foldl (runBody rd) v).staleSettings =
        v.staleSettings ++ files.filterMap (staleSettingsEntry rd) ∧
    (files.foldl (runBody rd) v).details.length =
        v.details.length + (files.filterMap (staleSettingsEntry rd)).length ∧
    (files.foldl (runBody rd) v).reads =
        v.reads ++ (files.filter (fun sf => !sf.wrongLocation)).map (fun sf => sf.path) := by
  induction files generalizing v with
  | nil => simp
  | cons sf files ih =>
    obtain ⟨h1, h2, h3⟩ := runBody_cases rd v sf
    obtain ⟨i1, i2, i3⟩ := ih (runBody rd v sf)
    rw [List.foldl_cons, i1, i2, i3, h1, h2, h3]
    refine ⟨?_, ?_, ?_⟩
    · cases hs : staleSettingsEntry rd sf <;> simp [List.filterMap_cons, hs]
    · cases hs : staleSettingsEntry rd sf <;> simp [List.filterMap_cons, hs]
      omega
    · by_cases hw : sf.wrongLocation = true
      · simp [hw]
      · simp [hw]

theorem staleSettingsEntry_path (rd : SettingsReader) (sf e : staleSettingsInfo)
    (h : staleSettingsEntry rd sf = some e) : e.path = sf.path := by
  unfold staleSettingsEntry at h
  split at h
  · cases h
    rfl
  · split at h
    · cases h
      rfl
    · cases h

theorem staleSettingsEntry_isSome (rd : SettingsReader) (sf : staleSettingsInfo) :
    (staleSettingsEntry rd sf).isSome = isStaleSettings rd sf := by
  unfold staleSettingsEntry isStaleSettings
  by_cases hw : sf.wrongLocation = true
  · simp [hw]
  · by_cases hm : checkSettings rd sf.path sf.agentType = []
    · simp [hw, hm]
    · simp [hw, hm]

theorem filterMap_staleSettingsEntry_path (rd : SettingsReader)
    (files : List staleSettingsInfo) :
    (files.filterMap (staleSettingsEntry rd)).map (fun sf => sf.path) =
      (files.filter (isStaleSettings rd)).map (fun sf => sf.path) := by
  induction files with
  | nil => rfl
  | cons sf files ih =>
    have hs := staleSettingsEntry_isSome rd sf
    cases he : staleSettingsEntry rd sf with
    | none =>
      rw [he] at hs
      have : isStaleSettings rd sf = false := by simpa using hs.symm
      rw [List.filterMap_cons, he, List.filter_cons_of_neg (by simp [this])]
      exact ih
    | some e =>
      rw [he] at hs
      have : isStaleSettings rd sf = true := by simpa using hs.symm
      rw [List.filterMap_cons, he, List.filter_cons_of_pos this, List.map_cons,
        List.map_cons, ih, staleSettingsEntry_path rd sf e he]

/-! ## Lemmas for `formatSize` -/

theorem roundHalfEven_nearest (n d : Int) (hd : 0 < d) :
    -d ≤ 2 * (n - roundHalfEven n d * d) ∧ 2 * (n - roundHalfEven n d * d) ≤ d ∧
    (2 * (n - roundHalfEven n d * d) = d ∨ 2 * (n - roundHalfEven n d * d) = -d →
      roundHalfEven n d % 2 = 0) := by
  have h1 : d * (n / d) + n % d = n := Int.ediv_add_emod n d
  have h2 : 0 ≤ n % d := Int.emod_nonneg n (by omega)
  have h3 : n % d < d := Int.emod_lt_of_pos n hd
  have h4 : n - (n / d) * d = n % d := by linarith [mul_comm d (n / d)]
  have h5 : n - (n / d + 1) * d = n % d - d := by linarith [mul_comm d (n / d)]
  unfold roundHalfEven
  dsimp only
  by_cases c1 : 2 * (n % d) < d
  · rw [if_pos c1, h4]
    exact ⟨by omega, by omega, fun h => by omega⟩
  · rw [if_neg c1]
    by_cases c2 : 2 * (n % d) > d
    · rw [if_pos c2, h5]
      exact ⟨by omega, by omega, fun h => by omega⟩
    · rw [if_neg c2]
      by_cases c3 : n / d % 2 = 0
      · rw [if_pos c3, h4]
        exact ⟨by omega, by omega, fun _ => c3⟩
      · rw [if_neg c3, h5]
        exact ⟨by omega, by omega, fun _ => by omega⟩

theorem roundHalfEven_nonneg (n d : Int) (hn : 0 ≤ n) (hd : 0 < d) :
    0 ≤ roundHalfEven n d := by
  have h : 0 ≤ n / d := Int.ediv_nonneg hn (by omega)
  unfold roundHalfEven
  dsimp only
  repeat' split
  all_goals omega

theorem roundHalfEven_isNearestTenth (num den : Int) (hd : 0 < den) :
    IsNearestTenth num den (roundHalfEven (10 * num) den) :=
  roundHalfEven_nearest (10 * num) den hd

theorem float64Shift_spec (fuel n : Nat) (h : n < 2 ^ (53 + fuel)) :
    n < 2 ^ (53 + float64Shift fuel n) ∧
    (0 < float64Shift fuel n → 2 ^ (52 + float64Shift fuel n) ≤ n) := by
  induction fuel generalizing n with
  | zero =>
    unfold float64Shift
    exact ⟨h, fun h0 => absurd h0 (by decide)⟩
  | succ fuel ih =>
    unfold float64Shift
    by_cases c : n < 2 ^ 53
    · rw [if_pos c]
      exact ⟨c, fun h0 => absurd h0 (by decide)⟩
    · rw [if_neg c]
      have hp : 2 ^ (53 + (fuel + 1)) = 2 * 2 ^ (53 + fuel) := by
        rw [← Nat.add_assoc, Nat.pow_succ, Nat.mul_comm]
      have hhalf : n / 2 < 2 ^ (53 + fuel) := by omega
      obtain ⟨i1, i2⟩ := ih (n / 2) hhalf
      have hq : 2 ^ (53 + (float64Shift fuel (n / 2) + 1)) =
          2 * 2 ^ (53 + float64Shift fuel (n / 2)) := by
        rw [← Nat.add_assoc, Nat.pow_succ, Nat.mul_comm]
      have hq2 : 2 ^ (52 + (float64Shift fuel (n / 2) + 1)) =
          2 * 2 ^ (52 + float64Shift fuel (n / 2)) := by
        rw [← Nat.add_assoc, Nat.pow_succ, Nat.mul_comm]
      refine ⟨by omega, fun _ => ?_⟩
      by_cases c0 : float64Shift fuel (n / 2) = 0
      · rw [c0]
        exact Nat.le_of_not_lt c
      · have := i2 (Nat.pos_of_ne_zero c0)
        omega

theorem float64_of_lt (b : Int) (h0 : 0 ≤ b) (h : b < 2 ^ 53) : float64 b = b := by
  have hn : b.natAbs < 2 ^ 53 := by omega
  have hs : float64Shift 11 b.natAbs = 0 := by
    unfold float64Shift
    rw [if_pos hn]
  have habs : Int.ofNat b.natAbs = b := by
    simpa using Int.natAbs_of_nonneg h0
  unfold float64
  dsimp only
  rw [hs, habs, if_neg (by omega)]
  unfold roundHalfEven
  simp

theorem toString_digit_length (t : Int) : (toString (t % 10)).length = 1 := by
  have h : t % 10 = 0 ∨ t % 10 = 1 ∨ t % 10 = 2 ∨ t % 10 = 3 ∨ t % 10 = 4 ∨ t % 10 = 5 ∨
      t % 10 = 6 ∨ t % 10 = 7 ∨ t % 10 = 8 ∨ t % 10 = 9 := by omega
  rcases h with h | h | h | h | h | h | h | h | h | h <;> rw [h] <;> decide

theorem isNearestTenth_unique (n d t t' : Int) (hd : 0 < d)
    (h : IsNearestTenth n d t) (h' : IsNearestTenth n d t') : t = t' := by
  obtain ⟨a1, a2, a3⟩ := h
  obtain ⟨b1, b2, b3⟩ := h'
  have hk1 : t' - t ≤ 1 := by
    by_contra hc
    have : 2 ≤ t' - t := by omega
    nlinarith
  have hk2 : -1 ≤ t' - t := by
    by_contra hc
    have : t' - t ≤ -2 := by omega
    nlinarith
  have hk : t' = t ∨ t' = t + 1 ∨ t' = t - 1 := by omega
  rcases hk with hk | hk | hk
  · exact hk.symm
  · subst hk
    have e : (t + 1) * d = t * d + d := by ring
    rw [e] at b1 b2 b3
    have ht : t % 2 = 0 := a3 (Or.inl (by linarith))
    have ht' : (t + 1) % 2 = 0 := b3 (Or.inr (by linarith))
    omega
  · subst hk
    have e : (t - 1) * d = t * d - d := by ring
    rw [e] at b1 b2 b3
    have ht : t % 2 = 0 := a3 (Or.inr (by linarith))
    have ht' : (t - 1) % 2 = 0 := b3 (Or.inl (by linarith))
    omega

theorem float64_of_ge (b : Int) (h0 : 2 ^ 53 ≤ b) (h : b < 2 ^ 63) :
    ∃ s : Nat, 0 < s ∧ (2 : Int) ^ (52 + s) ≤ b ∧ b < 2 ^ (53 + s) ∧
      (∃ m : Int, float64 b = m * 2 ^ s ∧
        (2 * (b - float64 b) = 2 ^ s ∨ 2 * (b - float64 b) = -2 ^ s → m % 2 = 0)) ∧
      -2 ^ s ≤ 2 * (b - float64 b) ∧ 2 * (b - float64 b) ≤ 2 ^ s := by
  have hb0 : 0 ≤ b := le_trans (by norm_num) h0
  have habs : Int.ofNat b.natAbs = b := by
    simpa using Int.natAbs_of_nonneg hb0
  have hn : b.natAbs < 2 ^ (53 + 11) := by
    have : (b.natAbs : Int) < 2 ^ 64 := by
      have e : (b.natAbs : Int) = b := habs
      rw [e]
      exact lt_trans h (by norm_num)
    exact_mod_cast this
  obtain ⟨s1, s2⟩ := float64Shift_spec 11 b.natAbs hn
  have hpos : 0 < float64Shift 11 b.natAbs := by
    by_contra hc
    have hz : float64Shift 11 b.natAbs = 0 := by omega
    rw [hz] at s1
    have : (b.natAbs : Int) < 2 ^ 53 := by exact_mod_cast s1
    have e : (b.natAbs : Int) = b := habs
    rw [e] at this
    omega
  have s2 := s2 hpos
  have hd : (0 : Int) < 2 ^ float64Shift 11 b.natAbs := by positivity
  have hf : float64 b =
      roundHalfEven b (2 ^ float64Shift 11 b.natAbs) * 2 ^ float64Shift 11 b.natAbs := by
    unfold float64
    dsimp only
    rw [habs, if_neg (by omega)]
  obtain ⟨n1, n2, n3⟩ := roundHalfEven_nearest b _ hd
  refine ⟨float64Shift 11 b.natAbs, hpos, ?_, ?_, ⟨_, hf, ?_⟩, ?_, ?_⟩
  · have : ((2 ^ (52 + float64Shift 11 b.natAbs) : Nat) : Int) ≤ (b.natAbs : Int) :=
      Int.ofNat_le.2 s2
    have e : (b.natAbs : Int) = b := habs
    rw [e] at this
    exact_mod_cast this
  · have : (b.natAbs : Int) < ((2 ^ (53 + float64Shift 11 b.natAbs) : Nat) : Int) :=
      Int.ofNat_lt.2 s1
    have e : (b.natAbs : Int) = b := habs
    rw [e] at this
    exact_mod_cast this
  · rw [hf]
    exact n3
  · rw [hf]
    exact n1
  · rw [hf]
    exact n2

/-! ## Claims about `aggregateCIStatus` and `parseReviewStatus` -/

/-- C1: for every PR number and every list of checks, `aggregateCIStatus` returns state
`failure` exactly when some check of the list is in state `FAILURE` or `ERROR`; membership
is position-free, so pending checks before or after the failed one do not matter, and the
second and third conjuncts spell that out for a failed check between arbitrary lists. -/
theorem aggregateCIStatus_failure_iff (prNumber : Int) (checks : List PRCheck) :
    ((aggregateCIStatus prNumber checks).State = "failure" ↔
        ∃ c ∈ checks, c.State = "FAILURE" ∨ c.State = "ERROR") ∧
    (∀ (before after : List PRCheck) (name url : String),
        (aggregateCIStatus prNumber (before ++ ⟨"FAILURE", name, url⟩ :: after)).State
          = "failure") ∧
    (∀ (before after : List PRCheck) (name url : String),
        (aggregateCIStatus prNumber (before ++ ⟨"ERROR", name, url⟩ :: after)).State
          = "failure") := by
  have key : ∀ cs : List PRCheck, ((aggregateCIStatus prNumber cs).State = "failure" ↔
      ∃ c ∈ cs, c.State = "FAILURE" ∨ c.State = "ERROR") := by
    intro cs
    rw [aggregateCIStatus_state, ← any_isFailed_iff]
    by_cases a : cs.any isFailed = true
    · simp [a]
    · by_cases b : cs.any isPending = true <;> simp [a, b]
  refine ⟨key checks, ?_, ?_⟩
  · intro before after name url
    exact (key _).2 ⟨⟨"FAILURE", name, url⟩, by simp, Or.inl rfl⟩
  · intro before after name url
    exact (key _).2 ⟨⟨"ERROR", name, url⟩, by simp, Or.inr rfl⟩

/-- C2: when at least one check is in state `FAILURE` or `ERROR`, the details are
`"Failed: "` followed by the names of exactly the failed checks, in input order, joined by
`", "`. -/
theorem aggregateCIStatus_failed_details (prNumber : Int) (checks : List PRCheck)
    (h : ∃ c ∈ checks, c.State = "FAILURE" ∨ c.State = "ERROR") :
    (aggregateCIStatus prNumber checks).Details =
      "Failed: " ++ ", ".intercalate
        ((checks.filter (fun c => c.State = "FAILURE" ∨ c.State = "ERROR")).map (·.Name)) := by
  rw [aggregateCIStatus_details, if_pos ((any_isFailed_iff checks).2 h)]
  rfl

/-- C2, at the input of `TestGetPRCIStatusWithClient_WithMultipleFailures`. -/
theorem aggregateCIStatus_failed_details_witness :
    (aggregateCIStatus 789
        [⟨"FAILURE", "lint", "https://example.com/lint"⟩,
         ⟨"FAILURE", "test", "https://example.com/test"⟩,
         ⟨"SUCCESS", "build", "https://example.com/build"⟩]).Details = "Failed: lint, test" :=
  (aggregateCIStatus_failed_details 789
      [⟨"FAILURE", "lint", "https://example.com/lint"⟩,
       ⟨"FAILURE", "test", "https://example.com/test"⟩,
       ⟨"SUCCESS", "build", "https://example.com/build"⟩]
      ⟨⟨"FAILURE", "lint", "https://example.com/lint"⟩, by decide, by decide⟩).trans
    (by decide)

/-- C3 (divergence): with two failed checks of which the first has an empty `DetailsURL`,
the returned URL is the second check's, not the first failed check's (which is empty). -/
theorem aggregateCIStatus_url_skips_empty_first :
    (aggregateCIStatus 1 [⟨"FAILURE", "a", ""⟩, ⟨"FAILURE", "b", "U2"⟩]).URL = "U2" ∧
    firstFailedURL [⟨"FAILURE", "a", ""⟩, ⟨"FAILURE", "b", "U2"⟩] = "" ∧
    (aggregateCIStatus 1 [⟨"FAILURE", "a", ""⟩, ⟨"FAILURE", "b", "U2"⟩]).URL ≠
      firstFailedURL [⟨"FAILURE", "a", ""⟩, ⟨"FAILURE", "b", "U2"⟩] := by
  decide

/-- C4: with no failed check and at least one check in state `PENDING`, `QUEUED` or
`IN_PROGRESS`, the state is `pending` and the details are `"Pending: "` followed by the
names of exactly those checks, in input order, joined by `", "`. -/
theorem aggregateCIStatus_pending (prNumber : Int) (checks : List PRCheck)
    (hnf : ∀ c ∈ checks, ¬ (c.State = "FAILURE" ∨ c.State = "ERROR"))
    (hp : ∃ c ∈ checks, c.State = "PENDING" ∨ c.State = "QUEUED" ∨ c.State = "IN_PROGRESS") :
    (aggregateCIStatus prNumber checks).State = "pending" ∧
    (aggregateCIStatus prNumber checks).Details =
      "Pending: " ++ ", ".intercalate
        ((checks.filter (fun c =>
            c.State = "PENDING" ∨ c.State = "QUEUED" ∨ c.State = "IN_PROGRESS")).map
          (·.Name)) := by
  have a : ¬ checks.any isFailed = true := by
    rw [any_isFailed_iff]
    rintro ⟨c, hc, hf⟩
    exact hnf c hc hf
  have b : checks.any isPending = true := (any_isPending_iff checks).2 hp
  constructor
  · rw [aggregateCIStatus_state, if_neg a, if_pos b]
  · rw [aggregateCIStatus_details, if_neg a, if_pos b]
    rfl

/-- C4, at the input of `TestGetPRCIStatusWithClient_WithPending`. -/
theorem aggregateCIStatus_pending_witness :
    (aggregateCIStatus 111
        [⟨"SUCCESS", "lint", "https://example.com/lint"⟩,
         ⟨"PENDING", "test", "https://example.com/test"⟩,
         ⟨"IN_PROGRESS", "build", "https://example.com/build"⟩]).State = "pending" ∧
    (aggregateCIStatus 111
        [⟨"SUCCESS", "lint", "https://example.com/lint"⟩,
         ⟨"PENDING", "test", "https://example.com/test"⟩,
         ⟨"IN_PROGRESS", "build", "https://example.com/build"⟩]).Details
      = "Pending: test, build" := by
  have h := aggregateCIStatus_pending 111
      [⟨"SUCCESS", "lint", "https://example.com/lint"⟩,
       ⟨"PENDING", "test", "https://example.com/test"⟩,
       ⟨"IN_PROGRESS", "build", "https://example.com/build"⟩]
      (by decide) ⟨⟨"PENDING", "test", "https://example.com/test"⟩, by decide, by decide⟩
  exact ⟨h.1, h.2.trans (by decide)⟩

/-- C5: with no check in state `FAILURE`, `ERROR`, `PENDING`, `QUEUED` or `IN_PROGRESS`,
the state is `success`, the details are `"All checks passed"` and the PR number is the
argument; the last conjunct is the empty list. -/
theorem aggregateCIStatus_success (prNumber : Int) (checks : List PRCheck)
    (h : ∀ c ∈ checks, c.State ≠ "FAILURE" ∧ c.State ≠ "ERROR" ∧ c.State ≠ "PENDING" ∧
      c.State ≠ "QUEUED" ∧ c.State ≠ "IN_PROGRESS") :
    (aggregateCIStatus prNumber checks).State = "success" ∧
    (aggregateCIStatus prNumber checks).Details = "All checks passed" ∧
    (aggregateCIStatus prNumber checks).PRNumber = prNumber ∧
    aggregateCIStatus prNumber [] = ⟨prNumber, "success", "All checks passed", ""⟩ := by
  have a : ¬ checks.any isFailed = true := by
    rw [any_isFailed_iff]
    rintro ⟨c, hc, hf | hf⟩
    · exact (h c hc).1 hf
    · exact (h c hc).2.1 hf
  have b : ¬ checks.any isPending = true := by
    rw [any_isPending_iff]
    rintro ⟨c, hc, hf | hf | hf⟩
    · exact (h c hc).2.2.1 hf
    · exact (h c hc).2.2.2.1 hf
    · exact (h c hc).2.2.2.2 hf
  refine ⟨?_, ?_, aggregateCIStatus_prNumber prNumber checks, rfl⟩
  · rw [aggregateCIStatus_state, if_neg a, if_neg b]
  · rw [aggregateCIStatus_details, if_neg a, if_neg b]

/-- C5, at a list of a successful and a skipped check. -/
theorem aggregateCIStatus_success_witness :
    aggregateCIStatus 2 [⟨"SUCCESS", "a", "u"⟩, ⟨"SKIPPED", "b", "w"⟩]
      = ⟨2, "success", "All checks passed", ""⟩ ∧
    (aggregateCIStatus 2 [⟨"SUCCESS", "a", "u"⟩, ⟨"SKIPPED", "b", "w"⟩]).State = "success" :=
  ⟨by decide,
    (aggregateCIStatus_success 2 [⟨"SUCCESS", "a", "u"⟩, ⟨"SKIPPED", "b", "w"⟩]
      (by decide)).1⟩

/-- C6: `parseReviewStatus` maps the review decision `APPROVED` to `approved`,
`CHANGES_REQUESTED` to `changes_requested`, `REVIEW_REQUIRED` to `review_required` and
every other decision (the empty string included) to `pending`, and its error is always
nil. -/
theorem parseReviewStatus_status (info : PRReviewInfo) :
    (info.ReviewDecision = "APPROVED" → (parseReviewStatus info).1 = "approved") ∧
    (info.ReviewDecision = "CHANGES_REQUESTED" →
      (parseReviewStatus info).1 = "changes_requested") ∧
    (info.ReviewDecision = "REVIEW_REQUIRED" →
      (parseReviewStatus info).1 = "review_required") ∧
    (info.ReviewDecision ≠ "APPROVED" → info.ReviewDecision ≠ "CHANGES_REQUESTED" →
      info.ReviewDecision ≠ "REVIEW_REQUIRED" → (parseReviewStatus info).1 = "pending") ∧
    (parseReviewStatus info).2.2 = none := by
  refine ⟨?_, ?_, ?_, ?_, rfl⟩
  · intro h
    simp [parseReviewStatus, h, PRStatusApproved]
  · intro h
    simp [parseReviewStatus, h, PRStatusChangesRequested]
  · intro h
    simp [parseReviewStatus, h]
  · intro h1 h2 h3
    simp [parseReviewStatus, h1, h2, h3]

/-- C6, at the empty decision and at a decision outside the table. -/
theorem parseReviewStatus_status_witness :
    (parseReviewStatus ⟨"", []⟩).1 = "pending" ∧
    (parseReviewStatus ⟨"DISMISSED", [⟨"APPROVED"⟩]⟩).1 = "pending" :=
  ⟨(parseReviewStatus_status ⟨"", []⟩).2.2.2.1 (by decide) (by decide) (by decide),
   (parseReviewStatus_status ⟨"DISMISSED", [⟨"APPROVED"⟩]⟩).2.2.2.1
     (by decide) (by decide) (by decide)⟩

/-- C7: the approval count returned by `parseReviewStatus` is the number of reviews whose
state is exactly `APPROVED`, whatever the review decision is. -/
theorem parseReviewStatus_approvals (decision : String) (reviews : List PRReview) :
    (parseReviewStatus ⟨decision, reviews⟩).2.1 =
      ((reviews.countP (fun r => r.State = "APPROVED") : Nat) : Int) := by
  simp only [parseReviewStatus]
  rw [foldl_approvals, zero_add]
  rfl

/-! ## Claims about `checkSettings` and `Fix` -/

/-- C8: for a readable settings file, `checkSettings` returns the empty list exactly when
the content decodes to a JSON object that has the key `enabledPlugins`, a `SessionStart`
hook command containing `PATH=`, a `SessionStart` hook command containing
`gt nudge deacon session-started`, and a `Stop` hook command containing `gt costs record`;
so leaving out any one of the four makes the list non-empty. -/
theorem checkSettings_eq_nil_iff (rd : SettingsReader) (path agentType data : String)
    (hread : rd.readFile path = .ok data) :
    checkSettings rd path agentType = [] ↔
      ∃ actual, rd.unmarshal data = .ok actual ∧
        (actual.lookup "enabledPlugins").isSome = true ∧
        HasHookCommand actual "SessionStart" "PATH=" ∧
        HasHookCommand actual "SessionStart" "gt nudge deacon session-started" ∧
        HasHookCommand actual "Stop" "gt costs record" := by
  unfold checkSettings
  simp only [hread]
  cases hu : rd.unmarshal data with
  | error e => simp
  | ok actual =>
    simp only [Except.ok.injEq, exists_eq_left', List.nil_append]
    cases hk : actual.lookup "hooks" with
    | none =>
      constructor
      · intro h
        simp at h
      · rintro ⟨_, h, _⟩
        obtain ⟨hooks, h0⟩ := h.hooks_map
        rw [hk] at h0
        cases h0
    | some val =>
      cases val with
      | map hooks =>
        simp only [← checkSettings_hooks_iff actual _ _ hooks hk]
        cases h1 : hookHasPattern hooks "SessionStart" "PATH=" <;>
        cases h2 : hookHasPattern hooks "SessionStart" "gt nudge deacon session-started" <;>
        cases h3 : hookHasPattern hooks "Stop" "gt costs record" <;>
        cases h4 : actual.lookup "enabledPlugins" <;> simp
      | _ =>
        constructor
        · intro h
          simp at h
        · rintro ⟨_, h, _⟩
          obtain ⟨hooks, h0⟩ := h.hooks_map
          rw [hk] at h0
          cases h0

/-- C8, at a file with all four elements (empty list, and the four elements are there) and
at the same file without its `Stop` hook (the list is `["Stop hook"]`). -/
theorem checkSettings_eq_nil_iff_witness :
    checkSettings demoReader "full" "witness" = [] ∧
    (∃ actual, demoReader.unmarshal "full" = .ok actual ∧
        (actual.lookup "enabledPlugins").isSome = true ∧
        HasHookCommand actual "SessionStart" "PATH=" ∧
        HasHookCommand actual "SessionStart" "gt nudge deacon session-started" ∧
        HasHookCommand actual "Stop" "gt costs record") ∧
    checkSettings demoReader "nostop" "witness" = ["Stop hook"] :=
  ⟨by decide,
   (checkSettings_eq_nil_iff demoReader "full" "witness" "full" rfl).1 (by decide),
   by decide⟩

/-- C9: an entry flagged `wrongLocation` costs exactly one `os.Remove` of the file and, when
that succeeded, one `os.Remove` of its `.claude` directory; the run over
`before ++ sf :: after` is the run over `before`, these calls, and the run over `after`,
so no `EnsureSettingsForRole`, `HasSession` or `KillSession` is issued for the entry. The
last conjunct: the entries `findSettingsFiles` flags are the files at
`<rig>/witness/.claude/settings.json` and `<rig>/refinery/.claude/settings.json`. -/
theorem Fix_wrongLocation {W : Type} (env : FixEnv W) (before after : List staleSettingsInfo)
    (sf : staleSettingsInfo) (w : W) (e1 : Option String) (w1 : W)
    (hloc : sf.wrongLocation = true)
    (h1 : env.osRemove sf.path (Fix env before w).world = (e1, w1)) :
    (Fix env (before ++ sf :: after) w).calls =
      (Fix env before w).calls ++
        (if e1.isSome then [FixCall.osRemove sf.path]
         else [FixCall.osRemove sf.path, FixCall.osRemove (env.filepathDir sf.path)]) ++
        (Fix env after
          (if e1.isSome then w1 else (env.osRemove (env.filepathDir sf.path) w1).2)).calls ∧
    (∀ (fs : FsView) (townRoot : String), ∀ e ∈ findSettingsFiles fs townRoot,
      e.wrongLocation = true → AtLegacyLocation fs townRoot e) := by
  refine ⟨?_, findSettingsFiles_wrongLocation⟩
  rw [Fix_split, (Fix_single env sf _).1, (Fix_single env sf _).2]
  unfold fixBody
  simp only [h1, hloc]
  cases e1 with
  | none => simp
  | some e => simp

/-- C9, in the demo world: the legacy witness file is removed with its directory, the
witness session is neither queried nor killed, and the run goes on with the next entry. -/
theorem Fix_wrongLocation_witness :
    (Fix demoEnv ([] ++ demoWrong :: [demoStale]) demoWorld).calls =
      [FixCall.osRemove "/t/r/witness/.claude/settings.json",
       FixCall.osRemove "/t/r/witness/.claude"] ++
      (Fix demoEnv [demoStale]
        ⟨["/t/r/refinery/rig/.claude/settings.json"], ["gt-r-witness", "gt-r-refinery"]⟩).calls :=
  ((Fix_wrongLocation demoEnv [] [demoStale] demoWrong demoWorld none
      ⟨["/t/r/refinery/rig/.claude/settings.json"], ["gt-r-witness", "gt-r-refinery"]⟩
      rfl (by decide)).1).trans (by decide)

/-- C10: for a stale entry at the correct location, with `e1` the result of deleting the
file, `e3` the result of `EnsureSettingsForRole` and `running` the answer of `HasSession`,
the calls are, in order: `os.Remove` of the file; then, unless that failed, `os.Remove` of
the `.claude` directory and `EnsureSettingsForRole` on the directory that contains `.claude`
with the entry's agent type; then, unless that failed, `HasSession` on the entry's session;
then `KillSession` on it exactly when `running`. The run over `before ++ sf :: after` is
the run over `before`, these calls, and the run over `after`. -/
theorem Fix_correctLocation {W : Type} (env : FixEnv W)
    (before after : List staleSettingsInfo) (sf : staleSettingsInfo) (w : W)
    (e1 e3 e4 : Option String) (running : Bool) (w1 w2 w3 w4 : W)
    (hloc : sf.wrongLocation = false)
    (h1 : env.osRemove sf.path (Fix env before w).world = (e1, w1))
    (h2 : (env.osRemove (env.filepathDir sf.path) w1).2 = w2)
    (h3 : env.ensureSettingsForRole (env.filepathDir (env.filepathDir sf.path)) sf.agentType w2
      = (e3, w3))
    (h4 : env.hasSession sf.sessionName w3 = ((running, e4), w4)) :
    (Fix env (before ++ sf :: after) w).calls =
      (Fix env before w).calls ++
        (if e1.isSome then [FixCall.osRemove sf.path]
         else if e3.isSome then
           [FixCall.osRemove sf.path, FixCall.osRemove (env.filepathDir sf.path),
            FixCall.ensureSettingsForRole (env.filepathDir (env.filepathDir sf.path))
              sf.agentType]
         else if running then
           [FixCall.osRemove sf.path, FixCall.osRemove (env.filepathDir sf.path),
            FixCall.ensureSettingsForRole (env.filepathDir (env.filepathDir sf.path))
              sf.agentType,
            FixCall.hasSession sf.sessionName, FixCall.killSession sf.sessionName]
         else
           [FixCall.osRemove sf.path, FixCall.osRemove (env.filepathDir sf.path),
            FixCall.ensureSettingsForRole (env.filepathDir (env.filepathDir sf.path))
              sf.agentType,
            FixCall.hasSession sf.sessionName]) ++
        (Fix env after
          (if e1.isSome then w1 else if e3.isSome then w3
           else if running then (env.killSession sf.sessionName w4).2 else w4)).calls := by
  rw [Fix_split, (Fix_single env sf _).1, (Fix_single env sf _).2]
  unfold fixBody
  simp only [h1, hloc]
  cases e1 with
  | some e => simp
  | none =>
    simp only [h2, h3]
    cases e3 with
    | some e => simp
    | none =>
      simp only [h4]
      cases running <;> simp

/-- C10, in the demo world: the stale refinery file is removed with its directory, the
settings are regenerated in `/t/r/refinery/rig`, and the running session is killed. -/
theorem Fix_correctLocation_witness :
    (Fix demoEnv ([] ++ demoStale :: []) demoWorld).calls =
      [FixCall.osRemove "/t/r/refinery/rig/.claude/settings.json",
       FixCall.osRemove "/t/r/refinery/rig/.claude",
       FixCall.ensureSettingsForRole "/t/r/refinery/rig" "refinery",
       FixCall.hasSession "gt-r-refinery",
       FixCall.killSession "gt-r-refinery"] :=
  (Fix_correctLocation demoEnv [] [] demoStale demoWorld none none none true
      ⟨["/t/r/witness/.claude/settings.json"], ["gt-r-witness", "gt-r-refinery"]⟩
      ⟨["/t/r/witness/.claude/settings.json"], ["gt-r-witness", "gt-r-refinery"]⟩
      ⟨["/t/r/refinery/rig/.claude/settings.json", "/t/r/witness/.claude/settings.json"],
        ["gt-r-witness", "gt-r-refinery"]⟩
      ⟨["/t/r/refinery/rig/.claude/settings.json", "/t/r/witness/.claude/settings.json"],
        ["gt-r-witness", "gt-r-refinery"]⟩
      rfl (by decide) (by decide) (by decide) (by decide)).trans (by decide)

/-! ## Claim about the error of `Fix` -/

/-- C11: a failing entry does not stop `Fix`: the run over `before ++ sf :: after` always
goes on to `sf` (its `os.Remove` is issued) and to the entries after it, whatever happened
before. The returned error is nil exactly when no entry failed, and otherwise its message
is the per-entry failure messages, in processing order, joined by `"; "`; an entry fails
with `failed to delete <path>: <err>` when its delete fails and with
`failed to recreate settings for <path>: <err>` when its regeneration fails. -/
theorem Fix_error_aggregation {W : Type} (env : FixEnv W) (l : List staleSettingsInfo)
    (w : W) :
    (Fix env l w).err =
        (if fixFailures env l w = [] then none
         else some ("; ".intercalate (fixFailures env l w))) ∧
    ((Fix env l w).err ≠ none ↔ ∃ m, m ∈ fixFailures env l w) ∧
    (∀ (before after : List staleSettingsInfo) (sf : staleSettingsInfo),
        l = before ++ sf :: after →
        (∃ rest, (Fix env [sf] (Fix env before w).world).calls
            = FixCall.osRemove sf.path :: rest) ∧
        (Fix env l w).calls =
          (Fix env before w).calls ++ (Fix env [sf] (Fix env before w).world).calls ++
            (Fix env after (Fix env [sf] (Fix env before w).world).world).calls) ∧
    (∀ (sf : staleSettingsInfo) (w0 : W),
        (Fix env [sf] w0).err =
          match env.osRemove sf.path w0 with
          | (some e, _) => some ("failed to delete " ++ sf.path ++ ": " ++ e)
          | (none, w1) =>
            if sf.wrongLocation then none
            else
              match env.ensureSettingsForRole (env.filepathDir (env.filepathDir sf.path))
                  sf.agentType (env.osRemove (env.filepathDir sf.path) w1).2 with
              | (some e, _) => some ("failed to recreate settings for " ++ sf.path ++ ": " ++ e)
              | (none, _) => none) := by
  have herr := Fix_err env l w
  rw [fixLoop_errors] at herr
  refine ⟨herr, ?_, ?_, ?_⟩
  · rw [herr]
    cases h : fixFailures env l w with
    | nil => simp
    | cons m ms => simp
  · intro before after sf hl
    subst hl
    refine ⟨?_, Fix_split env before after sf w⟩
    rw [(Fix_single env sf _).1]
    unfold fixBody
    dsimp only
    repeat' split
    all_goals simp
  · intro sf w0
    rw [Fix_err]
    simp only [List.foldl_cons, List.foldl_nil]
    unfold fixBody
    dsimp only
    repeat' split
    all_goals simp_all [intercalate_singleton]

/-- C11, in the demo world: the legacy file is listed twice, so its second delete fails;
the stale refinery entry in between and the entry after the failure are still processed,
and the error carries the one failure message. -/
theorem Fix_error_aggregation_witness :
    (Fix demoEnv [demoWrong, demoWrong, demoStale] demoWorld).err =
      some "failed to delete /t/r/witness/.claude/settings.json: no such file or directory" ∧
    (Fix demoEnv [demoWrong, demoWrong, demoStale] demoWorld).calls =
      [FixCall.osRemove "/t/r/witness/.claude/settings.json",
       FixCall.osRemove "/t/r/witness/.claude",
       FixCall.osRemove "/t/r/witness/.claude/settings.json",
       FixCall.osRemove "/t/r/refinery/rig/.claude/settings.json",
       FixCall.osRemove "/t/r/refinery/rig/.claude",
       FixCall.ensureSettingsForRole "/t/r/refinery/rig" "refinery",
       FixCall.hasSession "gt-r-refinery",
       FixCall.killSession "gt-r-refinery"] :=
  ⟨(Fix_error_aggregation demoEnv [demoWrong, demoWrong, demoStale] demoWorld).1.trans
      (by decide),
   by decide⟩

/-! ## Claims about the git operations -/

/-- C12 (as stated, refuted): with remote `--force` the one git invocation of
`ForcePushBranch` carries the argument `--force`. -/
theorem ForcePushBranch_force_counterexample :
    ¬ (∀ c ∈ (ForcePushBranch demoGit "/w" "--force" "main" ⟨demoRepo, []⟩).2.log,
        "--force" ∉ c.2) := by
  decide

/-- C12 (amended): for every workDir, remote and branch, `ForcePushBranch` runs exactly one
git command, with the argument vector `["push", "--force-with-lease", remote, branch]`; the
two arguments the function supplies never are `--force`, and the vector contains
`--force` exactly when `remote` or `branch` is that string. -/
theorem ForcePushBranch_args {W : Type} (env : GitEnv W) (workDir remote branch : String)
    (w : W) :
    (ForcePushBranch env workDir remote branch ⟨w, []⟩).2.log =
      [(workDir, ["push", "--force-with-lease", remote, branch])] ∧
    ((∃ c ∈ (ForcePushBranch env workDir remote branch ⟨w, []⟩).2.log, "--force" ∈ c.2) ↔
      (remote = "--force" ∨ branch = "--force")) := by
  have hlog : (ForcePushBranch env workDir remote branch ⟨w, []⟩).2.log =
      [(workDir, ["push", "--force-with-lease", remote, branch])] := by
    unfold ForcePushBranch git
    dsimp only
    split <;> rfl
  refine ⟨hlog, ?_⟩
  rw [hlog]
  have h1 : ¬ ("--force" = "push") := by decide
  have h2 : ¬ ("--force" = "--force-with-lease") := by decide
  simp [h1, h2, eq_comm]

/-- C13 (divergence): called with `HEAD` detached, `git branch --show-current` prints
nothing, so `origBranch` is empty and the deferred restore is `git checkout ""`, which
fails; its error is discarded. `CheckConflicts` and `RebaseBranch` both return without
an error and leave the worktree on `feature`, not where it was when they were called. -/
theorem detached_HEAD_not_restored :
    (getCurrentBranch demoGit "/w" ⟨demoDetached, []⟩).1 = ("", none) ∧
    (demoGitRun "/w" ["checkout", ""] { demoDetached with current := "feature" }).1.err
      ≠ none ∧
    (CheckConflicts demoGit "/w" "feature" "main" ⟨demoDetached, []⟩).2.log.getLast?
      = some ("/w", ["checkout", ""]) ∧
    (CheckConflicts demoGit "/w" "feature" "main" ⟨demoDetached, []⟩).1.2 = none ∧
    (CheckConflicts demoGit "/w" "feature" "main" ⟨demoDetached, []⟩).2.world.current
      = "feature" ∧
    (CheckConflicts demoGit "/w" "feature" "main" ⟨demoDetached, []⟩).2.world.current
      ≠ demoDetached.current ∧
    (RebaseBranch demoGit "/w" "feature" "topic" ⟨demoDetached, []⟩).2.log.getLast?
      = some ("/w", ["checkout", ""]) ∧
    (RebaseBranch demoGit "/w" "feature" "topic" ⟨demoDetached, []⟩).1.2 = none ∧
    (RebaseBranch demoGit "/w" "feature" "topic" ⟨demoDetached, []⟩).2.world.current
      ≠ demoDetached.current := by
  decide

/-- C14: when reading the current branch and checking out `branch` succeed, `CheckConflicts`
runs the trial merge, then `git merge --abort`, then (only when the merge exited non-zero)
`git diff --name-only --diff-filter=U`, then the restoring checkout. The result is
`(nil, nil)` exactly when the merge exited zero; otherwise it is, with a nil error, a
`ConflictInfo` with the two branch arguments and, as `Files`, the non-empty trimmed lines
of what that `git diff` printed (no files when the `git diff` itself failed). -/
theorem CheckConflicts_spec {W : Type} (env : GitEnv W) (workDir branch baseBranch : String)
    (w w1 w2 w3 w4 w5 : W) (r0 r1 r2 r3 r4 : CmdResult)
    (h0 : env.run workDir ["branch", "--show-current"] w = (r0, w1)) (hr0 : r0.err = none)
    (h1 : env.run workDir ["checkout", branch] w1 = (r1, w2)) (hr1 : r1.err = none)
    (h2 : env.run workDir ["merge", "--no-commit", "--no-ff", baseBranch] w2 = (r2, w3))
    (h3 : env.run workDir ["merge", "--abort"] w3 = (r3, w4))
    (h4 : env.run workDir ["diff", "--name-only", "--diff-filter=U"] w4 = (r4, w5)) :
    (CheckConflicts env workDir branch baseBranch ⟨w, []⟩).2.log =
      [(workDir, ["branch", "--show-current"]), (workDir, ["checkout", branch]),
       (workDir, ["merge", "--no-commit", "--no-ff", baseBranch]),
       (workDir, ["merge", "--abort"])] ++
      (if r2.err = none then [] else [(workDir, ["diff", "--name-only", "--diff-filter=U"])]) ++
      [(workDir, ["checkout", stringsTrimSpace r0.stdout])] ∧
    ((CheckConflicts env workDir branch baseBranch ⟨w, []⟩).1 = (none, none) ↔ r2.err = none) ∧
    (r2.err ≠ none →
      (CheckConflicts env workDir branch baseBranch ⟨w, []⟩).1 =
        (some { Branch := branch, BaseBranch := baseBranch,
                Files := if r4.err = none then nonEmptyTrimmedLines r4.stdout else [],
                PRNumber := 0 }, none)) := by
  have hb := getCurrentBranch_eq env workDir ⟨w, []⟩ r0 w1 h0
  unfold CheckConflicts
  rw [hb]
  simp only [hr0, git, h1, hr1, h2, h3, List.nil_append]
  cases hr2 : r2.err with
  | none => simp
  | some e =>
    have hd := getConflictingFiles_eq env workDir
      { world := w4,
        log := [(workDir, ["branch", "--show-current"]), (workDir, ["checkout", branch]),
          (workDir, ["merge", "--no-commit", "--no-ff", baseBranch]),
          (workDir, ["merge", "--abort"])] } r4 w5 h4
    simp only [List.cons_append, List.nil_append] at hd ⊢
    rw [hd]
    simp

/-- C14, in the small git: `feature` conflicts with `main`; the abort comes between the
merge and the restoring checkout, and the result is a `ConflictInfo` with a nil error. -/
theorem CheckConflicts_spec_witness :
    (CheckConflicts demoGit "/w" "feature" "main" ⟨demoRepo, []⟩).2.log =
      [("/w", ["branch", "--show-current"]), ("/w", ["checkout", "feature"]),
       ("/w", ["merge", "--no-commit", "--no-ff", "main"]), ("/w", ["merge", "--abort"]),
       ("/w", ["diff", "--name-only", "--diff-filter=U"]), ("/w", ["checkout", "main"])] :=
  (CheckConflicts_spec demoGit "/w" "feature" "main" demoRepo demoRepo
      { demoRepo with current := "feature" }
      { demoRepo with current := "feature", unmerged := ["README.md"] }
      { demoRepo with current := "feature" } { demoRepo with current := "feature" }
      (cmdOk "main\n") (cmdOk "")
      (cmdFail "CONFLICT (content): Merge conflict in README.md") (cmdOk "") (cmdOk "")
      (by decide) (by decide) (by decide) (by decide) (by decide) (by decide)
      (by decide)).1.trans (by decide)

/-- C15: when reading the current branch and checking out `branch` succeed, `RebaseBranch`
counts the commits with `git rev-list --count onto..branch` and then runs
`git rebase onto`. When the rebase exits non-zero it reads the conflicting files, runs
`git rebase --abort`, and returns, with a nil error, `Success = false`, the two branch
arguments, a non-nil `Conflicts` carrying the files, and the message
`Rebase failed with conflicts in N file(s)` with `N` the number of those files. When the
rebase exits zero it returns `Success = true`, nil `Conflicts` and, as `CommitCount`, the
count read before the rebase (0 when `git rev-list` failed). -/
theorem RebaseBranch_spec {W : Type} (env : GitEnv W) (workDir branch ontoBranch : String)
    (w w1 w2 w3 w4 w5 : W) (r0 r1 r2 r3 r4 : CmdResult)
    (h0 : env.run workDir ["branch", "--show-current"] w = (r0, w1)) (hr0 : r0.err = none)
    (h1 : env.run workDir ["checkout", branch] w1 = (r1, w2)) (hr1 : r1.err = none)
    (h2 : env.run workDir ["rev-list", "--count", ontoBranch ++ ".." ++ branch] w2 = (r2, w3))
    (h3 : env.run workDir ["rebase", ontoBranch] w3 = (r3, w4))
    (h4 : env.run workDir ["diff", "--name-only", "--diff-filter=U"] w4 = (r4, w5)) :
    (r3.err ≠ none →
      (RebaseBranch env workDir branch ontoBranch ⟨w, []⟩).2.log =
        [(workDir, ["branch", "--show-current"]), (workDir, ["checkout", branch]),
         (workDir, ["rev-list", "--count", ontoBranch ++ ".." ++ branch]),
         (workDir, ["rebase", ontoBranch]),
         (workDir, ["diff", "--name-only", "--diff-filter=U"]),
         (workDir, ["rebase", "--abort"]),
         (workDir, ["checkout", stringsTrimSpace r0.stdout])] ∧
      (RebaseBranch env workDir branch ontoBranch ⟨w, []⟩).1 =
        (some { Branch := branch, BaseBranch := ontoBranch, Success := false,
                Conflicts := some {
                  Branch := branch, BaseBranch := ontoBranch,
                  Files := if r4.err = none then nonEmptyTrimmedLines r4.stdout else [],
                  PRNumber := 0 },
                CommitCount := 0,
                Message := "Rebase failed with conflicts in " ++
                  toString (if r4.err = none then nonEmptyTrimmedLines r4.stdout
                    else []).length ++ " file(s)" }, none)) ∧
    (r3.err = none →
      (RebaseBranch env workDir branch ontoBranch ⟨w, []⟩).2.log =
        [(workDir, ["branch", "--show-current"]), (workDir, ["checkout", branch]),
         (workDir, ["rev-list", "--count", ontoBranch ++ ".." ++ branch]),
         (workDir, ["rebase", ontoBranch]),
         (workDir, ["checkout", stringsTrimSpace r0.stdout])] ∧
      (RebaseBranch env workDir branch ontoBranch ⟨w, []⟩).1.2 = none ∧
      ∃ result, (RebaseBranch env workDir branch ontoBranch ⟨w, []⟩).1.1 = some result ∧
        result.Success = true ∧ result.Conflicts = none ∧
        result.Branch = branch ∧ result.BaseBranch = ontoBranch ∧
        result.CommitCount =
          (if r2.err = none then (env.sscanInt (stringsTrimSpace r2.stdout)).1 else 0)) := by
  have hb := getCurrentBranch_eq env workDir ⟨w, []⟩ r0 w1 h0
  have hc := countCommits_eq env workDir ontoBranch branch
    { world := w2,
      log := [(workDir, ["branch", "--show-current"]), (workDir, ["checkout", branch])] }
    r2 w3 h2
  have hd := getConflictingFiles_eq env workDir
    { world := w4,
      log := [(workDir, ["branch", "--show-current"]), (workDir, ["checkout", branch]),
        (workDir, ["rev-list", "--count", ontoBranch ++ ".." ++ branch]),
        (workDir, ["rebase", ontoBranch])] } r4 w5 h4
  simp only [List.cons_append, List.nil_append] at hc hd
  unfold RebaseBranch
  rw [hb]
  simp only [hr0, git, h1, hr1, List.nil_append, List.cons_append, hc, h3]
  constructor
  · intro hr3
    obtain ⟨e, he⟩ := Option.ne_none_iff_exists'.1 hr3
    simp only [he, hd]
    simp
  · intro hr3
    simp only [hr3]
    cases hr2 : r2.err with
    | none => simp
    | some e => simp

/-- C15, in the small git: rebasing `feature` onto `main` conflicts in `README.md`. -/
theorem RebaseBranch_spec_witness :
    (RebaseBranch demoGit "/w" "feature" "main" ⟨demoRepo, []⟩).1 =
      (some { Branch := "feature", BaseBranch := "main", Success := false,
              Conflicts := some { Branch := "feature", BaseBranch := "main",
                                  Files := ["README.md"], PRNumber := 0 },
              CommitCount := 0,
              Message := "Rebase failed with conflicts in 1 file(s)" }, none) :=
  ((RebaseBranch_spec demoGit "/w" "feature" "main" demoRepo demoRepo
      { demoRepo with current := "feature" } { demoRepo with current := "feature" }
      { demoRepo with current := "feature", unmerged := ["README.md"] }
      { demoRepo with current := "feature", unmerged := ["README.md"] }
      (cmdOk "main\n") (cmdOk "") (cmdOk "2\n")
      (cmdFail "CONFLICT (content): Merge conflict in README.md") (cmdOk "README.md\n")
      (by decide) (by decide) (by decide) (by decide) (by decide) (by decide)
      (by decide)).1 (by decide)).2.trans (by decide)

/-! ## Claims about the cache cleaner -/

/-- C16 (divergence): with a Claude process running, `--full` given without `--clean` and
without `--force`, `runDoctorCache` returns nil and leaves nothing at or below the cache
directory: the guard on active sessions tests `cacheClean` only, while the cleaning branch
is entered on `cacheClean || cacheFull`. With `--clean` added the same call is refused and
the file system is untouched. -/
theorem runDoctorCache_full_ignores_active_sessions :
    getActiveClaudeSessions demoCacheEnv = ["PID 4242"] ∧
    (runDoctorCache demoCacheEnv { cacheFull := true } demoCache).1 = none ∧
    (∀ e ∈ (runDoctorCache demoCacheEnv { cacheFull := true } demoCache).2,
      pathUnder "/h/.claude-cache" e.path = false) ∧
    runDoctorCache demoCacheEnv { cacheFull := true, cacheClean := true } demoCache
      = (none, demoCache) := by
  decide

/-- C17 (as stated, refuted): `debug/old` was last changed on day 1 and holds `fresh.log`,
written on day 99; with a cutoff at day 93 the directory is stale and is removed with
all it holds, so a regular file that is not older than the cutoff is gone. -/
theorem cleanStaleEntries_removes_fresh_file :
    ¬ (∀ e ∈ demoCache, e.isDir = false →
        ¬ e.modTime < demoCacheEnv.addDays demoCacheEnv.now (-7) →
        e ∈ (cleanStaleEntries demoCacheEnv "/h/.claude-cache"
              (collectCacheStats demoCacheEnv demoCache "/h/.claude-cache" 7) false
              demoCache).2) := by
  decide

/-- C17 (amended): in a file system whose paths are distinct, cleaning the stale entries
that `collectCacheStats` found keeps every entry (so every regular file) that is not older
than the cutoff and does not lie below a directory older than the cutoff inside a
cleanable top-level directory. -/
theorem cleanStaleEntries_keeps_fresh (env : CacheEnv) (fs : List FsEntry)
    (cacheDir : String) (maxAgeDays : Int) (e : FsEntry)
    (hnodup : (fs.map (fun x => x.path)).Nodup) (he : e ∈ fs)
    (hfresh : ¬ e.modTime < env.addDays env.now (-maxAgeDays))
    (houtside : ∀ d ∈ fs, d.isDir = true → d.modTime < env.addDays env.now (-maxAgeDays) →
      (∃ c, isCleanableDir c = true ∧ pathUnder (filepathJoin cacheDir c) d.path = true) →
      pathUnder d.path e.path = false) :
    e ∈ (cleanStaleEntries env cacheDir (collectCacheStats env fs cacheDir maxAgeDays) false
          fs).2 := by
  apply cleanStaleEntries_survives _ _ _ _ _ _ he
  · intro s hs hsd
    obtain ⟨⟨d, hd, hpath, hdir, hold⟩, horigin⟩ :=
      collectCacheStats_stale env fs cacheDir maxAgeDays s hs
    rcases horigin with hc | ⟨hfile, _⟩
    · rw [← hpath] at hc ⊢
      exact houtside d hd (hdir.trans hsd) hold hc
    · rw [hsd] at hfile
      cases hfile
  · intro s hs _ hsp
    obtain ⟨⟨d, hd, hpath, _, hold⟩, _⟩ :=
      collectCacheStats_stale env fs cacheDir maxAgeDays s hs
    have hde : d = e := eq_of_path_eq fs hnodup d e hd he (hpath.trans hsp)
    exact hfresh (hde ▸ hold)

/-- C17 (amended), in the small cache: `top.txt`, written on day 99, survives. -/
theorem cleanStaleEntries_keeps_fresh_witness :
    ({ path := "/h/.claude-cache/top.txt", isDir := false, size := 5,
       modTime := 99 * demoDay } : FsEntry) ∈
      (cleanStaleEntries demoCacheEnv "/h/.claude-cache"
        (collectCacheStats demoCacheEnv demoCache "/h/.claude-cache" 7) false demoCache).2 :=
  cleanStaleEntries_keeps_fresh demoCacheEnv demoCache "/h/.claude-cache" 7
    { path := "/h/.claude-cache/top.txt", isDir := false, size := 5, modTime := 99 * demoDay }
    (by decide) (by decide) (by decide)
    (fun d hd hdir hold _ =>
      (by decide : ∀ d ∈ demoCache, d.isDir = true →
        d.modTime < demoCacheEnv.addDays demoCacheEnv.now (-7) →
        pathUnder d.path "/h/.claude-cache/top.txt" = false) d hd hdir hold)

/-- C18: cleaning the stale entries that `collectCacheStats` found, dry run or not, keeps
every file and directory below a top-level directory whose name is not one of `debug`,
`shell-snapshots`, `session-env`, `telemetry`, `file-history`; `isCleanableDir` is true for
exactly these five names, so it is false for `projects` and for the empty string. -/
theorem cleanStaleEntries_keeps_uncleanable (env : CacheEnv) (fs : List FsEntry)
    (cacheDir : String) (maxAgeDays : Int) (dryRun : Bool) (d : String) (e : FsEntry)
    (hd : isCleanableDir d = false) (hslash : '/' ∉ d.toList) (he : e ∈ fs)
    (hbelow : stringsHasPrefix e.path (filepathJoin cacheDir d ++ "/") = true) :
    e ∈ (cleanStaleEntries env cacheDir (collectCacheStats env fs cacheDir maxAgeDays) dryRun
          fs).2 ∧
    (∀ name, isCleanableDir name = true ↔
      (name = "debug" ∨ name = "shell-snapshots" ∨ name = "session-env" ∨
        name = "telemetry" ∨ name = "file-history")) ∧
    isCleanableDir "projects" = false ∧ isCleanableDir "" = false := by
  refine ⟨?_, isCleanableDir_iff, by decide, by decide⟩
  have key : ∀ c p, isCleanableDir c = true → pathUnder (filepathJoin cacheDir c) p = true →
      pathUnder p e.path = true → False := by
    intro c p hc hcp hpe
    have hce := pathUnder_trans _ _ _ hcp hpe
    have := top_level_disjoint cacheDir c d e.path (isCleanableDir_slashFree c hc) hslash
      hce hbelow
    rw [this, hd] at hc
    cases hc
  have hself : ∀ p : String, p = e.path → pathUnder p e.path = true := by
    intro p hp
    rw [pathUnder_iff]
    exact Or.inl hp.symm
  apply cleanStaleEntries_survives _ _ _ _ _ _ he
  · intro s hs hsd
    obtain ⟨_, horigin⟩ := collectCacheStats_stale env fs cacheDir maxAgeDays s hs
    rcases horigin with ⟨c, hc, hcp⟩ | ⟨hfile, _⟩
    · cases hu : pathUnder s.Path e.path with
      | false => rfl
      | true => exact (key c s.Path hc hcp hu).elim
    · rw [hsd] at hfile
      cases hfile
  · intro s hs _ hsp
    obtain ⟨_, horigin⟩ := collectCacheStats_stale env fs cacheDir maxAgeDays s hs
    rcases horigin with ⟨c, hc, hcp⟩ | ⟨_, n, hn, hpn⟩
    · exact key c s.Path hc hcp (hself _ hsp)
    · exact top_level_file_not_below cacheDir n d e.path hn (hsp ▸ hpn) hbelow

/-- C18, in the small cache: `projects/data.json`, from day 1, is kept. -/
theorem cleanStaleEntries_keeps_uncleanable_witness :
    ({ path := "/h/.claude-cache/projects/data.json", isDir := false, size := 500,
       modTime := 1 * demoDay } : FsEntry) ∈
      (cleanStaleEntries demoCacheEnv "/h/.claude-cache"
        (collectCacheStats demoCacheEnv demoCache "/h/.claude-cache" 7) false demoCache).2 :=
  (cleanStaleEntries_keeps_uncleanable demoCacheEnv demoCache "/h/.claude-cache" 7 false
    "projects"
    { path := "/h/.claude-cache/projects/data.json", isDir := false, size := 500,
      modTime := 1 * demoDay }
    (by decide) (by decide) (by decide) (by decide)).1

/-- C19: with `dryRun = true`, `cleanStaleEntries` and `cleanFullCache` return nil and
the file system they leave is the one they were given, for every cache directory and
every stats value: nothing is removed and no manifest is written. -/
theorem dryRun_leaves_file_system (env : CacheEnv) (cacheDir : String) (stats : CacheStats)
    (fs : List FsEntry) :
    cleanStaleEntries env cacheDir stats true fs = (none, fs) ∧
    cleanFullCache env cacheDir true fs = (none, fs) :=
  ⟨cleanStaleEntries_dryRun_eq env cacheDir stats fs, rfl⟩

/-- C20 (divergence): a cache directory that holds one regular file of 5 bytes has one
regular file, yet `collectCacheStats` reports `TotalFiles = 2`: the file is counted by the
loop over the top-level entries and again by the walk over the whole cache. `TotalSize`
and `TotalDirs` are as claimed (5 and 0). -/
theorem collectCacheStats_counts_top_level_file_twice :
    ((fsWalk demoOneFile "/h/.claude-cache").filter (fun e => !e.isDir)).length = 1 ∧
    (collectCacheStats demoCacheEnv demoOneFile "/h/.claude-cache" 7).TotalFiles = 2 ∧
    (collectCacheStats demoCacheEnv demoOneFile "/h/.claude-cache" 7).TotalSize = 5 ∧
    (collectCacheStats demoCacheEnv demoOneFile "/h/.claude-cache" 7).TotalDirs = 0 := by
  decide

/-! ## Claims about `getAgeBucket`, `formatSize`, the GH client and `killProcessGroup` -/

/-- C21: for every duration `age` (in nanoseconds), `getAgeBucket` returns `<1 day`
exactly when `age < 24h`, `1-7 days` exactly when `24h ≤ age < 7·24h`, `7-30 days` exactly
when `7·24h ≤ age < 30·24h`, and `>30 days` exactly when `age ≥ 30·24h`; the result is one
of the four labels `displayCacheStats` prints, and a longer age never gets an earlier
label. -/
theorem getAgeBucket_spec (age : Int) :
    (getAgeBucket age = "<1 day" ↔ age < 24 * (3600 * 1000000000)) ∧
    (getAgeBucket age = "1-7 days" ↔
      24 * (3600 * 1000000000) ≤ age ∧ age < 7 * 24 * (3600 * 1000000000)) ∧
    (getAgeBucket age = "7-30 days" ↔
      7 * 24 * (3600 * 1000000000) ≤ age ∧ age < 30 * 24 * (3600 * 1000000000)) ∧
    (getAgeBucket age = ">30 days" ↔ 30 * 24 * (3600 * 1000000000) ≤ age) ∧
    getAgeBucket age ∈ ageBuckets ∧
    (∀ later : Int, age ≤ later →
      bucketRank (getAgeBucket age) ≤ bucketRank (getAgeBucket later)) := by
  have d12 : ("<1 day" : String) ≠ "1-7 days" := by decide
  have d13 : ("<1 day" : String) ≠ "7-30 days" := by decide
  have d14 : ("<1 day" : String) ≠ ">30 days" := by decide
  have d23 : ("1-7 days" : String) ≠ "7-30 days" := by decide
  have d24 : ("1-7 days" : String) ≠ ">30 days" := by decide
  have d34 : ("7-30 days" : String) ≠ ">30 days" := by decide
  have r1 : bucketRank "<1 day" = 0 := by decide
  have r2 : bucketRank "1-7 days" = 1 := by decide
  have r3 : bucketRank "7-30 days" = 2 := by decide
  have r4 : bucketRank ">30 days" = 3 := by decide
  have cases : ∀ a : Int,
      (a < 24 * (3600 * 1000000000) ∧ getAgeBucket a = "<1 day") ∨
      (24 * (3600 * 1000000000) ≤ a ∧ a < 7 * 24 * (3600 * 1000000000) ∧
        getAgeBucket a = "1-7 days") ∨
      (7 * 24 * (3600 * 1000000000) ≤ a ∧ a < 30 * 24 * (3600 * 1000000000) ∧
        getAgeBucket a = "7-30 days") ∨
      (30 * 24 * (3600 * 1000000000) ≤ a ∧ getAgeBucket a = ">30 days") := by
    intro a
    unfold getAgeBucket
    by_cases h1 : a < 24 * (3600 * 1000000000)
    · exact Or.inl ⟨h1, by rw [if_pos h1]⟩
    · by_cases h2 : a < 7 * 24 * (3600 * 1000000000)
      · exact Or.inr (Or.inl ⟨by omega, h2, by rw [if_neg h1, if_pos h2]⟩)
      · by_cases h3 : a < 30 * 24 * (3600 * 1000000000)
        · exact Or.inr (Or.inr (Or.inl ⟨by omega, h3,
            by rw [if_neg h1, if_neg h2, if_pos h3]⟩))
        · exact Or.inr (Or.inr (Or.inr ⟨by omega,
            by rw [if_neg h1, if_neg h2, if_neg h3]⟩))
  refine ⟨?_, ?_, ?_, ?_, ?_, ?_⟩
  · rcases cases age with ⟨h, e⟩ | ⟨h, h', e⟩ | ⟨h, h', e⟩ | ⟨h, e⟩ <;> rw [e]
    · exact ⟨fun _ => h, fun _ => rfl⟩
    · exact ⟨fun x => absurd x.symm d12, fun x => by omega⟩
    · exact ⟨fun x => absurd x.symm d13, fun x => by omega⟩
    · exact ⟨fun x => absurd x.symm d14, fun x => by omega⟩
  · rcases cases age with ⟨h, e⟩ | ⟨h, h', e⟩ | ⟨h, h', e⟩ | ⟨h, e⟩ <;> rw [e]
    · exact ⟨fun x => absurd x d12, fun x => by omega⟩
    · exact ⟨fun _ => ⟨h, h'⟩, fun _ => rfl⟩
    · exact ⟨fun x => absurd x.symm d23, fun x => by omega⟩
    · exact ⟨fun x => absurd x.symm d24, fun x => by omega⟩
  · rcases cases age with ⟨h, e⟩ | ⟨h, h', e⟩ | ⟨h, h', e⟩ | ⟨h, e⟩ <;> rw [e]
    · exact ⟨fun x => absurd x d13, fun x => by omega⟩
    · exact ⟨fun x => absurd x d23, fun x => by omega⟩
    · exact ⟨fun _ => ⟨h, h'⟩, fun _ => rfl⟩
    · exact ⟨fun x => absurd x.symm d34, fun x => by omega⟩
  · rcases cases age with ⟨h, e⟩ | ⟨h, h', e⟩ | ⟨h, h', e⟩ | ⟨h, e⟩ <;> rw [e]
    · exact ⟨fun x => absurd x d14, fun x => by omega⟩
    · exact ⟨fun x => absurd x d24, fun x => by omega⟩
    · exact ⟨fun x => absurd x d34, fun x => by omega⟩
    · exact ⟨fun _ => h, fun _ => rfl⟩
  · rcases cases age with ⟨_, e⟩ | ⟨_, _, e⟩ | ⟨_, _, e⟩ | ⟨_, e⟩ <;> rw [e] <;> decide
  · intro later hle
    rcases cases age with ⟨h, e⟩ | ⟨h, h', e⟩ | ⟨h, h', e⟩ | ⟨h, e⟩ <;>
      rcases cases later with ⟨k, f⟩ | ⟨k, k', f⟩ | ⟨k, k', f⟩ | ⟨k, f⟩ <;>
      rw [e, f] <;> simp only [r1, r2, r3, r4] <;> omega

/-- C22 (as stated, refuted): for `b = 2305843009267381043` the quotient `b / 1024³` lies
strictly between 2147483648.0 and 2147483648.05, so with one decimal it is 2147483648.0
(the nearest tenth, and the tenth below), but `formatSize` prints `2147483648.1GB`: the
function divides `float64(b)`, which is `b` rounded up to 2305843009267381248. It is not
rounding up either: 1025 / 1024 lies above 1.0 and `formatSize 1025` is `1.0KB`. -/
theorem formatSize_not_exact_quotient :
    formatSize 2305843009267381043 = "2147483648.1GB" ∧
    float64 2305843009267381043 = 2305843009267381248 ∧
    21474836480 * 1024 ^ 3 < 10 * (2305843009267381043 : Int) ∧
    2 * (10 * (2305843009267381043 : Int)) < (2 * 21474836480 + 1) * 1024 ^ 3 ∧
    IsNearestTenth 2305843009267381043 (1024 ^ 3) 21474836480 ∧
    ¬ IsNearestTenth 2305843009267381043 (1024 ^ 3) 21474836481 ∧
    formatSize 1025 = "1.0KB" := by
  decide

/-- C22 (amended): for every byte count `b`, `formatSize` prints the decimal integer `b`
followed by `B` when `b < 1024`. Otherwise it prints `float64(b)` divided by the largest
of 1024, 1024², 1024³ that does not exceed `b`, rounded to the nearest tenth (to the even
tenth when two are equally near, which determines the tenth), as an integer part, a point
and exactly one decimal digit, followed by `KB`, `MB` or `GB` respectively. Here
`float64(b)` is `b` itself when `b < 2^53`; for `2^53 ≤ b < 2^63` it is `b` rounded to 53
significant binary digits: with `2^(52+s) ≤ b < 2^(53+s)`, the nearest multiple of `2^s`,
the even multiple when two are equally near. -/
theorem formatSize_float64 (b : Int) :
    (b < 1024 → formatSize b = toString b ++ "B") ∧
    (1024 ≤ b → b < 1024 ^ 2 →
      ∃ t : Int, 0 ≤ t ∧ IsNearestTenth (float64 b) 1024 t ∧
        (toString (t % 10)).length = 1 ∧
        formatSize b = toString (t / 10) ++ "." ++ toString (t % 10) ++ "KB") ∧
    (1024 ^ 2 ≤ b → b < 1024 ^ 3 →
      ∃ t : Int, 0 ≤ t ∧ IsNearestTenth (float64 b) (1024 ^ 2) t ∧
        (toString (t % 10)).length = 1 ∧
        formatSize b = toString (t / 10) ++ "." ++ toString (t % 10) ++ "MB") ∧
    (1024 ^ 3 ≤ b →
      ∃ t : Int, 0 ≤ t ∧ IsNearestTenth (float64 b) (1024 ^ 3) t ∧
        (toString (t % 10)).length = 1 ∧
        formatSize b = toString (t / 10) ++ "." ++ toString (t % 10) ++ "GB") ∧
    (∀ n d t t' : Int, 0 < d → IsNearestTenth n d t → IsNearestTenth n d t' → t = t') ∧
    (0 ≤ b → b < 2 ^ 53 → float64 b = b) ∧
    (2 ^ 53 ≤ b → b < 2 ^ 63 →
      ∃ s : Nat, 0 < s ∧ (2 : Int) ^ (52 + s) ≤ b ∧ b < 2 ^ (53 + s) ∧
        (∃ m : Int, float64 b = m * 2 ^ s ∧
          (2 * (b - float64 b) = 2 ^ s ∨ 2 * (b - float64 b) = -2 ^ s → m % 2 = 0)) ∧
        -2 ^ s ≤ 2 * (b - float64 b) ∧ 2 * (b - float64 b) ≤ 2 ^ s) := by
  have e2 : (1024 : Int) ^ 2 = 1024 * 1024 := by norm_num
  have e3 : (1024 : Int) ^ 3 = 1024 * 1024 * 1024 := by norm_num
  have hf0 : 1024 ≤ b → 0 ≤ float64 b := by
    intro hb
    by_cases hlt : b < 2 ^ 53
    · rw [float64_of_lt b (by omega) hlt]
      omega
    · unfold float64
      dsimp only
      rw [if_neg (by omega)]
      exact mul_nonneg (roundHalfEven_nonneg _ _ (Int.ofNat_nonneg _) (by positivity))
        (by positivity)
  have hprint : ∀ (u : Int) (suffix : String), 0 < u → 1024 ≤ b →
      ∃ t : Int, 0 ≤ t ∧ IsNearestTenth (float64 b) u t ∧
        (toString (t % 10)).length = 1 ∧
        sprintfF1 (float64 b) u ++ suffix =
          toString (t / 10) ++ "." ++ toString (t % 10) ++ suffix := by
    intro u suffix hu hb
    exact ⟨roundHalfEven (10 * float64 b) u,
      roundHalfEven_nonneg _ _ (by have := hf0 hb; omega) hu,
      roundHalfEven_isNearestTenth _ _ hu, toString_digit_length _, rfl⟩
  rw [e2, e3]
  refine ⟨?_, ?_, ?_, ?_, isNearestTenth_unique, float64_of_lt b, float64_of_ge b⟩
  · intro h
    unfold formatSize
    rw [if_neg (by omega), if_neg (by omega), if_neg (by omega)]
  · intro h h'
    unfold formatSize
    rw [if_neg (by omega), if_neg (by omega), if_pos h]
    exact hprint 1024 "KB" (by decide) h
  · intro h h'
    unfold formatSize
    rw [if_neg (by omega), if_pos h]
    exact hprint (1024 * 1024) "MB" (by decide) (by omega)
  · intro h
    unfold formatSize
    rw [if_pos h]
    exact hprint (1024 * 1024 * 1024) "GB" (by decide) (by omega)

/-- C22 (amended), at the inputs of `TestFormatSize`: 0 gives `0B`, 1536 gives `1.5KB`,
1024² gives `1.0MB` and 2.5·1024³ gives `2.5GB`; and 1280 bytes, 1.25 KB, are printed
with the even tenth, `1.2KB`. -/
theorem formatSize_float64_witness :
    formatSize 0 = "0B" ∧
    formatSize 1536 = "1.5KB" ∧
    formatSize (1024 * 1024) = "1.0MB" ∧
    formatSize 2684354560 = "2.5GB" ∧
    formatSize 1280 = "1.2KB" ∧
    float64 2684354560 = 2684354560 :=
  ⟨((formatSize_float64 0).1 (by decide)).trans (by decide), by decide, by decide,
   by decide, by decide,
   (formatSize_float64 2684354560).2.2.2.2.2.1 (by decide) (by decide)⟩

/-- C23: for every GH client, workDir and prNumber, `GetPRCIStatusWithClient` makes one
call, `GetPRChecks(workDir, prNumber)`; when it returns an error the result is a nil
status and that same error, otherwise `aggregateCIStatus(prNumber, checks)` with a nil
error. Likewise `GetPRReviewStatusWithClient` makes one call,
`GetPRReviews(workDir, prNumber)`, and returns `("", 0, err)` on an error and
`parseReviewStatus(info)` otherwise. The last conjunct is the stub: each call adds one
entry to its `CallLog`. -/
theorem WithClient_spec {C : Type} (client : GHClient C) (workDir : String)
    (prNumber : Int) (c : C) :
    (GetPRCIStatusWithClient client workDir prNumber ⟨c, []⟩).2.calls =
      [{ Method := "GetPRChecks", WorkDir := workDir, PRNumber := prNumber }] ∧
    (GetPRCIStatusWithClient client workDir prNumber ⟨c, []⟩).2.client =
      (client.GetPRChecks workDir prNumber c).2 ∧
    (∀ err, (client.GetPRChecks workDir prNumber c).1.2 = some err →
      (GetPRCIStatusWithClient client workDir prNumber ⟨c, []⟩).1 = (none, some err)) ∧
    ((client.GetPRChecks workDir prNumber c).1.2 = none →
      (GetPRCIStatusWithClient client workDir prNumber ⟨c, []⟩).1 =
        (some (aggregateCIStatus prNumber (client.GetPRChecks workDir prNumber c).1.1),
         none)) ∧
    (GetPRReviewStatusWithClient client workDir prNumber ⟨c, []⟩).2.calls =
      [{ Method := "GetPRReviews", WorkDir := workDir, PRNumber := prNumber }] ∧
    (GetPRReviewStatusWithClient client workDir prNumber ⟨c, []⟩).2.client =
      (client.GetPRReviews workDir prNumber c).2 ∧
    (∀ err, (client.GetPRReviews workDir prNumber c).1.2 = some err →
      (GetPRReviewStatusWithClient client workDir prNumber ⟨c, []⟩).1 =
        some ("", 0, some err)) ∧
    (∀ info, (client.GetPRReviews workDir prNumber c).1 = (some info, none) →
      (GetPRReviewStatusWithClient client workDir prNumber ⟨c, []⟩).1 =
        some (parseReviewStatus info)) ∧
    (∀ stub : StubGHClient,
      (GetPRCIStatusWithClient stubGHClient workDir prNumber ⟨stub, []⟩).2.client.CallLog =
        stub.CallLog ++
          [{ Method := "GetPRChecks", WorkDir := workDir, PRNumber := prNumber }] ∧
      (GetPRReviewStatusWithClient stubGHClient workDir prNumber ⟨stub, []⟩).2.client.CallLog =
        stub.CallLog ++
          [{ Method := "GetPRReviews", WorkDir := workDir, PRNumber := prNumber }]) := by
  refine ⟨?_, ?_, ?_, ?_, ?_, ?_, ?_, ?_, ?_⟩
  · unfold GetPRCIStatusWithClient
    dsimp only
    split <;> rfl
  · unfold GetPRCIStatusWithClient
    dsimp only
    split <;> rfl
  · intro err h
    unfold GetPRCIStatusWithClient
    dsimp only
    rw [h]
  · intro h
    unfold GetPRCIStatusWithClient
    dsimp only
    rw [h]
  · unfold GetPRReviewStatusWithClient
    dsimp only
    split <;> rfl
  · unfold GetPRReviewStatusWithClient
    dsimp only
    split <;> rfl
  · intro err h
    unfold GetPRReviewStatusWithClient
    dsimp only
    rw [h]
  · intro info h
    have h1 : (client.GetPRReviews workDir prNumber c).1.1 = some info := by rw [h]
    have h2 : (client.GetPRReviews workDir prNumber c).1.2 = none := by rw [h]
    unfold GetPRReviewStatusWithClient
    dsimp only
    rw [h2, h1]
    rfl
  · intro stub
    constructor
    · unfold GetPRCIStatusWithClient stubGHClient
      dsimp only
      cases stub.ChecksError <;> rfl
    · unfold GetPRReviewStatusWithClient stubGHClient
      dsimp only
      cases stub.ReviewsError <;> rfl

/-- C23, on the stub: an error of `GetPRChecks` is handed back with a nil status, and a
review response is parsed. -/
theorem WithClient_spec_witness :
    (GetPRCIStatusWithClient stubGHClient "/fake/dir" 555
        ⟨{ ChecksError := some "not found" }, []⟩).1 = (none, some "not found") ∧
    (GetPRReviewStatusWithClient stubGHClient "/fake/dir" 1
        ⟨{ ReviewsResponse := some ⟨"APPROVED", [⟨"APPROVED"⟩, ⟨"COMMENTED"⟩]⟩ }, []⟩).1
      = some ("approved", 1, none) :=
  ⟨(WithClient_spec stubGHClient "/fake/dir" 555 { ChecksError := some "not found" }).2.2.1
      "not found" (by decide),
   ((WithClient_spec stubGHClient "/fake/dir" 1
      { ReviewsResponse := some ⟨"APPROVED", [⟨"APPROVED"⟩, ⟨"COMMENTED"⟩]⟩ }).2.2.2.2.2.2.2.1
      ⟨"APPROVED", [⟨"APPROVED"⟩, ⟨"COMMENTED"⟩]⟩ (by decide)).trans (by decide)⟩

/-- C25: on Unix, for every process group and every `sig`, `killProcessGroup` sends one
signal, to the negated `pgid` (the process group), `SIGKILL` when `sig` is 9 and `SIGTERM`
for every other value, and returns what `syscall.Kill` returns; the negation is the
mathematical one for every `int` but the least. On Windows it sends nothing and returns
nil. -/
theorem killProcessGroup_spec {W : Type} (kill : Int → Signal → W → Option String × W)
    (pgid sig : Int) (w : W) :
    (Unix.killProcessGroup kill pgid sig ⟨w, []⟩).2.sent =
      [(goNeg pgid, if sig = 9 then Signal.SIGKILL else Signal.SIGTERM)] ∧
    (Unix.killProcessGroup kill pgid sig ⟨w, []⟩).1 =
      (kill (goNeg pgid) (if sig = 9 then Signal.SIGKILL else Signal.SIGTERM) w).1 ∧
    (-2 ^ 63 < pgid → pgid < 2 ^ 63 → goNeg pgid = -pgid) ∧
    (Windows.killProcessGroup pgid sig ⟨w, []⟩ : Option String × KillState W).1 = none ∧
    (Windows.killProcessGroup pgid sig ⟨w, []⟩ : Option String × KillState W).2.sent = [] ∧
    (Windows.killProcessGroup pgid sig ⟨w, []⟩ : Option String × KillState W).2.world = w := by
  have hsig : (if sig = sigTERM then Signal.SIGTERM
      else if sig = sigKILL then Signal.SIGKILL else Signal.SIGTERM)
      = (if sig = 9 then Signal.SIGKILL else Signal.SIGTERM) := by
    unfold sigTERM sigKILL
    by_cases h15 : sig = 15
    · have h9 : ¬ sig = 9 := by omega
      rw [if_pos h15, if_neg h9]
    · by_cases h9 : sig = 9
      · simp only [if_neg h15, if_pos h9]
      · simp only [if_neg h15, if_neg h9]
  refine ⟨?_, ?_, ?_, rfl, rfl, rfl⟩
  · unfold Unix.killProcessGroup
    dsimp only
    rw [hsig]
    rfl
  · unfold Unix.killProcessGroup
    dsimp only
    rw [hsig]
  · intro h1 h2
    unfold goNeg
    omega

/-- C25, at process group 4242: signal 9 is `SIGKILL` to -4242, signal 15 and the
unrecognised signal 1 are `SIGTERM` to -4242. -/
theorem killProcessGroup_spec_witness :
    (Unix.killProcessGroup (fun _ _ (w : Unit) => (none, w)) 4242 9 ⟨(), []⟩).2.sent
      = [(-4242, Signal.SIGKILL)] ∧
    (Unix.killProcessGroup (fun _ _ (w : Unit) => (none, w)) 4242 15 ⟨(), []⟩).2.sent
      = [(-4242, Signal.SIGTERM)] ∧
    (Unix.killProcessGroup (fun _ _ (w : Unit) => (none, w)) 4242 1 ⟨(), []⟩).2.sent
      = [(-4242, Signal.SIGTERM)] :=
  ⟨(killProcessGroup_spec (fun _ _ (w : Unit) => (none, w)) 4242 9 ()).1.trans (by decide),
   by decide, by decide⟩

/-! ## Claim about the epic state machine -/

/-- C26: `ValidEpicStateTransition(from, to)` is true exactly for the eight pairs
Drafting→Ready, Drafting→Closed, Ready→InProgress, Ready→Drafting, InProgress→Review,
Review→Submitted, Submitted→Landed, Landed→Closed; so every self-transition,
InProgress→Submitted, Submitted→InProgress and Landed→Drafting are rejected, and Closed has
no outgoing transition. -/
theorem ValidEpicStateTransition_spec :
    (∀ src dst : EpicState, ValidEpicStateTransition src dst = true ↔
      (src, dst) ∈ [(EpicState.Drafting, EpicState.Ready), (.Drafting, .Closed),
        (.Ready, .InProgress), (.Ready, .Drafting), (.InProgress, .Review),
        (.Review, .Submitted), (.Submitted, .Landed), (.Landed, .Closed)]) ∧
    (∀ s : EpicState, ValidEpicStateTransition s s = false) ∧
    ValidEpicStateTransition .InProgress .Submitted = false ∧
    ValidEpicStateTransition .Submitted .InProgress = false ∧
    ValidEpicStateTransition .Landed .Drafting = false ∧
    (∀ dst : EpicState, ValidEpicStateTransition .Closed dst = false) := by
  refine ⟨?_, ?_, rfl, rfl, rfl, ?_⟩
  · intro src dst
    cases src <;> cases dst <;> decide
  · intro s
    cases s <;> rfl
  · intro dst
    cases dst <;> rfl

/-! ## Further claims about `aggregateCIStatus` -/

/-- C24: `aggregateCIStatus` is a function of its input, and its state depends only on
the states that occur: two lists with the same multiset of states get the same state. For
two lists that are rearrangements of one another, moreover, the names of the failed
checks and those of the pending checks are the same up to their order, and the details
of either list are `Failed: ` with its failed names, else `Pending: ` with its pending
names, else `All checks passed`, as its state says. -/
theorem aggregateCIStatus_perm (prNumber : Int) (l₁ l₂ : List PRCheck)
    (h : l₁.Perm l₂) :
    (aggregateCIStatus prNumber l₁).State = (aggregateCIStatus prNumber l₂).State ∧
    (failedNames l₁).Perm (failedNames l₂) ∧
    (pendingNames l₁).Perm (pendingNames l₂) ∧
    (∀ l : List PRCheck, (aggregateCIStatus prNumber l).Details =
      if (aggregateCIStatus prNumber l).State = "failure" then
        "Failed: " ++ ", ".intercalate (failedNames l)
      else if (aggregateCIStatus prNumber l).State = "pending" then
        "Pending: " ++ ", ".intercalate (pendingNames l)
      else "All checks passed") ∧
    (∀ m₁ m₂ : List PRCheck,
      (m₁.map (fun c => c.State)).Perm (m₂.map (fun c => c.State)) →
      (aggregateCIStatus prNumber m₁).State = (aggregateCIStatus prNumber m₂).State) := by
  refine ⟨?_, ?_, ?_, ?_, ?_⟩
  · exact aggregateCIStatus_state_of_states _ _ _ _ (fun s => (h.map _).mem_iff)
  · exact (h.filter _).map _
  · exact (h.filter _).map _
  · intro l
    rw [aggregateCIStatus_details, aggregateCIStatus_state]
    by_cases a : l.any isFailed = true
    · simp [a, stringsJoin]
    · by_cases b : l.any isPending = true
      · have n1 : ¬ ("pending" = "failure") := by decide
        simp [a, b, n1, stringsJoin]
      · have n1 : ¬ ("success" = "failure") := by decide
        have n2 : ¬ ("success" = "pending") := by decide
        simp [a, b, n1, n2]
  · intro m₁ m₂ hm
    exact aggregateCIStatus_state_of_states _ _ _ _ (fun s => hm.mem_iff)

/-- C24, at a list and its reverse: a pending and a failed check give `failure` both
ways round. -/
theorem aggregateCIStatus_perm_witness :
    (aggregateCIStatus 1 [⟨"PENDING", "b", "u"⟩, ⟨"FAILURE", "c", "w"⟩]).State =
      (aggregateCIStatus 1 [⟨"FAILURE", "c", "w"⟩, ⟨"PENDING", "b", "u"⟩]).State :=
  (aggregateCIStatus_perm 1 [⟨"PENDING", "b", "u"⟩, ⟨"FAILURE", "c", "w"⟩]
    [⟨"FAILURE", "c", "w"⟩, ⟨"PENDING", "b", "u"⟩] (List.Perm.swap _ _ _)).1

/-- C29: for every list of checks the state is `success`, `pending` or `failure` (so never
`error`), and the URL is empty whenever the state is not `failure`. -/
theorem aggregateCIStatus_state_url (prNumber : Int) (checks : List PRCheck) :
    ((aggregateCIStatus prNumber checks).State = "success" ∨
      (aggregateCIStatus prNumber checks).State = "pending" ∨
      (aggregateCIStatus prNumber checks).State = "failure") ∧
    (aggregateCIStatus prNumber checks).State ≠ "error" ∧
    ((aggregateCIStatus prNumber checks).State ≠ "failure" →
      (aggregateCIStatus prNumber checks).URL = "") := by
  have hs := aggregateCIStatus_state prNumber checks
  by_cases a : checks.any isFailed = true
  · rw [if_pos a] at hs
    refine ⟨Or.inr (Or.inr hs), ?_, fun h => absurd hs h⟩
    rw [hs]
    decide
  · have hurl : (aggregateCIStatus prNumber checks).URL = "" := by
      rw [aggregateCIStatus_url, foldl_url_of_no_failed _ _ (by simpa using a)]
      rfl
    rw [if_neg a] at hs
    by_cases b : checks.any isPending = true
    · rw [if_pos b] at hs
      refine ⟨Or.inr (Or.inl hs), ?_, fun _ => hurl⟩
      rw [hs]
      decide
    · rw [if_neg b] at hs
      refine ⟨Or.inl hs, ?_, fun _ => hurl⟩
      rw [hs]
      decide

/-- C30: checks whose state is none of `FAILURE`, `ERROR`, `PENDING`, `QUEUED`,
`IN_PROGRESS` do not influence the result: the result on a list is the result on the
list with all such checks removed. -/
theorem aggregateCIStatus_ignores_other (prNumber : Int) (checks : List PRCheck) :
    aggregateCIStatus prNumber checks =
      aggregateCIStatus prNumber
        (checks.filter (fun c => c.State = "FAILURE" ∨ c.State = "ERROR" ∨
          c.State = "PENDING" ∨ c.State = "QUEUED" ∨ c.State = "IN_PROGRESS")) := by
  have hfilter : (checks.filter (fun c => c.State = "FAILURE" ∨ c.State = "ERROR" ∨
      c.State = "PENDING" ∨ c.State = "QUEUED" ∨ c.State = "IN_PROGRESS"))
      = checks.filter (fun c => isFailed c || isPending c) := by
    apply List.filter_congr
    intro c _
    simp [isFailed, isPending, Bool.or_assoc]
  rw [hfilter]
  unfold aggregateCIStatus
  rw [← foldl_filter_relevant]

/-! ## Claims about `Run` and about the skipped stale files -/

/-- C27: after `Run`, the stale settings are the discovered settings files that are
flagged `wrongLocation` or for which `checkSettings` returns a non-empty list (recorded
with that list as `missing`), in discovery order; `checkSettings` is called on exactly the
files that are not flagged, so a flagged file is stale whatever it holds. The status is
`StatusOK` exactly when no file is stale; otherwise it is `StatusError`, the message gives
the number of stale files and `Details` has one line for each. -/
theorem Run_spec (name : String) (fs : FsView) (rd : SettingsReader) (townRoot : String) :
    (Run name fs rd townRoot).2.staleSettings =
      (findSettingsFiles fs townRoot).filterMap (staleSettingsEntry rd) ∧
    (Run name fs rd townRoot).2.staleSettings.map (fun sf => sf.path) =
      ((findSettingsFiles fs townRoot).filter (isStaleSettings rd)).map (fun sf => sf.path) ∧
    (Run name fs rd townRoot).2.reads =
      ((findSettingsFiles fs townRoot).filter (fun sf => !sf.wrongLocation)).map
        (fun sf => sf.path) ∧
    (∀ sf ∈ findSettingsFiles fs townRoot, sf.wrongLocation = true →
      sf ∈ (Run name fs rd townRoot).2.staleSettings) ∧
    ((Run name fs rd townRoot).1.Status = CheckStatus.StatusOK ↔
      (Run name fs rd townRoot).2.staleSettings = []) ∧
    ((Run name fs rd townRoot).2.staleSettings ≠ [] →
      (Run name fs rd townRoot).1.Status = CheckStatus.StatusError ∧
      (Run name fs rd townRoot).1.Message =
        "Found " ++ toString (Run name fs rd townRoot).2.staleSettings.length ++
          " stale Claude settings.json file(s)" ∧
      (Run name fs rd townRoot).1.Details.length =
        (Run name fs rd townRoot).2.staleSettings.length) := by
  obtain ⟨h1, h2, h3⟩ := runLoop_spec rd (findSettingsFiles fs townRoot)
    { staleSettings := [], details := [], reads := [] }
  simp only [List.nil_append, List.length_nil, Nat.zero_add] at h1 h2 h3
  have hv : (Run name fs rd townRoot).2 =
      (findSettingsFiles fs townRoot).foldl (runBody rd)
        { staleSettings := [], details := [], reads := [] } := by
    unfold Run
    dsimp only
    split <;> rfl
  have hstale : (Run name fs rd townRoot).2.staleSettings =
      (findSettingsFiles fs townRoot).filterMap (staleSettingsEntry rd) := by
    rw [hv, h1]
  refine ⟨hstale, ?_, ?_, ?_, ?_, ?_⟩
  · rw [hstale, filterMap_staleSettingsEntry_path]
  · rw [hv, h3]
  · intro sf hsf hw
    rw [hstale, List.mem_filterMap]
    exact ⟨sf, hsf, by simp [staleSettingsEntry, hw]⟩
  · rw [hv]
    unfold Run
    dsimp only
    split
    · rename_i hz
      simp [List.length_eq_zero.1 hz]
    · rename_i hz
      have hne : ¬ ((findSettingsFiles fs townRoot).foldl (runBody rd)
          { staleSettings := [], details := [], reads := [] }).staleSettings = [] :=
        fun h => hz (List.length_eq_zero.2 h)
      simp [hne]
  · intro hne
    rw [hv] at hne ⊢
    have hz : ¬ ((findSettingsFiles fs townRoot).foldl (runBody rd)
        { staleSettings := [], details := [], reads := [] }).staleSettings.length = 0 :=
      fun h => hne (List.length_eq_zero.1 h)
    unfold Run
    dsimp only
    rw [if_neg hz]
    refine ⟨rfl, rfl, ?_⟩
    dsimp only
    rw [h2, h1]

/-- C27, in the town `/t`: the witness settings in `rig/` lack the `Stop` hook and the
witness settings beside `rig/` are at the wrong location; the latter are not read. -/
theorem Run_spec_witness :
    (Run "claude-settings" demoTownFs demoTownReader "/t").2.reads =
      ["/t/.claude/settings.json", "/t/r/witness/rig/.claude/settings.json"] ∧
    (Run "claude-settings" demoTownFs demoTownReader "/t").1.Message =
      "Found 2 stale Claude settings.json file(s)" :=
  ⟨(Run_spec "claude-settings" demoTownFs demoTownReader "/t").2.2.1.trans (by decide),
   by decide⟩

/-- C28 (divergence): the directory `debug/a` and the file `debug/ab.txt` are both stale.
The first loop removes `debug/a`; the second loop skips `debug/ab.txt` because the path of
`debug/a` is a prefix of its path as a string, although the file is not inside that
directory. After the call the file is still there, and removing it would not have
failed. -/
theorem cleanStaleEntries_skips_sibling :
    ({ Path := "/h/.claude-cache/debug/ab.txt", Size := 20, ModTime := 1 * demoDay,
       IsDir := false } : CacheEntry) ∈
      (collectCacheStats demoCacheEnv demoSiblingCache "/h/.claude-cache" 7).Stale ∧
    ({ path := "/h/.claude-cache/debug/ab.txt", isDir := false, size := 20,
       modTime := 1 * demoDay } : FsEntry) ∈
      (cleanStaleEntries demoCacheEnv "/h/.claude-cache"
        (collectCacheStats demoCacheEnv demoSiblingCache "/h/.claude-cache" 7) false
        demoSiblingCache).2 ∧
    (∀ e ∈ (cleanStaleEntries demoCacheEnv "/h/.claude-cache"
        (collectCacheStats demoCacheEnv demoSiblingCache "/h/.claude-cache" 7) false
        demoSiblingCache).2, pathUnder "/h/.claude-cache/debug/a" e.path = false) ∧
    (∀ s ∈ (collectCacheStats demoCacheEnv demoSiblingCache "/h/.claude-cache" 7).Stale,
      s.IsDir = true → pathUnder s.Path "/h/.claude-cache/debug/ab.txt" = false) ∧
    (fsRemove "/h/.claude-cache/debug/ab.txt"
      (cleanStaleEntries demoCacheEnv "/h/.claude-cache"
        (collectCacheStats demoCacheEnv demoSiblingCache "/h/.claude-cache" 7) false
        demoSiblingCache).2).1 = none := by
  decide

end Gastown
